import Mathlib

/-! NDEF record codec of nfcd (`src/interface/NdefRecord.cpp`).

A shallow embedding of `NdefRecord::parse` and `NdefRecord::writeToByteBuffer`
and the properties of the codec that the specification states about them.

Conventions of the embedding.

* `uint8_t` values are `Byte = Fin 256`; a `std::vector<uint8_t>` is a
  `List Byte`.
* `uint32_t` values are natural numbers kept below `2 ^ 32`; every operation
  that can leave that range is followed by an explicit `% UINT32_MOD`.
* The data model is LP64: `int` has 32 bits, `long` and `size_t` have 64 bits,
  so converting a `uint32_t` to `long` keeps its value.
* `buf[i]` on a `std::vector` is unchecked.  An access with `i ≥ buf.size()`
  has no defined behaviour in C++; the embedding stops there with the outcome
  `Outcome.outOfRange`, which is neither `return true` nor `return false`.
-/

namespace Nfcd

/-- One `uint8_t`. -/
abbrev Byte := Fin 256

/-- Number of values of a `uint32_t`, `2 ^ 32`. -/
def UINT32_MOD : Nat := 4294967296

/-- Conversion of a number to `uint8_t` (keeps the low eight bits). -/
def toUInt8 (n : Nat) : Byte := Fin.ofNat n

def FLAG_MB : Nat := 0x80
def FLAG_ME : Nat := 0x40
def FLAG_CF : Nat := 0x20
def FLAG_SR : Nat := 0x10
def FLAG_IL : Nat := 0x08

/-- The 10 MB payload limit, `10 * (1 << 20)`. -/
def MAX_PAYLOAD_SIZE : Nat := 10 * (1 <<< 20)

/-- Modelled from the spec: the `TNF_*` constants are declared in `NdefRecord.h`,
which is not among the sources; the spec lists the eight values of the 3-bit
field in this order (`Empty` first, `Unchanged` last). -/
def TNF_EMPTY : Byte := 0
/-- Modelled from the spec: second value of the 3-bit TNF enumeration. -/
def TNF_WELL_KNOWN : Byte := 1
/-- Modelled from the spec: third value of the 3-bit TNF enumeration. -/
def TNF_MIME_MEDIA : Byte := 2
/-- Modelled from the spec: fourth value of the 3-bit TNF enumeration. -/
def TNF_ABSOLUTE_URI : Byte := 3
/-- Modelled from the spec: fifth value of the 3-bit TNF enumeration. -/
def TNF_EXTERNAL_TYPE : Byte := 4
/-- Modelled from the spec: sixth value of the 3-bit TNF enumeration. -/
def TNF_UNKNOWN : Byte := 5
/-- Modelled from the spec: seventh value of the 3-bit TNF enumeration. -/
def TNF_RESERVED : Byte := 6
/-- Modelled from the spec: eighth value of the 3-bit TNF enumeration. -/
def TNF_UNCHANGED : Byte := 7

/-- The data members of `NdefRecord`.  Both constructors copy their arguments
element by element (the vectors that `parse` passes hold fewer than `2 ^ 32`
bytes, so the `uint32_t` loop counters reach their sizes); a record is built
here by giving its four fields. -/
structure NdefRecord where
  mTnf : Byte
  mType : List Byte
  mId : List Byte
  mPayload : List Byte
  deriving DecidableEq, Repr

/-- How a call of `parse` ends. -/
inductive Outcome where
  /-- The call returned `result`; `records` is the caller's vector afterwards. -/
  | returned (result : Bool) (records : List NdefRecord)
  /-- The call indexed `buf` at or past `buf.size()`. -/
  | outOfRange
  /-- The `while` loop never ends. -/
  | diverged
  deriving DecidableEq, Repr

/-- The locals of `parse` that live across iterations of its `while` loop,
together with the caller's `records`. -/
structure ParseState where
  inChunk : Bool
  chunkTnf : Byte
  me : Bool
  index : Nat
  records : List NdefRecord
  deriving DecidableEq, Repr

/-- What one iteration has decoded when it reaches line 129: the flag bits,
the per-iteration locals `tnf`, `type`, `id`, `payload`, and the cursor. -/
structure Fragment where
  mb : Bool
  me : Bool
  cf : Bool
  tnf : Byte
  type : List Byte
  id : List Byte
  payload : List Byte
  index : Nat
  deriving DecidableEq, Repr

/-- How one iteration of the loop body ends. -/
inductive Step where
  /-- A `return` or `break`, or an out-of-range access. -/
  | exit (o : Outcome)
  /-- Control goes back to the loop condition (`continue` or end of body). -/
  | loop (s : ParseState)
  deriving DecidableEq, Repr

/-- The function `ensureSanePayloadSize(long size)`, lines 178 to 185.  The argument
is a `long`; the caller passes a `uint32_t`, whose value a 64-bit `long` keeps. -/
def ensureSanePayloadSize (size : Int) : Bool :=
  if size > (MAX_PAYLOAD_SIZE : Int) then false else true

/-- The function `validateTnf(tnf, type, id, payload)`, lines 187 to 219: a `switch`
on `tnf` whose `default` branch rejects every value above 7. -/
def validateTnf (tnf : Byte) (type id payload : List Byte) : Bool :=
  if tnf = TNF_EMPTY then
    (if type.length != 0 || id.length != 0 || payload.length != 0 then false else true)
  else if tnf = TNF_WELL_KNOWN ∨ tnf = TNF_MIME_MEDIA ∨ tnf = TNF_ABSOLUTE_URI
      ∨ tnf = TNF_EXTERNAL_TYPE then true
  else if tnf = TNF_UNKNOWN ∨ tnf = TNF_RESERVED then
    (if type.length != 0 then false else true)
  else if tnf = TNF_UNCHANGED then false
  else false

/-- The expression `buf[index++]`: the byte under the cursor and the advanced
cursor, a `uint32_t`. -/
def readByte (buf : List Byte) (index : Nat) : Except Outcome (Byte × Nat) :=
  if h : index < buf.length then .ok (buf[index], (index + 1) % UINT32_MOD)
  else .error .outOfRange

/-- The loop `for (idx = 0; idx < n; idx++) v.push_back(buf[index++]);`
started on an empty vector `v`. -/
def readBytes (buf : List Byte) : Nat → Nat → Except Outcome (List Byte × Nat)
  | 0, index => .ok ([], index)
  | n + 1, index =>
    match readByte buf index with
    | .error o => .error o
    | .ok (b, index) =>
      match readBytes buf n index with
      | .error o => .error o
      | .ok (bs, index) => .ok (b :: bs, index)

/-- Lines 96 to 104: the payload length, one byte when `sr` is set, otherwise
four bytes at `index .. index + 3`, most significant first. -/
def readPayloadLength (buf : List Byte) (sr : Bool) (index : Nat) :
    Except Outcome (Nat × Nat) :=
  if sr then
    match readByte buf index with
    | .error o => .error o
    | .ok (b, index) => .ok (b.val &&& 0xFF, index)
  else
    if h0 : index < buf.length then
      if h1 : (index + 1) % UINT32_MOD < buf.length then
        if h2 : (index + 2) % UINT32_MOD < buf.length then
          if h3 : (index + 3) % UINT32_MOD < buf.length then
            .ok ((buf[index].val <<< 24 % UINT32_MOD) |||
                 (buf[(index + 1) % UINT32_MOD].val <<< 16 % UINT32_MOD) |||
                 (buf[(index + 2) % UINT32_MOD].val <<< 8 % UINT32_MOD) |||
                 (buf[(index + 3) % UINT32_MOD].val),
                 (index + 4) % UINT32_MOD)
          else .error .outOfRange
        else .error .outOfRange
      else .error .outOfRange
    else .error .outOfRange

/-- Lines 74 to 92: `true` when one of the six header checks makes `parse`
return `false`. -/
def headerRejected (ignoreMbMe : Bool) (inChunk : Bool) (records : List NdefRecord)
    (mb me cf il : Bool) (tnf : Byte) : Bool :=
  if !mb && records.length == 0 && !inChunk && !ignoreMbMe then true
  else if mb && records.length != 0 && !ignoreMbMe then true
  else if inChunk && il then true
  else if cf && me then true
  else if inChunk && tnf != TNF_UNCHANGED then true
  else if !inChunk && tnf == TNF_UNCHANGED then true
  else false

/-- Line 105: `idLength = il ? (buf[index++] & 0xFF) : 0`. -/
def readIdLength (buf : List Byte) (il : Bool) (index : Nat) :
    Except Outcome (Nat × Nat) :=
  if il then
    match readByte buf index with
    | .error o => .error o
    | .ok (b, index) => .ok (b.val &&& 0xFF, index)
  else .ok (0, index)

/-- Lines 112 to 119: outside a chunk the `type` bytes and then the `id` bytes
are read; inside a chunk both vectors stay as declared at line 60, empty. -/
def readTypeAndId (buf : List Byte) (inChunk : Bool) (typeLength idLength index : Nat) :
    Except Outcome (List Byte × List Byte × Nat) :=
  if !inChunk then
    match readBytes buf typeLength index with
    | .error o => .error o
    | .ok (type, index) =>
      match readBytes buf idLength index with
      | .error o => .error o
      | .ok (id, index) => .ok (type, id, index)
  else .ok ([], [], index)

/-- Lines 60 to 127 of `parse`: one fragment is read from the buffer, with the
checks made on the way, in the order of the source.  A `return false` leaves
`records` as the iteration found it. -/
def readFragment (buf : List Byte) (ignoreMbMe : Bool) (s : ParseState) :
    Except Outcome Fragment :=
  match readByte buf s.index with
  | .error o => .error o
  | .ok (flag, index) =>
    let mb := (flag.val &&& FLAG_MB) != 0
    let me := (flag.val &&& FLAG_ME) != 0
    let cf := (flag.val &&& FLAG_CF) != 0
    let sr := (flag.val &&& FLAG_SR) != 0
    let il := (flag.val &&& FLAG_IL) != 0
    let tnf : Byte := toUInt8 (flag.val &&& 0x07)
    if headerRejected ignoreMbMe s.inChunk s.records mb me cf il tnf then
      .error (.returned false s.records)
    else
      match readByte buf index with
      | .error o => .error o
      | .ok (typeByte, index) =>
        let typeLength := typeByte.val &&& 0xFF
        match readPayloadLength buf sr index with
        | .error o => .error o
        | .ok (payloadLength, index) =>
          match readIdLength buf il index with
          | .error o => .error o
          | .ok (idLength, index) =>
            if s.inChunk && typeLength != 0 then
              .error (.returned false s.records)
            else
              match readTypeAndId buf s.inChunk typeLength idLength index with
              | .error o => .error o
              | .ok (type, id, index) =>
                if !ensureSanePayloadSize (payloadLength : Int) then
                  .error (.returned false s.records)
                else
                  match readBytes buf payloadLength index with
                  | .error o => .error o
                  | .ok (payload, index) =>
                    .ok { mb := mb, me := me, cf := cf, tnf := tnf, type := type,
                          id := id, payload := payload, index := index }

/-- The sum `payloadLength += chunks[idx].size()` over all chunks, in
`uint32_t` arithmetic, from `payloadLength = 0`. -/
def chunksLength (chunks : List (List Byte)) : Nat :=
  chunks.foldl (fun acc c => (acc + c.length) % UINT32_MOD) 0

/-- Lines 129 to 173 of `parse`: what the iteration does with the fragment it
has read.  `chunks` is declared inside the loop body (line 63), so it is empty
when the iteration starts. -/
def completeFragment (ignoreMbMe : Bool) (s : ParseState) (f : Fragment) : Step :=
  let chunks : List (List Byte) := []
  -- first chunk
  let chunks := if f.cf && !s.inChunk then [] else chunks
  let chunkTnf := if f.cf && !s.inChunk then f.tnf else s.chunkTnf
  -- any chunk
  let chunks := if f.cf || s.inChunk then chunks ++ [f.payload] else chunks
  -- last chunk, flatten the payload
  let lastChunk := !f.cf && s.inChunk
  if lastChunk && !ensureSanePayloadSize (chunksLength chunks : Int) then
    .exit (.returned false s.records)
  else
    let payload := if lastChunk then f.payload ++ chunks.flatten else f.payload
    let tnf := if lastChunk then chunkTnf else f.tnf
    if f.cf then
      -- more chunks to come
      .loop { inChunk := true, chunkTnf := chunkTnf, me := f.me, index := f.index,
              records := s.records }
    else if validateTnf tnf f.type f.id payload = false then
      .exit (.returned false s.records)
    else
      let record : NdefRecord :=
        { mTnf := tnf, mType := f.type, mId := f.id, mPayload := payload }
      let records := s.records ++ [record]
      if ignoreMbMe then
        -- for parsing a single NdefRecord
        .exit (.returned true records)
      else
        .loop { inChunk := false, chunkTnf := chunkTnf, me := f.me, index := f.index,
                records := records }

/-- One iteration of the body of the `while` loop of `parse`. -/
def parseBody (buf : List Byte) (ignoreMbMe : Bool) (s : ParseState) : Step :=
  match readFragment buf ignoreMbMe s with
  | .error o => .exit o
  | .ok f => completeFragment ignoreMbMe s f

/-- The loop `while (!me) { ... }` followed by `return true`, run for at most
`fuel` iterations. -/
def parseLoop (buf : List Byte) (ignoreMbMe : Bool) : Nat → ParseState → Outcome
  | fuel, s =>
    if s.me then .returned true s.records
    else
      match fuel with
      | 0 => .diverged
      | fuel + 1 =>
        match parseBody buf ignoreMbMe s with
        | .exit o => o
        | .loop s => parseLoop buf ignoreMbMe fuel s

/-- A number of iterations after which the loop is known to cycle: what an
iteration does depends, besides `buf` and `ignoreMbMe`, on `index` (`2 ^ 32`
values), `inChunk`, `chunkTnf` and on whether `records` is empty, which gives
`2 ^ 42` combinations. -/
def PARSE_FUEL : Nat := 4398046511104

/-- The function `NdefRecord::parse(buf, ignoreMbMe, records, offset)`.  `records` is the
content of the caller's vector at the call; the `int offset` initialises the
`uint32_t index`. -/
def parse (buf : List Byte) (ignoreMbMe : Bool) (records : List NdefRecord)
    (offset : Int) : Outcome :=
  parseLoop buf ignoreMbMe PARSE_FUEL
    { inChunk := false, chunkTnf := toUInt8 255, me := false,
      index := (offset % (UINT32_MOD : Int)).toNat, records := records }

/-- The loop `for (uint32_t i = 0; i < v.size(); i++) buf.push_back(v[i]);`.
It ends only when `v.size()` is below `2 ^ 32`; otherwise `i` wraps before
reaching it and the result is `none`. -/
def pushAll (buf v : List Byte) : Option (List Byte) :=
  if v.length < UINT32_MOD then some (buf ++ v) else none

/-- The function `NdefRecord::writeToByteBuffer(buf, mb, me)`: the content of `buf` after
the call, `none` when one of the copy loops does not end. -/
def writeToByteBuffer (r : NdefRecord) (buf : List Byte) (mb me : Bool) :
    Option (List Byte) :=
  let sr : Bool := r.mPayload.length < 256
  let il : Bool := r.mId.length > 0
  let flags : Byte := toUInt8 ((if mb then FLAG_MB else 0) |||
                               (if me then FLAG_ME else 0) |||
                               (if sr then FLAG_SR else 0) |||
                               (if il then FLAG_IL else 0) ||| r.mTnf.val)
  let buf := buf ++ [flags]
  let buf := buf ++ [toUInt8 r.mType.length]
  let buf :=
    if sr then buf ++ [toUInt8 r.mPayload.length]
    else buf ++ [toUInt8 ((r.mPayload.length >>> 24) &&& 0xff),
                 toUInt8 ((r.mPayload.length >>> 16) &&& 0xff),
                 toUInt8 ((r.mPayload.length >>> 8) &&& 0xff),
                 toUInt8 (r.mPayload.length &&& 0xff)]
  let buf := if il then buf ++ [toUInt8 r.mId.length] else buf
  match pushAll buf r.mType with
  | none => none
  | some buf =>
    match pushAll buf r.mId with
    | none => none
    | some buf => pushAll buf r.mPayload

/-! ## Auxiliary definitions used in the statements and proofs -/

/-- Everything that holds when an iteration has read a whole fragment. -/
structure FragmentRead (buf : List Byte) (ign : Bool) (s : ParseState) (f : Fragment) : Prop where
  ex : ∃ (flag typeByte : Byte) (i1 i2 i3 i4 i5 pl idl : Nat),
    readByte buf s.index = .ok (flag, i1) ∧
    headerRejected ign s.inChunk s.records ((flag.val &&& FLAG_MB) != 0)
      ((flag.val &&& FLAG_ME) != 0) ((flag.val &&& FLAG_CF) != 0)
      ((flag.val &&& FLAG_IL) != 0) (toUInt8 (flag.val &&& 0x07)) = false ∧
    readByte buf i1 = .ok (typeByte, i2) ∧
    readPayloadLength buf ((flag.val &&& FLAG_SR) != 0) i2 = .ok (pl, i3) ∧
    readIdLength buf ((flag.val &&& FLAG_IL) != 0) i3 = .ok (idl, i4) ∧
    (s.inChunk && (typeByte.val &&& 0xFF) != 0) = false ∧
    readTypeAndId buf s.inChunk (typeByte.val &&& 0xFF) idl i4 = .ok (f.type, f.id, i5) ∧
    ensureSanePayloadSize (pl : Int) = true ∧
    readBytes buf pl i5 = .ok (f.payload, f.index) ∧
    f.mb = ((flag.val &&& FLAG_MB) != 0) ∧
    f.me = ((flag.val &&& FLAG_ME) != 0) ∧
    f.cf = ((flag.val &&& FLAG_CF) != 0) ∧
    f.tnf = toUInt8 (flag.val &&& 0x07)

/-- The record that an iteration pushes when the fragment it has read closes a
record (`cf` clear): after a chunk the payload read from this fragment followed
by the content of `chunks`, which holds this fragment's payload only. -/
def emittedRecord (s : ParseState) (f : Fragment) : NdefRecord :=
  if s.inChunk then
    { mTnf := s.chunkTnf, mType := f.type, mId := f.id, mPayload := f.payload ++ f.payload }
  else
    { mTnf := f.tnf, mType := f.type, mId := f.id, mPayload := f.payload }

/-- A record passes `validateTnf`. -/
def NdefRecord.valid (r : NdefRecord) : Bool :=
  validateTnf r.mTnf r.mType r.mId r.mPayload

/-- Four bytes, most significant first, as line 99 to 102 combine them. -/
def be32 (b0 b1 b2 b3 : Byte) : Nat :=
  (b0.val <<< 24 % UINT32_MOD) ||| (b1.val <<< 16 % UINT32_MOD) |||
    (b2.val <<< 8 % UINT32_MOD) ||| b3.val

/-- The bytes of a payload-length field that announces `n`. -/
def LengthField (sr : Bool) (bytes : List Byte) (n : Nat) : Prop :=
  if sr then ∃ b : Byte, bytes = [b] ∧ b.val = n
  else ∃ b0 b1 b2 b3 : Byte, bytes = [b0, b1, b2, b3] ∧ be32 b0 b1 b2 b3 = n

/-- The bytes of an id-length field that announces `n`; none without `IL`. -/
def IdLengthField (il : Bool) (bytes : List Byte) (n : Nat) : Prop :=
  if il then ∃ b : Byte, bytes = [b] ∧ b.val = n else bytes = [] ∧ n = 0

/-- The flags byte computed at line 226. -/
def wireFlags (r : NdefRecord) (mb me : Bool) : Byte :=
  toUInt8 ((if mb then FLAG_MB else 0) ||| (if me then FLAG_ME else 0) |||
    (if decide (r.mPayload.length < 256) then FLAG_SR else 0) |||
    (if decide (r.mId.length > 0) then FLAG_IL else 0) ||| r.mTnf.val)

/-- The payload length field written at lines 233 to 240. -/
def wireLength (n : Nat) : List Byte :=
  if n < 256 then [toUInt8 n]
  else [toUInt8 ((n >>> 24) &&& 0xff), toUInt8 ((n >>> 16) &&& 0xff),
        toUInt8 ((n >>> 8) &&& 0xff), toUInt8 (n &&& 0xff)]

/-- The id length field written at lines 241 to 243. -/
def wireIdLength (n : Nat) : List Byte :=
  if n > 0 then [toUInt8 n] else []

/-- All bytes that `writeToByteBuffer` appends for a record. -/
def wire (r : NdefRecord) (mb me : Bool) : List Byte :=
  wireFlags r mb me :: toUInt8 r.mType.length ::
    (wireLength r.mPayload.length ++ (wireIdLength r.mId.length ++
      (r.mType ++ (r.mId ++ r.mPayload))))

/-- The TNF shape rules: a tnf other than `Unchanged`, nothing in an `Empty`
record, no type in an `Unknown` or `Reserved` record. -/
def TnfShape (r : NdefRecord) : Prop :=
  r.mTnf.val ≤ 6 ∧
  (r.mTnf = TNF_EMPTY → r.mType = [] ∧ r.mId = [] ∧ r.mPayload = []) ∧
  (r.mTnf = TNF_UNKNOWN ∨ r.mTnf = TNF_RESERVED → r.mType = [])

instance (r : NdefRecord) : Decidable (TnfShape r) := by
  unfold TnfShape; infer_instance

/-- The state in which `parse` enters its loop. -/
def initialState (records : List NdefRecord) (offset : Int) : ParseState :=
  { inChunk := false, chunkTnf := toUInt8 255, me := false,
    index := (offset % (UINT32_MOD : Int)).toNat, records := records }

/-- A record that `writeToByteBuffer` can encode without loss and that `parse`
accepts: the TNF shape rules, type and id of at most 255 bytes, payload of at
most `10 * 2 ^ 20` bytes. -/
def WellFormed (r : NdefRecord) : Prop :=
  TnfShape r ∧ r.mType.length ≤ 255 ∧ r.mId.length ≤ 255 ∧
    r.mPayload.length ≤ 10 * 2 ^ 20

instance (r : NdefRecord) : Decidable (WellFormed r) := by
  unfold WellFormed; infer_instance

/-- A two-fragment chunked record: a first fragment `MB,CF,SR` of tnf
`WellKnown` without payload, then a last fragment `ME` of tnf `Unchanged` with
a 4-byte length field and the payload `c`. -/
def twoChunks (c : List Byte) : List Byte :=
  [0xB1, 0, 0] ++ ([0x47, 0] ++ wireLength c.length ++ c)

/-- The records of a message written one after the other with
`writeToByteBuffer`: `mb` is set on the first record only and `me` on the last
record only. -/
def writeRecords : List NdefRecord → Bool → List Byte → Option (List Byte)
  | [], _, buf => some buf
  | r :: rs, mb, buf =>
    match writeToByteBuffer r buf mb rs.isEmpty with
    | none => none
    | some buf => writeRecords rs false buf

/-- The buffer of a whole message, written into an empty buffer. -/
def writeMessage (rs : List NdefRecord) : Option (List Byte) :=
  writeRecords rs true []

/-- The bytes of a message: the encodings of its records, in order. -/
def wires : List NdefRecord → Bool → List Byte
  | [], _ => []
  | r :: rs, mb => wire r mb rs.isEmpty ++ wires rs false

/-- The encodings of records none of which ends the message. -/
def wiresOpen : List NdefRecord → Bool → List Byte
  | [], _ => []
  | r :: rs, mb => wire r mb false ++ wiresOpen rs false

/-- A payload of the maximum size, `10 * 2 ^ 20` zero bytes. -/
def bigPayload : List Byte := List.replicate 10485760 0

/-- A `WellKnown` record without type and id that carries `bigPayload`. -/
def bigRecord : NdefRecord := ⟨1, [], [], bigPayload⟩

/-- A message of 410 records of the maximum payload size; its encoding has
`410 * 10485766` bytes, more than `2 ^ 32`. -/
def bigMessage : List NdefRecord := List.replicate 410 bigRecord

/-- The state of the loop after the first 409 records of `bigMessage`. -/
def bigState : ParseState :=
  { inChunk := false, chunkTnf := toUInt8 255, me := false, index := 4288678294,
    records := List.replicate 409 bigRecord }

/-- Lines 223 to 243 of `writeToByteBuffer`: the content of `buf` once the
flags byte, the type length, the payload length and the id length have been
pushed, before the three copy loops. -/
def writeHeader (r : NdefRecord) (buf : List Byte) (mb me : Bool) : List Byte :=
  let sr : Bool := r.mPayload.length < 256
  let il : Bool := r.mId.length > 0
  let flags : Byte := toUInt8 ((if mb then FLAG_MB else 0) |||
                               (if me then FLAG_ME else 0) |||
                               (if sr then FLAG_SR else 0) |||
                               (if il then FLAG_IL else 0) ||| r.mTnf.val)
  let buf := buf ++ [flags]
  let buf := buf ++ [toUInt8 r.mType.length]
  let buf :=
    if sr then buf ++ [toUInt8 r.mPayload.length]
    else buf ++ [toUInt8 ((r.mPayload.length >>> 24) &&& 0xff),
                 toUInt8 ((r.mPayload.length >>> 16) &&& 0xff),
                 toUInt8 ((r.mPayload.length >>> 8) &&& 0xff),
                 toUInt8 (r.mPayload.length &&& 0xff)]
  if il then buf ++ [toUInt8 r.mId.length] else buf

/-- The flags byte as the specification gives it: `MB` for the first record,
`ME` for the last, `SR` when the payload is shorter than 256 bytes, `IL` when
the id is not empty, and the tnf in the low bits. -/
def specFlags (r : NdefRecord) (isFirst isLast : Bool) : Nat :=
  (if isFirst then 0x80 else 0) ||| (if isLast then 0x40 else 0) |||
    (if r.mPayload.length < 256 then 0x10 else 0) |||
    (if r.mId ≠ [] then 0x08 else 0) ||| r.mTnf.val

/-- The payload length field as the specification gives it: one byte below
256, otherwise four bytes, most significant first. -/
def specLengthField (n : Nat) : List Byte :=
  if n < 256 then [toUInt8 n]
  else [toUInt8 (n / 2 ^ 24 % 256), toUInt8 (n / 2 ^ 16 % 256), toUInt8 (n / 2 ^ 8 % 256),
        toUInt8 (n % 256)]

/-- The layout of one serialized record as the specification gives it: flags
byte, type length modulo 256, payload length field, id length modulo 256 when
the id is not empty, then type, id and payload. -/
def specEncoding (r : NdefRecord) (isFirst isLast : Bool) : List Byte :=
  [toUInt8 (specFlags r isFirst isLast)] ++ [toUInt8 (r.mType.length % 256)] ++
    specLengthField r.mPayload.length ++
    (if r.mId ≠ [] then [toUInt8 (r.mId.length % 256)] else []) ++
    r.mType ++ r.mId ++ r.mPayload

/-- A type field of `2 ^ 32` bytes. -/
def hugeType : List Byte := List.replicate 4294967296 0

/-- A record breaks the TNF shape rules that `validateTnf` enforces on the
tnf values `Empty`, `Unknown` and `Reserved`. -/
def ShapeViolation (tnf : Byte) (type id payload : List Byte) : Prop :=
  (tnf = TNF_EMPTY ∧ (type ≠ [] ∨ id ≠ [] ∨ payload ≠ [])) ∨
  ((tnf = TNF_UNKNOWN ∨ tnf = TNF_RESERVED) ∧ type ≠ [])

/-- The same outcome for a caller whose vector held `r2` where the first `k`
records of this one were: the records after the first `k` are kept. -/
def Outcome.rebase (r2 : List NdefRecord) (k : Nat) : Outcome → Outcome
  | .returned b recs => .returned b (r2 ++ recs.drop k)
  | .outOfRange => .outOfRange
  | .diverged => .diverged

/-- The same loop state for a caller whose vector held `r2` where the first
`k` records of this one were. -/
def ParseState.rebase (r2 : List NdefRecord) (k : Nat) (s : ParseState) : ParseState :=
  { inChunk := s.inChunk, chunkTnf := s.chunkTnf, me := s.me, index := s.index,
    records := r2 ++ s.records.drop k }

/-- The same end of an iteration for a caller whose vector held `r2` where the
first `k` records of this one were. -/
def Step.rebase (r2 : List NdefRecord) (k : Nat) : Step → Step
  | .exit o => .exit (o.rebase r2 k)
  | .loop s => .loop (s.rebase r2 k)

/-- The state with which the loop condition `while (!me)` is evaluated after
`n` iterations of the loop body; `none` when the loop has ended before. -/
def stepsTo (buf : List Byte) (ignoreMbMe : Bool) : Nat → ParseState → Option ParseState
  | 0, s => some s
  | n + 1, s =>
    if s.me then none
    else
      match parseBody buf ignoreMbMe s with
      | .exit _ => none
      | .loop s => stepsTo buf ignoreMbMe n s

/-- What an iteration does depends on these components of the state only. -/
def control (s : ParseState) : Fin UINT32_MOD × Bool × Byte × Bool :=
  (⟨s.index % UINT32_MOD, Nat.mod_lt _ (by decide)⟩, s.inChunk, s.chunkTnf,
    s.records.isEmpty)

/-- A payload of `2 ^ 32` bytes. -/
def hugePayload : List Byte := List.replicate 4294967296 0

/-- The three-argument overload `NdefRecord::parse(buf, ignoreMbMe, records)`, lines 47 to
50: it calls the four-argument `parse` with offset 0. -/
def parse3 (buf : List Byte) (ignoreMbMe : Bool) (records : List NdefRecord) : Outcome :=
  parse buf ignoreMbMe records 0

/-- The same loop state with the cursor `k` bytes further. -/
def ParseState.shift (k : Nat) (s : ParseState) : ParseState :=
  { inChunk := s.inChunk, chunkTnf := s.chunkTnf, me := s.me, index := k + s.index,
    records := s.records }

/-- The same fragment with the cursor `k` bytes further. -/
def Fragment.shift (k : Nat) (f : Fragment) : Fragment :=
  { mb := f.mb, me := f.me, cf := f.cf, tnf := f.tnf, type := f.type, id := f.id,
    payload := f.payload, index := k + f.index }

/-- The same end of an iteration with the cursor `k` bytes further. -/
def Step.shift (k : Nat) : Step → Step
  | .exit o => .exit o
  | .loop s => .loop (s.shift k)

/-- A front of `2 ^ 31 - 1` bytes, the largest length that an `int` offset can
name; every byte is `0xFF`. -/
def shiftFront : List Byte := List.replicate 2147483647 0xFF

/-- A message of 205 records with the largest payload, 2149582030 bytes on
the wire. -/
def shiftMessage : List NdefRecord := List.replicate 205 bigRecord

/-- The state of the loop after the first 204 records of `shiftMessage`, when
the message stands behind `shiftFront`. -/
def shiftState : ParseState :=
  { inChunk := false, chunkTnf := toUInt8 255, me := false, index := 4286579911,
    records := List.replicate 204 bigRecord }

/-- One continuation fragment of four bytes: flags `CF | SR | Unchanged`
(`0x37`), type length 0, payload length 1, and the payload byte `0xA9`, which
read as a flags byte is `MB | CF | IL | WellKnown`. -/
def loopTile : List Byte := [0x37, 0, 1, 0xA9]

/-- A buffer of exactly `2 ^ 32` bytes: `2 ^ 30` copies of `loopTile`. -/
def loopBuffer : List Byte := (List.replicate 1073741824 loopTile).flatten

/-! ## Elementary facts about the reading functions -/

theorem readByte_error {buf : List Byte} {i : Nat} {o : Outcome}
    (h : readByte buf i = .error o) : o = .outOfRange := by
  unfold readByte at h
  split at h <;> simp at h
  exact h.symm

theorem readBytes_error {buf : List Byte} {n i : Nat} {o : Outcome}
    (h : readBytes buf n i = .error o) : o = .outOfRange := by
  induction n generalizing i with
  | zero => simp [readBytes] at h
  | succ n ih =>
    unfold readBytes at h
    split at h
    · rename_i o1 h1
      simp at h; subst h; exact readByte_error h1
    · split at h
      · rename_i o1 h1
        simp at h; subst h; exact ih h1
      · simp at h

theorem readPayloadLength_error {buf : List Byte} {sr : Bool} {i : Nat} {o : Outcome}
    (h : readPayloadLength buf sr i = .error o) : o = .outOfRange := by
  unfold readPayloadLength at h
  split at h
  · split at h
    · rename_i o1 h1
      simp at h; subst h; exact readByte_error h1
    · simp at h
  · split at h <;> try (split at h <;> try (split at h <;> try (split at h)))
    all_goals simp at h
    all_goals exact h.symm

theorem readIdLength_error {buf : List Byte} {il : Bool} {i : Nat} {o : Outcome}
    (h : readIdLength buf il i = .error o) : o = .outOfRange := by
  unfold readIdLength at h
  split at h
  · split at h
    · rename_i o1 h1
      simp at h; subst h; exact readByte_error h1
    · simp at h
  · simp at h

theorem readTypeAndId_error {buf : List Byte} {c : Bool} {tl il i : Nat} {o : Outcome}
    (h : readTypeAndId buf c tl il i = .error o) : o = .outOfRange := by
  unfold readTypeAndId at h
  split at h
  · split at h
    · rename_i o1 h1
      simp at h; subst h; exact readBytes_error h1
    · split at h
      · rename_i o1 h1
        simp at h; subst h; exact readBytes_error h1
      · simp at h
  · simp at h

theorem readFragment_ok {buf : List Byte} {ign : Bool} {s : ParseState} {f : Fragment}
    (h : readFragment buf ign s = .ok f) : FragmentRead buf ign s f := by
  unfold readFragment at h
  split at h
  · simp at h
  · rename_i flag i1 h1
    try simp only at h
    split at h
    · simp at h
    · rename_i hrej
      split at h
      · simp at h
      · rename_i typeByte i2 h2
        try simp only at h
        split at h
        · simp at h
        · rename_i pl i3 h3
          split at h
          · simp at h
          · rename_i idl i4 h4
            split at h
            · simp at h
            · rename_i hty
              split at h
              · simp at h
              · rename_i ty id i5 h5
                split at h
                · simp at h
                · rename_i hsane
                  split at h
                  · simp at h
                  · rename_i pay i6 h6
                    simp only [Except.ok.injEq] at h
                    subst h
                    refine ⟨flag, typeByte, i1, i2, i3, i4, i5, pl, idl, h1, ?_, h2, h3, h4, ?_,
                      h5, ?_, h6, rfl, rfl, rfl, rfl⟩
                    · simpa using hrej
                    · simpa using hty
                    · simpa using hsane

theorem readFragment_error {buf : List Byte} {ign : Bool} {s : ParseState} {o : Outcome}
    (h : readFragment buf ign s = .error o) :
    o = .outOfRange ∨ o = .returned false s.records := by
  unfold readFragment at h
  split at h
  · rename_i o1 h1; simp at h; subst h; exact Or.inl (readByte_error h1)
  · try simp only at h
    split at h
    · simp at h; exact Or.inr h.symm
    · split at h
      · rename_i o1 h1; simp at h; subst h; exact Or.inl (readByte_error h1)
      · try simp only at h
        split at h
        · rename_i o1 h1; simp at h; subst h; exact Or.inl (readPayloadLength_error h1)
        · split at h
          · rename_i o1 h1; simp at h; subst h; exact Or.inl (readIdLength_error h1)
          · split at h
            · simp at h; exact Or.inr h.symm
            · split at h
              · rename_i o1 h1; simp at h; subst h; exact Or.inl (readTypeAndId_error h1)
              · split at h
                · simp at h; exact Or.inr h.symm
                · split at h
                  · rename_i o1 h1; simp at h; subst h; exact Or.inl (readBytes_error h1)
                  · simp at h

/-! ## The second half of an iteration -/

theorem completeFragment_cf {ign : Bool} {s : ParseState} {f : Fragment} (h : f.cf = true) :
    completeFragment ign s f =
      .loop { inChunk := true, chunkTnf := if s.inChunk then s.chunkTnf else f.tnf,
              me := f.me, index := f.index, records := s.records } := by
  cases hc : s.inChunk <;> simp [completeFragment, h, hc]

theorem completeFragment_last {ign : Bool} {s : ParseState} {f : Fragment}
    (h : f.cf = false) (hc : s.inChunk = true) :
    completeFragment ign s f =
      if ensureSanePayloadSize ((f.payload.length % UINT32_MOD : Nat) : Int) = false then
        .exit (.returned false s.records)
      else if validateTnf s.chunkTnf f.type f.id (f.payload ++ f.payload) = false then
        .exit (.returned false s.records)
      else if ign then
        .exit (.returned true (s.records ++ [emittedRecord s f]))
      else
        .loop { inChunk := false, chunkTnf := s.chunkTnf, me := f.me, index := f.index,
                records := s.records ++ [emittedRecord s f] } := by
  simp [completeFragment, h, hc, chunksLength, emittedRecord]

theorem completeFragment_plain {ign : Bool} {s : ParseState} {f : Fragment}
    (h : f.cf = false) (hc : s.inChunk = false) :
    completeFragment ign s f =
      if validateTnf f.tnf f.type f.id f.payload = false then
        .exit (.returned false s.records)
      else if ign then
        .exit (.returned true (s.records ++ [emittedRecord s f]))
      else
        .loop { inChunk := false, chunkTnf := s.chunkTnf, me := f.me, index := f.index,
                records := s.records ++ [emittedRecord s f] } := by
  simp [completeFragment, h, hc, emittedRecord]

theorem headerRejected_cf_me {ign c : Bool} {recs : List NdefRecord} {mb me cf il : Bool}
    {tnf : Byte} (h : headerRejected ign c recs mb me cf il tnf = false) (hcf : cf = true) :
    me = false := by
  cases me
  · rfl
  · subst hcf
    unfold headerRejected at h
    split at h; · simp at h
    split at h; · simp at h
    split at h; · simp at h
    simp at h

theorem parseBody_of_readFragment {buf : List Byte} {ign : Bool} {s : ParseState}
    {f : Fragment} (h : readFragment buf ign s = .ok f) :
    parseBody buf ign s = completeFragment ign s f := by
  unfold parseBody; rw [h]

theorem parseBody_of_error {buf : List Byte} {ign : Bool} {s : ParseState}
    {o : Outcome} (h : readFragment buf ign s = .error o) :
    parseBody buf ign s = .exit o := by
  unfold parseBody; rw [h]

/-- The ways in which one iteration can end. -/
theorem parseBody_cases (buf : List Byte) (ign : Bool) (s : ParseState) :
    parseBody buf ign s = .exit .outOfRange ∨
    parseBody buf ign s = .exit (.returned false s.records) ∨
    (∃ s', parseBody buf ign s = .loop s' ∧ s'.records = s.records ∧ s'.inChunk = true ∧
      s'.me = false) ∨
    (∃ f, readFragment buf ign s = .ok f ∧ f.cf = false ∧ (emittedRecord s f).valid = true ∧
      ((ign = true ∧
          parseBody buf ign s = .exit (.returned true (s.records ++ [emittedRecord s f]))) ∨
       (ign = false ∧ ∃ s', parseBody buf ign s = .loop s' ∧
          s'.records = s.records ++ [emittedRecord s f] ∧ s'.inChunk = false ∧
          s'.me = f.me ∧ s'.index = f.index))) := by
  unfold parseBody
  cases hf : readFragment buf ign s with
  | error o =>
    rcases readFragment_error hf with h | h <;> subst h <;> simp
  | ok f =>
    simp only
    cases hcf : f.cf
    · cases hc : s.inChunk
      · rw [completeFragment_plain hcf hc]
        by_cases hv : validateTnf f.tnf f.type f.id f.payload = false
        · rw [if_pos hv]; simp
        · right; right; right
          refine ⟨f, rfl, hcf, ?_, ?_⟩
          · simpa [NdefRecord.valid, emittedRecord, hc] using hv
          · rw [if_neg hv]
            cases ign <;> simp
      · rw [completeFragment_last hcf hc]
        by_cases hs : ensureSanePayloadSize ((f.payload.length % UINT32_MOD : Nat) : Int) = false
        · rw [if_pos hs]; simp
        by_cases hv : validateTnf s.chunkTnf f.type f.id (f.payload ++ f.payload) = false
        · rw [if_neg hs, if_pos hv]; simp
        · right; right; right
          refine ⟨f, rfl, hcf, ?_, ?_⟩
          · simpa [NdefRecord.valid, emittedRecord, hc] using hv
          · rw [if_neg hs, if_neg hv]
            cases ign <;> simp
    · rw [completeFragment_cf hcf]
      right; right; left
      refine ⟨_, rfl, rfl, rfl, ?_⟩
      obtain ⟨flag, tb, i1, i2, i3, i4, i5, pl, idl, -, hrej, -, -, -, -, -, -, -, -, hme, hcf', -⟩ :=
        (readFragment_ok hf).ex
      simp only
      rw [hme]
      exact headerRejected_cf_me hrej (hcf' ▸ hcf)

/-! ## The loop -/

theorem parseLoop_me {buf : List Byte} {ign : Bool} {fuel : Nat} {s : ParseState}
    (h : s.me = true) : parseLoop buf ign fuel s = .returned true s.records := by
  unfold parseLoop; simp [h]

theorem parseLoop_zero {buf : List Byte} {ign : Bool} {s : ParseState}
    (h : s.me = false) : parseLoop buf ign 0 s = .diverged := by
  unfold parseLoop; simp [h]

theorem parseLoop_loop {buf : List Byte} {ign : Bool} {fuel : Nat} {s : ParseState}
    (s' : ParseState) (h : s.me = false) (hb : parseBody buf ign s = .loop s') :
    parseLoop buf ign (fuel + 1) s = parseLoop buf ign fuel s' := by
  rw [parseLoop]; simp [h, hb]

theorem parseLoop_exit {buf : List Byte} {ign : Bool} {fuel : Nat} {s : ParseState}
    (o : Outcome) (h : s.me = false) (hb : parseBody buf ign s = .exit o) :
    parseLoop buf ign (fuel + 1) s = o := by
  rw [parseLoop]; simp [h, hb]

/-- Whatever `parse` returns, the records it leaves are those it was given
followed by records that passed `validateTnf`. -/
theorem parseLoop_returned {buf : List Byte} {ign : Bool} {fuel : Nat} {s : ParseState}
    {b : Bool} {recs : List NdefRecord}
    (h : parseLoop buf ign fuel s = .returned b recs) :
    ∃ added, recs = s.records ++ added ∧ ∀ r ∈ added, r.valid = true := by
  induction fuel generalizing s with
  | zero =>
    cases hme : s.me
    · rw [parseLoop_zero hme] at h; simp at h
    · rw [parseLoop_me hme] at h
      simp at h; exact ⟨[], by simp [h.2], by simp⟩
  | succ fuel ih =>
    cases hme : s.me
    · rcases parseBody_cases buf ign s with hb | hb | ⟨s', hb, hr, -, -⟩ |
        ⟨f, -, -, hv, ⟨-, hb⟩ | ⟨-, s', hb, hr, -⟩⟩
      · rw [parseLoop_exit _ hme hb] at h; simp at h
      · rw [parseLoop_exit _ hme hb] at h
        simp at h; exact ⟨[], by simp [h.2], by simp⟩
      · rw [parseLoop_loop _ hme hb] at h
        obtain ⟨added, h1, h2⟩ := ih h
        exact ⟨added, by rw [h1, hr], h2⟩
      · rw [parseLoop_exit _ hme hb] at h
        simp at h
        exact ⟨[emittedRecord s f], h.2.symm, by simpa using hv⟩
      · rw [parseLoop_loop _ hme hb] at h
        obtain ⟨added, h1, h2⟩ := ih h
        refine ⟨emittedRecord s f :: added, by rw [h1, hr]; simp, ?_⟩
        intro r hr'
        rcases List.mem_cons.1 hr' with h3 | h3
        · rw [h3]; exact hv
        · exact h2 r h3
    · rw [parseLoop_me hme] at h
      simp at h; exact ⟨[], by simp [h.2], by simp⟩

/-! ## Reading bytes that are known to be in the buffer -/

theorem drop_cons_inv {buf : List Byte} {i : Nat} {b : Byte} {rest : List Byte}
    (h : buf.drop i = b :: rest) :
    ∃ hi : i < buf.length, buf[i] = b ∧ buf.drop (i + 1) = rest := by
  have hi : i < buf.length := by
    by_contra hn
    rw [List.drop_eq_nil_of_le (by omega)] at h
    simp at h
  refine ⟨hi, ?_, ?_⟩
  · rw [List.drop_eq_getElem_cons hi] at h
    exact (List.cons.inj h).1
  · rw [List.drop_eq_getElem_cons hi] at h
    exact (List.cons.inj h).2

theorem readByte_drop {buf : List Byte} {i : Nat} {b : Byte} {rest : List Byte}
    (h : buf.drop i = b :: rest) (hi : i + 1 < UINT32_MOD) :
    readByte buf i = .ok (b, i + 1) := by
  obtain ⟨hlt, hb, -⟩ := drop_cons_inv h
  unfold readByte
  rw [dif_pos hlt, hb, Nat.mod_eq_of_lt hi]

theorem readBytes_drop {buf : List Byte} (bs : List Byte) {i : Nat} {rest : List Byte}
    (h : buf.drop i = bs ++ rest) (hi : i + bs.length < UINT32_MOD) :
    readBytes buf bs.length i = .ok (bs, i + bs.length) := by
  induction bs generalizing i with
  | nil => simp [readBytes]
  | cons b bs ih =>
    have h' : buf.drop i = b :: (bs ++ rest) := by simpa using h
    obtain ⟨-, -, hd⟩ := drop_cons_inv h'
    simp only [List.length_cons] at hi ⊢
    rw [readBytes, readByte_drop h' (by omega)]
    simp only
    rw [ih hd (by omega)]
    simp only [Except.ok.injEq, Prod.mk.injEq, true_and]
    omega

theorem drop_append_inv {buf : List Byte} (bs : List Byte) {i : Nat} {rest : List Byte}
    (h : buf.drop i = bs ++ rest) : buf.drop (i + bs.length) = rest := by
  induction bs generalizing i with
  | nil => simpa using h
  | cons b bs ih =>
    have h' : buf.drop i = b :: (bs ++ rest) := by simpa using h
    obtain ⟨-, -, hd⟩ := drop_cons_inv h'
    have := ih hd
    simp only [List.length_cons]
    rw [← this]; congr 1; omega

theorem readPayloadLength_short {buf : List Byte} {i : Nat} {b : Byte} {rest : List Byte}
    (h : buf.drop i = b :: rest) (hi : i + 1 < UINT32_MOD) :
    readPayloadLength buf true i = .ok (b.val, i + 1) := by
  unfold readPayloadLength
  simp only [if_true]
  rw [readByte_drop h hi]
  simp only [Except.ok.injEq, Prod.mk.injEq, and_true]
  have : (255 : Nat) = 2 ^ 8 - 1 := by norm_num
  rw [this, Nat.and_pow_two_sub_one_eq_mod]
  have := b.isLt
  omega

theorem readPayloadLength_long {buf : List Byte} {i : Nat} {b0 b1 b2 b3 : Byte}
    {rest : List Byte}
    (h : buf.drop i = b0 :: b1 :: b2 :: b3 :: rest) (hi : i + 4 < UINT32_MOD) :
    readPayloadLength buf false i = .ok (be32 b0 b1 b2 b3, i + 4) := by
  obtain ⟨h0, e0, d1⟩ := drop_cons_inv h
  obtain ⟨h1, e1, d2⟩ := drop_cons_inv d1
  obtain ⟨h2, e2, d3⟩ := drop_cons_inv d2
  obtain ⟨h3, e3, -⟩ := drop_cons_inv d3
  have m1 : (i + 1) % UINT32_MOD = i + 1 := Nat.mod_eq_of_lt (by omega)
  have m2 : (i + 2) % UINT32_MOD = i + 2 := Nat.mod_eq_of_lt (by omega)
  have m3 : (i + 3) % UINT32_MOD = i + 3 := Nat.mod_eq_of_lt (by omega)
  have m4 : (i + 4) % UINT32_MOD = i + 4 := Nat.mod_eq_of_lt (by omega)
  unfold readPayloadLength
  simp only [Bool.false_eq_true, if_false, m1, m2, m3, m4]
  rw [dif_pos h0, dif_pos h1, dif_pos h2, dif_pos h3]
  simp only [be32, e0, e1, e2, e3]

/-! ## Reading one whole fragment -/

theorem and_255 (b : Byte) : b.val &&& 0xFF = b.val := by
  have h : (255 : Nat) = 2 ^ 8 - 1 := by norm_num
  rw [h, Nat.and_pow_two_sub_one_eq_mod]
  exact Nat.mod_eq_of_lt b.isLt

theorem MAX_PAYLOAD_SIZE_eq : MAX_PAYLOAD_SIZE = 10485760 := by decide

theorem ensureSanePayloadSize_eq (n : Nat) :
    ensureSanePayloadSize (n : Int) = decide (n ≤ 10485760) := by
  unfold ensureSanePayloadSize
  rw [MAX_PAYLOAD_SIZE_eq]
  by_cases h : n ≤ 10485760
  · rw [if_neg (by push_cast; omega)]; simp [h]
  · rw [if_pos (by push_cast; omega)]; simp [h]

/-- A fragment whose header, type and id bytes are in the buffer is read up to
the payload size check of line 121. -/
theorem readFragment_fields {buf : List Byte} (ign : Bool) (s : ParseState)
    (flag tlb : Byte) (lenBytes idBytes type id rest : List Byte) {n : Nat}
    (hdrop : buf.drop s.index =
      flag :: tlb :: (lenBytes ++ (idBytes ++ (type ++ (id ++ rest)))))
    (hbound : s.index + 2 + lenBytes.length + idBytes.length + type.length + id.length
      < UINT32_MOD)
    (hrej : headerRejected ign s.inChunk s.records ((flag.val &&& FLAG_MB) != 0)
      ((flag.val &&& FLAG_ME) != 0) ((flag.val &&& FLAG_CF) != 0)
      ((flag.val &&& FLAG_IL) != 0) (toUInt8 (flag.val &&& 0x07)) = false)
    (hlen : LengthField ((flag.val &&& FLAG_SR) != 0) lenBytes n)
    (hid : IdLengthField ((flag.val &&& FLAG_IL) != 0) idBytes id.length)
    (htl : tlb.val = type.length)
    (hc : s.inChunk = true → type = [] ∧ id = []) :
    readFragment buf ign s =
      if !ensureSanePayloadSize (n : Int) then .error (.returned false s.records)
      else
        (readBytes buf n (s.index + 1 + 1 + lenBytes.length + idBytes.length
            + type.length + id.length)).map fun p =>
          { mb := (flag.val &&& FLAG_MB) != 0, me := (flag.val &&& FLAG_ME) != 0,
            cf := (flag.val &&& FLAG_CF) != 0, tnf := toUInt8 (flag.val &&& 0x07),
            type := type, id := id, payload := p.1, index := p.2 } := by
  obtain ⟨-, -, d1⟩ := drop_cons_inv hdrop
  obtain ⟨-, -, d2⟩ := drop_cons_inv d1
  have d3 := drop_append_inv lenBytes d2
  have d4 := drop_append_inv idBytes d3
  have d5 := drop_append_inv type d4
  -- the payload length field
  have hpl : readPayloadLength buf ((flag.val &&& FLAG_SR) != 0) (s.index + 1 + 1) =
      .ok (n, s.index + 1 + 1 + lenBytes.length) := by
    unfold LengthField at hlen
    cases hsr : ((flag.val &&& FLAG_SR) != 0)
    · rw [hsr] at hlen
      simp only [Bool.false_eq_true, if_false] at hlen
      obtain ⟨b0, b1, b2, b3, hb, hn⟩ := hlen
      subst hb
      simp only [List.length_cons, List.length_nil] at hbound ⊢
      rw [readPayloadLength_long (by simpa using d2) (by omega), hn]
    · rw [hsr] at hlen
      simp only [if_true] at hlen
      obtain ⟨b, hb, hn⟩ := hlen
      subst hb
      simp only [List.length_cons, List.length_nil] at hbound ⊢
      rw [readPayloadLength_short (by simpa using d2) (by omega), hn]
  -- the id length field
  have hil : readIdLength buf ((flag.val &&& FLAG_IL) != 0) (s.index + 1 + 1 + lenBytes.length) =
      .ok (id.length, s.index + 1 + 1 + lenBytes.length + idBytes.length) := by
    unfold IdLengthField at hid
    unfold readIdLength
    cases hilb : ((flag.val &&& FLAG_IL) != 0)
    · rw [hilb] at hid
      simp only [Bool.false_eq_true, if_false] at hid
      obtain ⟨hb, hn⟩ := hid
      subst hb
      simp [hn]
    · rw [hilb] at hid
      simp only [if_true] at hid
      obtain ⟨b, hb, hn⟩ := hid
      subst hb
      simp only [List.length_cons, List.length_nil] at hbound ⊢
      simp only [if_true]
      rw [readByte_drop (by simpa using d3) (by omega)]
      simp only
      rw [and_255, hn]
  -- type and id
  have hti : readTypeAndId buf s.inChunk type.length id.length
      (s.index + 1 + 1 + lenBytes.length + idBytes.length) =
      .ok (type, id, s.index + 1 + 1 + lenBytes.length + idBytes.length + type.length
        + id.length) := by
    unfold readTypeAndId
    cases hch : s.inChunk
    · simp only [Bool.not_false, if_true]
      rw [readBytes_drop type d4 (by omega)]
      simp only
      rw [readBytes_drop id d5 (by omega)]
    · obtain ⟨ht, hi⟩ := hc hch
      subst ht; subst hi
      simp
  have hty0 : (s.inChunk && (tlb.val &&& 0xFF) != 0) = false := by
    rw [and_255, htl]
    cases hch : s.inChunk
    · simp
    · obtain ⟨ht, -⟩ := hc hch
      subst ht; simp
  unfold readFragment
  rw [readByte_drop hdrop (by omega)]
  simp only
  rw [hrej]
  simp only [Bool.false_eq_true, if_false]
  rw [readByte_drop d1 (by omega)]
  simp only
  rw [hpl]
  simp only
  rw [hil]
  simp only
  rw [hty0]
  simp only [Bool.false_eq_true, if_false]
  rw [and_255, htl]
  simp only [hti]
  split
  · rfl
  · cases readBytes buf n (s.index + 1 + 1 + lenBytes.length + idBytes.length
      + type.length + id.length) <;> rfl

theorem readFragment_drop {buf : List Byte} (ign : Bool) (s : ParseState)
    (flag tlb : Byte) (lenBytes idBytes type id payload rest : List Byte)
    (hdrop : buf.drop s.index =
      flag :: tlb :: (lenBytes ++ (idBytes ++ (type ++ (id ++ (payload ++ rest))))))
    (hbound : s.index + 2 + lenBytes.length + idBytes.length + type.length + id.length
      + payload.length < UINT32_MOD)
    (hrej : headerRejected ign s.inChunk s.records ((flag.val &&& FLAG_MB) != 0)
      ((flag.val &&& FLAG_ME) != 0) ((flag.val &&& FLAG_CF) != 0)
      ((flag.val &&& FLAG_IL) != 0) (toUInt8 (flag.val &&& 0x07)) = false)
    (hlen : LengthField ((flag.val &&& FLAG_SR) != 0) lenBytes payload.length)
    (hid : IdLengthField ((flag.val &&& FLAG_IL) != 0) idBytes id.length)
    (htl : tlb.val = type.length)
    (hc : s.inChunk = true → type = [] ∧ id = [])
    (hsane : payload.length ≤ 10485760) :
    readFragment buf ign s = .ok
      { mb := (flag.val &&& FLAG_MB) != 0, me := (flag.val &&& FLAG_ME) != 0,
        cf := (flag.val &&& FLAG_CF) != 0, tnf := toUInt8 (flag.val &&& 0x07),
        type := type, id := id, payload := payload,
        index := s.index + 2 + lenBytes.length + idBytes.length + type.length + id.length
          + payload.length } := by
  obtain ⟨-, -, d1⟩ := drop_cons_inv hdrop
  obtain ⟨-, -, d2⟩ := drop_cons_inv d1
  have d3 := drop_append_inv lenBytes d2
  have d4 := drop_append_inv idBytes d3
  have d5 := drop_append_inv type d4
  have d6 := drop_append_inv id d5
  rw [readFragment_fields ign s flag tlb lenBytes idBytes type id (payload ++ rest) hdrop
    (by omega) hrej hlen hid htl hc, ensureSanePayloadSize_eq]
  simp only [hsane, decide_True, Bool.not_true, Bool.false_eq_true, if_false]
  rw [readBytes_drop payload d6 (by omega)]
  rfl

/-! ## The bytes written by `writeToByteBuffer` -/

theorem writeToByteBuffer_eq (r : NdefRecord) (buf : List Byte) (mb me : Bool)
    (ht : r.mType.length < UINT32_MOD) (hi : r.mId.length < UINT32_MOD)
    (hp : r.mPayload.length < UINT32_MOD) :
    writeToByteBuffer r buf mb me = some (buf ++ wire r mb me) := by
  unfold writeToByteBuffer pushAll wire wireFlags wireLength wireIdLength
  simp only [ht, hi, hp, if_true]
  by_cases h1 : r.mPayload.length < 256 <;> by_cases h2 : r.mId.length > 0 <;>
    simp [h1, h2]

theorem wireLength_length (n : Nat) :
    (wireLength n).length = if n < 256 then 1 else 4 := by
  unfold wireLength; split <;> simp

theorem wireIdLength_length (n : Nat) :
    (wireIdLength n).length = if n > 0 then 1 else 0 := by
  unfold wireIdLength; split <;> simp

theorem wire_length (r : NdefRecord) (mb me : Bool) :
    (wire r mb me).length = 2 + (if r.mPayload.length < 256 then 1 else 4)
      + (if r.mId.length > 0 then 1 else 0) + r.mType.length + r.mId.length
      + r.mPayload.length := by
  unfold wire
  simp only [List.length_cons, List.length_append, wireLength_length, wireIdLength_length]
  omega

theorem toUInt8_val (n : Nat) : (toUInt8 n).val = n % 256 := rfl

theorem flags_decode : ∀ mb me sr il : Bool, ∀ t : Fin 8,
    let flag : Byte := toUInt8 ((if mb then FLAG_MB else 0) ||| (if me then FLAG_ME else 0) |||
      (if sr then FLAG_SR else 0) ||| (if il then FLAG_IL else 0) ||| t.val)
    ((flag.val &&& FLAG_MB) != 0) = mb ∧ ((flag.val &&& FLAG_ME) != 0) = me ∧
    ((flag.val &&& FLAG_CF) != 0) = false ∧ ((flag.val &&& FLAG_SR) != 0) = sr ∧
    ((flag.val &&& FLAG_IL) != 0) = il ∧ (toUInt8 (flag.val &&& 0x07)).val = t.val := by
  decide

theorem wireFlags_decode (r : NdefRecord) (mb me : Bool) (h : r.mTnf.val ≤ 7) :
    (((wireFlags r mb me).val &&& FLAG_MB) != 0) = mb ∧
    (((wireFlags r mb me).val &&& FLAG_ME) != 0) = me ∧
    (((wireFlags r mb me).val &&& FLAG_CF) != 0) = false ∧
    (((wireFlags r mb me).val &&& FLAG_SR) != 0) = decide (r.mPayload.length < 256) ∧
    (((wireFlags r mb me).val &&& FLAG_IL) != 0) = decide (r.mId.length > 0) ∧
    toUInt8 ((wireFlags r mb me).val &&& 0x07) = r.mTnf := by
  have := flags_decode mb me (decide (r.mPayload.length < 256)) (decide (r.mId.length > 0))
    ⟨r.mTnf.val, by omega⟩
  simp only at this
  obtain ⟨h1, h2, h3, h4, h5, h6⟩ := this
  exact ⟨h1, h2, h3, h4, h5, Fin.ext h6⟩

theorem be32_wire (n : Nat) (h : n < UINT32_MOD) :
    be32 (toUInt8 ((n >>> 24) &&& 0xff)) (toUInt8 ((n >>> 16) &&& 0xff))
      (toUInt8 ((n >>> 8) &&& 0xff)) (toUInt8 (n &&& 0xff)) = n := by
  unfold UINT32_MOD at h
  have e : (0xff : Nat) = 2 ^ 8 - 1 := by norm_num
  unfold be32 UINT32_MOD
  simp only [toUInt8_val, e, Nat.and_pow_two_sub_one_eq_mod, Nat.shiftRight_eq_div_pow,
    Nat.shiftLeft_eq]
  have h0 : n / 2 ^ 24 % 2 ^ 8 % 256 * 2 ^ 24 % 4294967296 = 2 ^ 24 * (n / 2 ^ 24) := by
    norm_num; omega
  have h1 : n / 2 ^ 16 % 2 ^ 8 % 256 * 2 ^ 16 % 4294967296 = 2 ^ 16 * (n / 2 ^ 16 % 256) := by
    norm_num; omega
  have h2 : n / 2 ^ 8 % 2 ^ 8 % 256 * 2 ^ 8 % 4294967296 = 2 ^ 8 * (n / 2 ^ 8 % 256) := by
    norm_num; omega
  have h3 : n % 2 ^ 8 % 256 = n % 256 := by norm_num
  rw [h0, h1, h2, h3]
  have a1 : 2 ^ 24 * (n / 2 ^ 24) ||| 2 ^ 16 * (n / 2 ^ 16 % 256)
      = 2 ^ 24 * (n / 2 ^ 24) + 2 ^ 16 * (n / 2 ^ 16 % 256) :=
    (Nat.mul_add_lt_is_or (by norm_num; omega) _).symm
  have a2 : 2 ^ 24 * (n / 2 ^ 24) + 2 ^ 16 * (n / 2 ^ 16 % 256)
      = 2 ^ 16 * (n / 2 ^ 16) := by norm_num; omega
  have a3 : 2 ^ 16 * (n / 2 ^ 16) ||| 2 ^ 8 * (n / 2 ^ 8 % 256)
      = 2 ^ 16 * (n / 2 ^ 16) + 2 ^ 8 * (n / 2 ^ 8 % 256) :=
    (Nat.mul_add_lt_is_or (by norm_num; omega) _).symm
  have a4 : 2 ^ 16 * (n / 2 ^ 16) + 2 ^ 8 * (n / 2 ^ 8 % 256) = 2 ^ 8 * (n / 2 ^ 8) := by
    norm_num; omega
  have a5 : 2 ^ 8 * (n / 2 ^ 8) ||| n % 256 = 2 ^ 8 * (n / 2 ^ 8) + n % 256 :=
    (Nat.mul_add_lt_is_or (by norm_num; omega) _).symm
  rw [a1, a2, a3, a4, a5]
  norm_num; omega

theorem lengthField_wire (n : Nat) (h : n < UINT32_MOD) :
    LengthField (decide (n < 256)) (wireLength n) n := by
  unfold LengthField wireLength
  by_cases hn : n < 256
  · simp only [hn, decide_True, if_true]
    exact ⟨_, rfl, by rw [toUInt8_val]; omega⟩
  · simp only [hn, decide_False, Bool.false_eq_true, if_false]
    exact ⟨_, _, _, _, rfl, be32_wire n h⟩

theorem idLengthField_wire (n : Nat) (h : n ≤ 255) :
    IdLengthField (decide (n > 0)) (wireIdLength n) n := by
  unfold IdLengthField wireIdLength
  by_cases hn : n > 0
  · simp only [hn, decide_True, if_true]
    exact ⟨_, rfl, by rw [toUInt8_val]; omega⟩
  · simp only [hn, decide_False, Bool.false_eq_true, if_false]
    constructor <;> first | trivial | rfl | omega

/-! ## Records that `validateTnf` accepts -/

theorem validateTnf_iff (tnf : Byte) (type id payload : List Byte) :
    validateTnf tnf type id payload = true ↔
      (tnf.val ≤ 6 ∧ (tnf = TNF_EMPTY → type = [] ∧ id = [] ∧ payload = []) ∧
       (tnf = TNF_UNKNOWN ∨ tnf = TNF_RESERVED → type = [])) := by
  obtain ⟨v, hv⟩ := tnf
  unfold validateTnf TNF_EMPTY TNF_WELL_KNOWN TNF_MIME_MEDIA TNF_ABSOLUTE_URI TNF_EXTERNAL_TYPE
    TNF_UNKNOWN TNF_RESERVED TNF_UNCHANGED
  simp only [Fin.ext_iff, Fin.val_zero, Fin.val_one, Fin.val_two]
  have e3 : ((3 : Fin 256) : Nat) = 3 := rfl
  have e4 : ((4 : Fin 256) : Nat) = 4 := rfl
  have e5 : ((5 : Fin 256) : Nat) = 5 := rfl
  have e6 : ((6 : Fin 256) : Nat) = 6 := rfl
  have e7 : ((7 : Fin 256) : Nat) = 7 := rfl
  simp only [e3, e4, e5, e6, e7]
  by_cases h0 : v = 0
  · subst h0
    cases type <;> cases id <;> cases payload <;> simp
  by_cases h14 : v = 1 ∨ v = 2 ∨ v = 3 ∨ v = 4
  · rw [if_neg h0, if_pos h14]
    simp only [true_iff]
    refine ⟨by omega, fun h => absurd h h0, fun h => ?_⟩
    omega
  by_cases h56 : v = 5 ∨ v = 6
  · rw [if_neg h0, if_neg h14, if_pos h56]
    cases type with
    | nil => simp; omega
    | cons a t => simp; omega
  · rw [if_neg h0, if_neg h14, if_neg h56]
    have : ¬ v ≤ 6 := by omega
    simp [this]

theorem valid_iff (r : NdefRecord) : r.valid = true ↔ TnfShape r := by
  unfold NdefRecord.valid TnfShape
  exact validateTnf_iff _ _ _ _

/-! ## Reading back what `writeToByteBuffer` wrote -/

theorem headerRejected_plain {ign : Bool} {recs : List NdefRecord} {mb me il : Bool}
    {tnf : Byte} (htnf : tnf.val ≤ 6)
    (hmb : ign = true ∨ (mb = true ↔ recs = [])) :
    headerRejected ign false recs mb me false il tnf = false := by
  have h7 : tnf ≠ TNF_UNCHANGED := by
    intro h; rw [h] at htnf; revert htnf; decide
  unfold headerRejected
  rcases hmb with h | h
  · subst h; simp [h7]
  · cases mb
    · have : recs ≠ [] := by
        intro hr; have := h.2 hr; simp at this
      simp [this, h7]
    · have : recs = [] := h.1 rfl
      simp [this, h7]

theorem readFragment_wire (buf : List Byte) (ign : Bool) (s : ParseState) (r : NdefRecord)
    (mb me : Bool) (rest : List Byte)
    (hdrop : buf.drop s.index = wire r mb me ++ rest)
    (hbound : s.index + (wire r mb me).length < UINT32_MOD)
    (hnc : s.inChunk = false)
    (hmb : ign = true ∨ (mb = true ↔ s.records = []))
    (htnf : r.mTnf.val ≤ 6) (hty : r.mType.length ≤ 255) (hid : r.mId.length ≤ 255)
    (hpl : r.mPayload.length ≤ 10485760) :
    readFragment buf ign s = .ok
      { mb := mb, me := me, cf := false, tnf := r.mTnf, type := r.mType, id := r.mId,
        payload := r.mPayload, index := s.index + (wire r mb me).length } := by
  obtain ⟨f1, f2, f3, f4, f5, f6⟩ := wireFlags_decode r mb me (by omega)
  have hdrop' : buf.drop s.index = wireFlags r mb me :: toUInt8 r.mType.length ::
      (wireLength r.mPayload.length ++ (wireIdLength r.mId.length ++
        (r.mType ++ (r.mId ++ (r.mPayload ++ rest))))) := by
    rw [hdrop]; simp [wire]
  have hlen : (wire r mb me).length = 2 + (wireLength r.mPayload.length).length
      + (wireIdLength r.mId.length).length + r.mType.length + r.mId.length
      + r.mPayload.length := by
    simp only [wire, List.length_cons, List.length_append]; omega
  have key := readFragment_drop ign s _ _ _ _ _ _ _ _ hdrop'
    (by rw [hlen] at hbound; omega)
    (by rw [f1, f2, f3, f5, f6, hnc]; exact headerRejected_plain htnf hmb)
    (by rw [f4]; exact lengthField_wire _ (by unfold UINT32_MOD; omega))
    (by rw [f5]; exact idLengthField_wire _ hid)
    (by rw [toUInt8_val]; omega)
    (by rw [hnc]; intro h; cases h)
    hpl
  rw [key, f1, f2, f3, f6, hlen]
  simp only [Except.ok.injEq, Fragment.mk.injEq, true_and]
  omega

theorem parseBody_wire (buf : List Byte) (ign : Bool) (s : ParseState) (r : NdefRecord)
    (mb me : Bool) (rest : List Byte)
    (hdrop : buf.drop s.index = wire r mb me ++ rest)
    (hbound : s.index + (wire r mb me).length < UINT32_MOD)
    (hnc : s.inChunk = false)
    (hmb : ign = true ∨ (mb = true ↔ s.records = []))
    (hshape : TnfShape r) (hty : r.mType.length ≤ 255) (hid : r.mId.length ≤ 255)
    (hpl : r.mPayload.length ≤ 10485760) :
    parseBody buf ign s =
      if ign then .exit (.returned true (s.records ++ [r]))
      else .loop { inChunk := false, chunkTnf := s.chunkTnf, me := me,
                   index := s.index + (wire r mb me).length, records := s.records ++ [r] } := by
  unfold parseBody
  rw [readFragment_wire buf ign s r mb me rest hdrop hbound hnc hmb hshape.1 hty hid hpl]
  simp only
  rw [completeFragment_plain rfl hnc]
  have hv : validateTnf r.mTnf r.mType r.mId r.mPayload = true := (valid_iff r).2 hshape
  simp only [hv, Bool.true_eq_false, if_false, emittedRecord, hnc, Bool.false_eq_true]

theorem parse_eq (buf : List Byte) (ign : Bool) (records : List NdefRecord) (offset : Int) :
    parse buf ign records offset =
      parseLoop buf ign (4398046511103 + 1) (initialState records offset) := rfl

theorem initialState_zero (records : List NdefRecord) :
    initialState records 0 =
      { inChunk := false, chunkTnf := toUInt8 255, me := false, index := 0,
        records := records } := rfl

theorem wire_length_le {r : NdefRecord} (h : WellFormed r) (mb me : Bool) :
    (wire r mb me).length ≤ 10486277 := by
  obtain ⟨-, h1, h2, h3⟩ := h
  rw [wire_length]
  split <;> split <;> omega

/-- C1. Round trip of one record: the bytes that `writeToByteBuffer` appends to
an empty buffer for a well-formed record, with any `mb` and `me`, parse in
single-record mode from offset 0 to exactly that record. -/
theorem roundtrip_single_record (r : NdefRecord) (isFirst isLast : Bool)
    (hshape : TnfShape r) (hty : r.mType.length ≤ 255) (hid : r.mId.length ≤ 255)
    (hpl : r.mPayload.length ≤ 10 * 2 ^ 20) :
    ∃ bytes, writeToByteBuffer r [] isFirst isLast = some bytes ∧
      parse bytes true [] 0 = .returned true [r] := by
  have hw : WellFormed r := ⟨hshape, hty, hid, hpl⟩
  have hlen := wire_length_le hw isFirst isLast
  refine ⟨wire r isFirst isLast, ?_, ?_⟩
  · have := writeToByteBuffer_eq r [] isFirst isLast (by unfold UINT32_MOD; omega)
      (by unfold UINT32_MOD; omega) (by unfold UINT32_MOD; omega)
    simpa using this
  · rw [parse_eq, initialState_zero]
    have hb := parseBody_wire (wire r isFirst isLast) true
      { inChunk := false, chunkTnf := toUInt8 255, me := false, index := 0, records := [] }
      r isFirst isLast [] (by simp)
      (by simp only [UINT32_MOD]; omega) rfl (Or.inl rfl) hshape hty hid (by omega)
    rw [parseLoop_exit _ rfl hb]
    simp

theorem roundtrip_single_record_witness :
    ∃ bytes, writeToByteBuffer ⟨1, [5], [9], [7, 8]⟩ [] true false = some bytes ∧
      parse bytes true [] 0 = .returned true [⟨1, [5], [9], [7, 8]⟩] :=
  roundtrip_single_record ⟨1, [5], [9], [7, 8]⟩ true false (by decide) (by decide)
    (by decide) (by decide)

/-- C2. Chunk reassembly on the code: fragments `MB,CF` tnf `WellKnown`
payload `[1]`, then `CF` tnf `Unchanged` payload `[2]`, then `ME` tnf
`Unchanged` payload `[3]` parse to one record of tnf `WellKnown` whose payload
is `[3, 3]`, the last fragment twice, and not `[1, 2, 3]`: `chunks` is declared
inside the loop body and `payload` is not cleared before the chunks are
appended to it. -/
theorem chunk_reassembly_keeps_last_fragment :
    parse [0xB1, 0, 1, 1, 0x37, 0, 1, 2, 0x57, 0, 1, 3] false [] 0
      = .returned true [⟨1, [], [], [3, 3]⟩] := by
  rw [parse_eq, initialState_zero]
  rw [parseLoop_loop ⟨true, 1, false, 4, []⟩ rfl (by decide)]
  rw [parseLoop_loop ⟨true, 1, false, 8, []⟩ rfl (by decide)]
  rw [parseLoop_loop ⟨false, 1, true, 12, [⟨1, [], [], [3, 3]⟩]⟩ rfl (by decide)]
  rw [parseLoop_me rfl]

/-- C8. TNF shape invariant of the output: every record of a successful parse
has a tnf in 0..6, is entirely empty when its tnf is `Empty`, and has an empty
type when its tnf is `Unknown` or `Reserved`. -/
theorem parsed_records_tnf_shape (buf : List Byte) (ignoreBeginEnd : Bool) (offset : Int)
    (recs : List NdefRecord)
    (h : parse buf ignoreBeginEnd [] offset = .returned true recs) :
    ∀ r ∈ recs, r.mTnf.val ≤ 6 ∧
      (r.mTnf = TNF_EMPTY → r.mType = [] ∧ r.mId = [] ∧ r.mPayload = []) ∧
      (r.mTnf = TNF_UNKNOWN ∨ r.mTnf = TNF_RESERVED → r.mType = []) := by
  obtain ⟨added, h1, h2⟩ := parseLoop_returned h
  intro r hr
  rw [h1] at hr
  simp only [List.nil_append] at hr
  exact (valid_iff r).1 (h2 r hr)

theorem parsed_records_tnf_shape_witness :
    parse [0xD1, 0, 1, 1] false [] 0 = .returned true [⟨1, [], [], [1]⟩] ∧
      (⟨1, [], [], [1]⟩ : NdefRecord).mTnf.val ≤ 6 :=
  ⟨by decide,
   (parsed_records_tnf_shape [0xD1, 0, 1, 1] false 0 [⟨1, [], [], [1]⟩] (by decide)
      ⟨1, [], [], [1]⟩ (List.mem_singleton_self _)).1⟩

/-- C9 on the code: a continuation fragment of the first record that has `MB`
set is accepted.  The first fragment is `MB,CF,SR` tnf 1, the second is
`MB,ME,SR` tnf `Unchanged`; `parse` returns `true` with one record. -/
theorem mb_on_continuation_fragment_accepted :
    parse [0xB1, 0, 0, 0xD7, 0, 0] false [] 0 = .returned true [⟨1, [], [], []⟩] := by
  rw [parse_eq, initialState_zero]
  rw [parseLoop_loop ⟨true, 1, false, 3, []⟩ rfl (by decide)]
  rw [parseLoop_loop ⟨false, 1, true, 6, [⟨1, [], [], []⟩]⟩ rfl (by decide)]
  rw [parseLoop_me rfl]

/-- C10. Missing message-begin: when the flag byte at the start offset has
`MB` clear, `parse` with `ignoreBeginEnd = false` and an empty output returns
`false`, and the output stays empty. -/
theorem missing_mb_rejected (buf : List Byte) (offset : Int) (flag : Byte)
    (hflag : buf[(offset % (UINT32_MOD : Int)).toNat]? = some flag)
    (hmb : flag.val &&& FLAG_MB = 0) :
    parse buf false [] offset = .returned false [] := by
  rw [parse_eq]
  apply parseLoop_exit _ rfl
  obtain ⟨hlt, hget⟩ := List.getElem?_eq_some_iff.1 hflag
  have hr : readByte buf (initialState [] offset).index
      = .ok (flag, ((offset % (UINT32_MOD : Int)).toNat + 1) % UINT32_MOD) := by
    unfold readByte initialState
    simp only
    rw [dif_pos hlt, hget]
  unfold parseBody readFragment
  rw [hr]
  simp only [hmb]
  simp [headerRejected, initialState]

theorem missing_mb_rejected_witness :
    parse [0x51, 0, 0] false [] 0 = .returned false [] :=
  missing_mb_rejected [0x51, 0, 0] 0 0x51 (by decide) (by decide)

/-! ## Bytes appended to the buffer, and how far the cursor moves -/

theorem readByte_append (buf x : List Byte) (i : Nat) :
    readByte buf i = .error .outOfRange ∨ readByte (buf ++ x) i = readByte buf i := by
  unfold readByte
  by_cases h : i < buf.length
  · right
    have h' : i < (buf ++ x).length := by rw [List.length_append]; omega
    rw [dif_pos h, dif_pos h', List.getElem_append_left h]
  · left; rw [dif_neg h]

theorem readBytes_append (buf x : List Byte) (n i : Nat) :
    readBytes buf n i = .error .outOfRange ∨ readBytes (buf ++ x) n i = readBytes buf n i := by
  induction n generalizing i with
  | zero => right; rfl
  | succ n ih =>
    rw [readBytes, readBytes]
    rcases readByte_append buf x i with h | h
    · left; rw [h]
    · rw [h]
      cases hb : readByte buf i with
      | error o => right; rfl
      | ok v =>
        obtain ⟨b, j⟩ := v
        simp only
        rcases ih j with h2 | h2
        · left; rw [h2]
        · right; rw [h2]

theorem readPayloadLength_append (buf x : List Byte) (sr : Bool) (i : Nat) :
    readPayloadLength buf sr i = .error .outOfRange ∨
      readPayloadLength (buf ++ x) sr i = readPayloadLength buf sr i := by
  unfold readPayloadLength
  cases sr
  · simp only [Bool.false_eq_true, if_false]
    by_cases h0 : i < buf.length
    · by_cases h1 : (i + 1) % UINT32_MOD < buf.length
      · by_cases h2 : (i + 2) % UINT32_MOD < buf.length
        · by_cases h3 : (i + 3) % UINT32_MOD < buf.length
          · right
            have l : (buf ++ x).length = buf.length + x.length := List.length_append _ _
            rw [dif_pos h0, dif_pos h1, dif_pos h2, dif_pos h3, dif_pos (by omega),
              dif_pos (by omega), dif_pos (by omega), dif_pos (by omega)]
            rw [List.getElem_append_left h0, List.getElem_append_left h1,
              List.getElem_append_left h2, List.getElem_append_left h3]
          · left; rw [dif_pos h0, dif_pos h1, dif_pos h2, dif_neg h3]
        · left; rw [dif_pos h0, dif_pos h1, dif_neg h2]
      · left; rw [dif_pos h0, dif_neg h1]
    · left; rw [dif_neg h0]
  · simp only [if_true]
    rcases readByte_append buf x i with h | h
    · left; rw [h]
    · right; rw [h]

theorem readIdLength_append (buf x : List Byte) (il : Bool) (i : Nat) :
    readIdLength buf il i = .error .outOfRange ∨
      readIdLength (buf ++ x) il i = readIdLength buf il i := by
  unfold readIdLength
  cases il
  · right; rfl
  · simp only [if_true]
    rcases readByte_append buf x i with h | h
    · left; rw [h]
    · right; rw [h]

theorem readTypeAndId_append (buf x : List Byte) (c : Bool) (tl il i : Nat) :
    readTypeAndId buf c tl il i = .error .outOfRange ∨
      readTypeAndId (buf ++ x) c tl il i = readTypeAndId buf c tl il i := by
  unfold readTypeAndId
  cases c
  · simp only [Bool.not_false, if_true]
    rcases readBytes_append buf x tl i with h | h
    · left; rw [h]
    · rw [h]
      cases hb : readBytes buf tl i with
      | error o => right; rfl
      | ok v =>
        obtain ⟨ty, j⟩ := v
        simp only
        rcases readBytes_append buf x il j with h2 | h2
        · left; rw [h2]
        · right; rw [h2]
  · right; rfl

theorem readFragment_append (buf x : List Byte) (ign : Bool) (s : ParseState) :
    readFragment buf ign s = .error .outOfRange ∨
      readFragment (buf ++ x) ign s = readFragment buf ign s := by
  unfold readFragment
  rcases readByte_append buf x s.index with h | h
  · left; rw [h]
  rw [h]
  cases h1 : readByte buf s.index with
  | error o => right; rfl
  | ok v =>
  obtain ⟨flag, i1⟩ := v
  simp only
  split
  · right; rfl
  rcases readByte_append buf x i1 with h | h
  · left; rw [h]
  rw [h]
  cases h2 : readByte buf i1 with
  | error o => right; rfl
  | ok v =>
  obtain ⟨tb, i2⟩ := v
  simp only
  rcases readPayloadLength_append buf x ((flag.val &&& FLAG_SR) != 0) i2 with h | h
  · left; rw [h]
  rw [h]
  cases h3 : readPayloadLength buf ((flag.val &&& FLAG_SR) != 0) i2 with
  | error o => right; rfl
  | ok v =>
  obtain ⟨pl, i3⟩ := v
  simp only
  rcases readIdLength_append buf x ((flag.val &&& FLAG_IL) != 0) i3 with h | h
  · left; rw [h]
  rw [h]
  cases h4 : readIdLength buf ((flag.val &&& FLAG_IL) != 0) i3 with
  | error o => right; rfl
  | ok v =>
  obtain ⟨idl, i4⟩ := v
  simp only
  split
  · right; rfl
  rcases readTypeAndId_append buf x s.inChunk (tb.val &&& 0xFF) idl i4 with h | h
  · left; rw [h]
  rw [h]
  cases h5 : readTypeAndId buf s.inChunk (tb.val &&& 0xFF) idl i4 with
  | error o => right; rfl
  | ok v =>
  obtain ⟨ty, id, i5⟩ := v
  simp only
  split
  · right; rfl
  rcases readBytes_append buf x pl i5 with h | h
  · left; rw [h]
  · right; rw [h]

theorem readByte_bound {buf : List Byte} {i j : Nat} {b : Byte}
    (hM : buf.length < UINT32_MOD) (h : readByte buf i = .ok (b, j)) :
    i < buf.length ∧ j = i + 1 := by
  unfold readByte at h
  split at h
  · rename_i hi
    simp only [Except.ok.injEq, Prod.mk.injEq] at h
    refine ⟨hi, ?_⟩
    rw [← h.2, Nat.mod_eq_of_lt (by omega)]
  · simp at h

theorem readBytes_bound {buf : List Byte} {n i j : Nat} {bs : List Byte}
    (hM : buf.length < UINT32_MOD) (hi : i ≤ buf.length)
    (h : readBytes buf n i = .ok (bs, j)) :
    j = i + n ∧ j ≤ buf.length ∧ bs.length = n := by
  induction n generalizing i bs with
  | zero =>
    simp only [readBytes, Except.ok.injEq, Prod.mk.injEq] at h
    obtain ⟨h1, h2⟩ := h
    subst h1; subst h2
    exact ⟨rfl, hi, rfl⟩
  | succ n ih =>
    rw [readBytes] at h
    split at h
    · simp at h
    · rename_i b i1 h1
      obtain ⟨hlt, hi1⟩ := readByte_bound hM h1
      split at h
      · simp at h
      · rename_i bs' j' h2
        simp only [Except.ok.injEq, Prod.mk.injEq] at h
        obtain ⟨e1, e2⟩ := h
        subst e1; subst e2
        obtain ⟨a1, a2, a3⟩ := ih (by omega) h2
        refine ⟨by omega, a2, by simp [a3]⟩

theorem readPayloadLength_bound {buf : List Byte} {sr : Bool} {i j pl : Nat}
    (hM : buf.length < UINT32_MOD) (h : readPayloadLength buf sr i = .ok (pl, j)) :
    i < j ∧ j ≤ buf.length := by
  unfold readPayloadLength at h
  cases sr
  · simp only [Bool.false_eq_true, if_false] at h
    split at h
    · rename_i h0
      split at h
      · rename_i h1
        split at h
        · rename_i h2
          split at h
          · rename_i h3
            simp only [Except.ok.injEq, Prod.mk.injEq] at h
            have e3 : (i + 3) % UINT32_MOD = i + 3 := by
              have e1 : (i + 1) % UINT32_MOD = i + 1 := Nat.mod_eq_of_lt (by omega)
              have e2 : (i + 2) % UINT32_MOD = i + 2 := Nat.mod_eq_of_lt (by omega)
              exact Nat.mod_eq_of_lt (by omega)
            have e4 : (i + 4) % UINT32_MOD = i + 4 := Nat.mod_eq_of_lt (by omega)
            omega
          · simp at h
        · simp at h
      · simp at h
    · simp at h
  · simp only [if_true] at h
    split at h
    · simp at h
    · rename_i b i1 h1
      obtain ⟨a, c⟩ := readByte_bound hM h1
      simp only [Except.ok.injEq, Prod.mk.injEq] at h
      omega

theorem readFragment_bound {buf : List Byte} {ign : Bool} {s : ParseState} {f : Fragment}
    (hM : buf.length < UINT32_MOD) (h : readFragment buf ign s = .ok f) :
    s.index + 3 ≤ f.index ∧ f.index ≤ buf.length := by
  obtain ⟨flag, tb, i1, i2, i3, i4, i5, pl, idl, r1, -, r2, r3, r4, -, r5, -, r6, -⟩ :=
    (readFragment_ok h).ex
  obtain ⟨a1, b1⟩ := readByte_bound hM r1
  obtain ⟨a2, b2⟩ := readByte_bound hM r2
  obtain ⟨a3, b3⟩ := readPayloadLength_bound hM r3
  have c4 : i3 ≤ i4 ∧ i4 ≤ buf.length := by
    unfold readIdLength at r4
    split at r4
    · split at r4
      · simp at r4
      · rename_i b j hb
        obtain ⟨a, c⟩ := readByte_bound hM hb
        simp only [Except.ok.injEq, Prod.mk.injEq] at r4
        omega
    · simp only [Except.ok.injEq, Prod.mk.injEq] at r4
      omega
  have c5 : i4 ≤ i5 ∧ i5 ≤ buf.length := by
    unfold readTypeAndId at r5
    split at r5
    · split at r5
      · simp at r5
      · rename_i ty j hty
        obtain ⟨x1, x2, -⟩ := readBytes_bound hM c4.2 hty
        split at r5
        · simp at r5
        · rename_i id j2 hid
          obtain ⟨y1, y2, -⟩ := readBytes_bound hM x2 hid
          simp only [Except.ok.injEq, Prod.mk.injEq] at r5
          omega
    · simp only [Except.ok.injEq, Prod.mk.injEq] at r5
      omega
  obtain ⟨z1, z2, -⟩ := readBytes_bound hM c5.2 r6
  omega

theorem parse_out_of_range_of_readFragment {buf : List Byte} {ign : Bool}
    {records : List NdefRecord} {offset : Int}
    (h : readFragment buf ign (initialState records offset) = .error .outOfRange) :
    parse buf ign records offset = .outOfRange := by
  rw [parse_eq]
  apply parseLoop_exit _ rfl
  unfold parseBody
  rw [h]

/-- C4 as stated fails: on the empty buffer `parse` does not return `false`;
it indexes the buffer out of range. -/
theorem empty_buffer_not_a_failure :
    parse [] false [] 0 = .outOfRange ∧ ¬ ∃ recs, parse [] false [] 0 = .returned false recs := by
  have h : parse [] false [] 0 = .outOfRange := by decide
  refine ⟨h, ?_⟩
  rintro ⟨recs, hr⟩
  rw [h] at hr
  cases hr

/-- C5 as stated fails: a header that announces one type byte and a payload
of `10 * 2 ^ 20 + 1` bytes, with nothing after it, does not make `parse`
return `false`; the type byte is read, out of range, before the payload size
is checked. -/
theorem oversized_payload_not_a_failure :
    parse [0xC1, 1, 0x00, 0xA0, 0x00, 0x01] false [] 0 = .outOfRange := by decide

theorem twoChunks_first (c : List Byte) :
    parseBody (twoChunks c) false
      { inChunk := false, chunkTnf := toUInt8 255, me := false, index := 0, records := [] }
      = .loop { inChunk := true, chunkTnf := 1, me := false, index := 3, records := [] } := by
  have f1 := @readFragment_drop (twoChunks c) false
    { inChunk := false, chunkTnf := toUInt8 255, me := false, index := 0, records := [] }
    0xB1 0 [0] [] [] [] []
    ([0x47, 0] ++ wireLength c.length ++ c) (by rfl) (by decide) (by decide) ⟨0, rfl, rfl⟩ ⟨rfl, rfl⟩ rfl
    (by intro h; cases h) (by decide)
  rw [parseBody_of_readFragment f1, completeFragment_cf rfl]
  rfl

theorem twoChunks_second_read (c : List Byte) (h1 : 256 ≤ c.length)
    (h2 : c.length ≤ 10485760) :
    readFragment (twoChunks c) false
      { inChunk := true, chunkTnf := 1, me := false, index := 3, records := [] }
      = .ok { mb := false, me := true, cf := false, tnf := 7, type := [], id := [],
              payload := c, index := 9 + c.length } := by
  have hwl : (wireLength c.length).length = 4 := by
    rw [wireLength_length, if_neg (by omega)]
  have hsr : (((0x47 : Byte).val &&& FLAG_SR) != 0) = decide (c.length < 256) := by
    have : ¬ c.length < 256 := by omega
    simp only [this, decide_False]
    decide
  have f2 := @readFragment_drop (twoChunks c) false
    { inChunk := true, chunkTnf := 1, me := false, index := 3, records := [] }
    0x47 0 (wireLength c.length) [] [] [] c [] (by simp [twoChunks])
    (by simp only [hwl, List.length_nil, UINT32_MOD]; omega) (by decide)
    (by rw [hsr]; exact lengthField_wire _ (by unfold UINT32_MOD; omega))
    ⟨rfl, rfl⟩ rfl (by intro _; exact ⟨rfl, rfl⟩) h2
  rw [f2, hwl]
  rfl

theorem twoChunks_second (c : List Byte) (h1 : 256 ≤ c.length) (h2 : c.length ≤ 10485760) :
    parseBody (twoChunks c) false
      { inChunk := true, chunkTnf := 1, me := false, index := 3, records := [] }
      = .loop { inChunk := false, chunkTnf := 1, me := true,
                index := 9 + c.length, records := [⟨1, [], [], c ++ c⟩] } := by
  have hv : validateTnf 1 [] [] (c ++ c) = true := by
    rw [validateTnf_iff]
    refine ⟨by decide, ?_, ?_⟩
    · intro h; exact absurd h (by decide)
    · intro h; exact absurd h (by decide)
  rw [parseBody_of_readFragment (twoChunks_second_read c h1 h2),
    completeFragment_last rfl rfl]
  simp only
  rw [Nat.mod_eq_of_lt (by unfold UINT32_MOD; omega), ensureSanePayloadSize_eq]
  simp only [h2, decide_True, Bool.true_eq_false, if_false, hv, emittedRecord, if_true,
    List.nil_append, Bool.false_eq_true]

theorem parse_twoChunks (c : List Byte) (h1 : 256 ≤ c.length) (h2 : c.length ≤ 10485760) :
    parse (twoChunks c) false [] 0 = .returned true [⟨1, [], [], c ++ c⟩] := by
  rw [parse_eq, initialState_zero]
  rw [parseLoop_loop _ rfl (twoChunks_first c)]
  rw [parseLoop_loop _ rfl (twoChunks_second c h1 h2), parseLoop_me rfl]

/-- C6 on the code: the last fragment of a chunked record carries
`5 * 2 ^ 20 + 1` payload bytes; `parse` succeeds and the record it emits has a
payload of `10 * 2 ^ 20 + 2` bytes, above the limit.  Only the last fragment's
length is summed for the check at line 144, and its bytes are appended to a
`payload` that already holds them. -/
theorem reassembled_payload_above_limit :
    parse (twoChunks (List.replicate 5242881 0)) false [] 0
      = .returned true
          [⟨1, [], [], List.replicate 5242881 0 ++ List.replicate 5242881 0⟩] ∧
    (List.replicate 5242881 (0 : Byte) ++ List.replicate 5242881 0).length
      = 10 * 2 ^ 20 + 2 := by
  constructor
  · exact parse_twoChunks _ (by rw [List.length_replicate]; omega)
      (by rw [List.length_replicate]; omega)
  · rw [List.length_append, List.length_replicate]
    norm_num

theorem writeRecords_eq (rs : List NdefRecord) (mb : Bool) (buf : List Byte)
    (h : ∀ r ∈ rs, WellFormed r) :
    writeRecords rs mb buf = some (buf ++ wires rs mb) := by
  induction rs generalizing mb buf with
  | nil => simp [writeRecords, wires]
  | cons r rs ih =>
    obtain ⟨-, h1, h2, h3⟩ := h r (List.mem_cons_self _ _)
    rw [writeRecords, writeToByteBuffer_eq r buf mb _ (by unfold UINT32_MOD; omega)
      (by unfold UINT32_MOD; omega) (by unfold UINT32_MOD; omega)]
    simp only
    rw [ih false _ (fun r' hr' => h r' (List.mem_cons_of_mem _ hr')), wires,
      List.append_assoc]

theorem wires_append_singleton (rs : List NdefRecord) (r : NdefRecord) (mb : Bool) :
    wires (rs ++ [r]) mb = wiresOpen rs mb ++ wire r (mb && rs.isEmpty) true := by
  induction rs generalizing mb with
  | nil => simp [wires, wiresOpen]
  | cons a rs ih =>
    have he : (rs ++ [r]).isEmpty = false := by cases rs <;> rfl
    rw [List.cons_append, wires, he, ih false, wiresOpen, List.append_assoc]
    simp

/-- The loop consumes the records of `wiresOpen rs mb` one per iteration. -/
theorem parseLoop_wiresOpen (buf : List Byte) (rs : List NdefRecord) :
    ∀ (s : ParseState) (fuel : Nat) (mb : Bool) (rest : List Byte),
      buf.drop s.index = wiresOpen rs mb ++ rest →
      s.index + (wiresOpen rs mb).length < UINT32_MOD →
      s.inChunk = false → s.me = false → (mb = true ↔ s.records = []) →
      (∀ r ∈ rs, WellFormed r) →
      parseLoop buf false (fuel + rs.length) s =
        parseLoop buf false fuel
          { inChunk := false, chunkTnf := s.chunkTnf, me := false,
            index := s.index + (wiresOpen rs mb).length, records := s.records ++ rs } := by
  induction rs with
  | nil =>
    intro s fuel mb rest _ _ hc hme _ _
    simp only [List.length_nil, Nat.add_zero, wiresOpen, List.append_nil]
    congr 1
    cases s
    simp only at hc hme
    subst hc; subst hme
    rfl
  | cons r rs ih =>
    intro s fuel mb rest hdrop hbound hc hme hmb hwf
    obtain ⟨hshape, hty, hid, hpl⟩ := hwf r (List.mem_cons_self _ _)
    have hdrop' : buf.drop s.index = wire r mb false ++ (wiresOpen rs false ++ rest) := by
      rw [hdrop, wiresOpen, List.append_assoc]
    have hlen : (wiresOpen (r :: rs) mb).length
        = (wire r mb false).length + (wiresOpen rs false).length := by
      rw [wiresOpen, List.length_append]
    rw [hlen] at hbound
    have hb := parseBody_wire buf false s r mb false _ hdrop' (by omega) hc (Or.inr hmb)
      hshape hty hid (by omega)
    simp only [Bool.false_eq_true, if_false] at hb
    have hfuel : fuel + (r :: rs).length = (fuel + rs.length) + 1 := by
      simp only [List.length_cons]; omega
    rw [hfuel, parseLoop_loop _ hme hb]
    rw [ih _ fuel false rest (drop_append_inv _ hdrop') (by simp only; omega) rfl rfl
      (by simp) (fun r' hr' => hwf r' (List.mem_cons_of_mem _ hr'))]
    simp only [hlen, List.append_assoc, List.singleton_append, Nat.add_assoc]

theorem wire_length_ge (r : NdefRecord) (mb me : Bool) : 3 ≤ (wire r mb me).length := by
  rw [wire_length]; split <;> omega

theorem wiresOpen_length_ge (rs : List NdefRecord) (mb : Bool) :
    rs.length ≤ (wiresOpen rs mb).length := by
  induction rs generalizing mb with
  | nil => simp [wiresOpen]
  | cons r rs ih =>
    rw [wiresOpen, List.length_append, List.length_cons]
    have := wire_length_ge r mb false
    have := ih false
    omega

/-- A message that is shorter than `2 ^ 32` bytes parses to its records. -/
theorem parse_wires (rs : List NdefRecord) (hne : rs ≠ [])
    (hwf : ∀ r ∈ rs, WellFormed r) (hlen : (wires rs true).length < UINT32_MOD) :
    parse (wires rs true) false [] 0 = .returned true rs := by
  obtain ⟨front, last, rfl⟩ : ∃ front last, rs = front ++ [last] :=
    ⟨rs.dropLast, rs.getLast hne, (List.dropLast_append_getLast hne).symm⟩
  rw [wires_append_singleton] at hlen ⊢
  rw [List.length_append] at hlen
  have hfl := wiresOpen_length_ge front true
  have hfuel : (4398046511103 + 1 : Nat) = (4398046511103 - front.length + 1) + front.length := by
    unfold UINT32_MOD at hlen; omega
  rw [parse_eq, initialState_zero, hfuel]
  rw [parseLoop_wiresOpen _ front _ _ true (wire last (true && front.isEmpty) true)
    (by simp) (by simp only; omega) rfl rfl (by simp)
    (fun r hr => hwf r (List.mem_append_left _ hr))]
  obtain ⟨hshape, hty, hid, hpl⟩ := hwf last (List.mem_append_right _ (List.mem_singleton_self _))
  have hb := parseBody_wire (wiresOpen front true ++ wire last (true && front.isEmpty) true)
    false
    { inChunk := false, chunkTnf := toUInt8 255, me := false,
      index := 0 + (wiresOpen front true).length, records := [] ++ front }
    last (true && front.isEmpty) true [] (by simp) (by simp only; omega) rfl
    (Or.inr (by cases front <;> simp)) hshape hty hid (by omega)
  simp only [Bool.false_eq_true, if_false] at hb
  rw [parseLoop_loop _ rfl hb, parseLoop_me rfl]
  simp

theorem bigPayload_length : bigPayload.length = 10485760 := by
  unfold bigPayload; exact List.length_replicate _ _

theorem bigRecord_wellFormed : WellFormed bigRecord := by
  refine ⟨⟨?_, ?_, ?_⟩, ?_, ?_, ?_⟩
  · show (1 : Byte).val ≤ 6
    decide
  · intro h
    have h' : (1 : Byte) = TNF_EMPTY := h
    exact absurd h' (by decide)
  · intro h
    have h' : (1 : Byte) = TNF_UNKNOWN ∨ (1 : Byte) = TNF_RESERVED := h
    exact absurd h' (by decide)
  · show ([] : List Byte).length ≤ 255
    decide
  · show ([] : List Byte).length ≤ 255
    decide
  · show bigPayload.length ≤ 10 * 2 ^ 20
    rw [bigPayload_length]; norm_num

theorem wire_bigRecord (mb me : Bool) :
    wire bigRecord mb me =
      toUInt8 ((if mb then FLAG_MB else 0) ||| (if me then FLAG_ME else 0) ||| 1) :: 0 ::
        ([0, 0xA0, 0, 0] ++ ([] ++ ([] ++ ([] ++ bigPayload)))) := by
  have hp : bigRecord.mPayload.length = 10485760 := bigPayload_length
  have hi : bigRecord.mId.length = 0 := rfl
  have ht : bigRecord.mType.length = 0 := rfl
  unfold wire wireFlags wireLength wireIdLength
  rw [hp, hi, ht]
  have e1 : bigRecord.mTnf.val = 1 := rfl
  have e2 : bigRecord.mType = [] := rfl
  have e3 : bigRecord.mId = [] := rfl
  have e4 : bigRecord.mPayload = bigPayload := rfl
  rw [e1, e2, e3, e4]
  cases mb <;> cases me <;> rfl

theorem wire_bigRecord_length (mb me : Bool) : (wire bigRecord mb me).length = 10485766 := by
  have hp : bigRecord.mPayload.length = 10485760 := bigPayload_length
  have hi : bigRecord.mId.length = 0 := rfl
  have ht : bigRecord.mType.length = 0 := rfl
  rw [wire_length, hp, hi, ht, if_neg (by omega), if_neg (by omega)]

theorem wiresOpen_replicate_length (n : Nat) (mb : Bool) :
    (wiresOpen (List.replicate n bigRecord) mb).length = n * 10485766 := by
  induction n generalizing mb with
  | zero => rfl
  | succ n ih =>
    rw [List.replicate_succ, wiresOpen, List.length_append, wire_bigRecord_length, ih]
    omega

/-- With a buffer of at least `2 ^ 32` bytes every read is in range, and the
cursor wraps around. -/
theorem readBytes_wrap (buf : List Byte) (hM : UINT32_MOD ≤ buf.length) (n : Nat) :
    ∀ i, i < UINT32_MOD → ∃ bs j, readBytes buf n i = .ok (bs, j) ∧
      ∀ k, k < n → bs[k]? = buf[(i + k) % UINT32_MOD]? := by
  induction n with
  | zero =>
    intro i _
    exact ⟨[], i, rfl, fun k hk => absurd hk (Nat.not_lt_zero k)⟩
  | succ n ih =>
    intro i hi
    have hlt : i < buf.length := by omega
    obtain ⟨bs, j, hr, hget⟩ := ih ((i + 1) % UINT32_MOD) (Nat.mod_lt _ (by unfold UINT32_MOD; omega))
    refine ⟨buf[i] :: bs, j, ?_, ?_⟩
    · rw [readBytes]
      have : readByte buf i = .ok (buf[i], (i + 1) % UINT32_MOD) := by
        unfold readByte; rw [dif_pos hlt]
      rw [this]
      simp only
      rw [hr]
    · intro k hk
      cases k with
      | zero =>
        simp only [Nat.add_zero, Nat.mod_eq_of_lt hi, List.getElem?_cons_zero]
        exact (List.getElem?_eq_getElem hlt).symm
      | succ k =>
        rw [List.getElem?_cons_succ, hget k (by omega)]
        congr 1
        unfold UINT32_MOD
        omega

theorem bigMessage_eq : bigMessage = List.replicate 409 bigRecord ++ [bigRecord] := by
  unfold bigMessage
  exact List.replicate_succ' 409 bigRecord

theorem wires_bigMessage_split :
    wires bigMessage true =
      wiresOpen (List.replicate 409 bigRecord) true ++ wire bigRecord false true := by
  rw [bigMessage_eq, wires_append_singleton]
  have he : (true && (List.replicate 409 bigRecord).isEmpty) = false := rfl
  rw [he]

theorem wires_bigMessage :
    wires bigMessage true =
      wiresOpen (List.replicate 409 bigRecord) true ++
        (0x41 :: 0 :: ([0, 0xA0, 0, 0] ++ ([] ++ ([] ++ ([] ++ bigPayload))))) := by
  rw [wires_bigMessage_split, wire_bigRecord false true]
  rfl

theorem wires_bigMessage_head : (wires bigMessage true)[0]? = some 0x81 := by
  rw [wires_bigMessage]
  have h : List.replicate 409 bigRecord = bigRecord :: List.replicate 408 bigRecord :=
    List.replicate_succ _ _
  rw [h, wiresOpen, wire_bigRecord true false, List.cons_append, List.cons_append,
    List.getElem?_cons_zero]
  rfl

theorem wires_bigMessage_length : (wires bigMessage true).length = 4299164060 := by
  rw [wires_bigMessage_split, List.length_append, wiresOpen_replicate_length,
    wire_bigRecord_length]

theorem parse_bigMessage_front :
    parse (wires bigMessage true) false [] 0 =
      parseLoop (wires bigMessage true) false (4398046510694 + 1) bigState := by
  have hfuel : (4398046511103 + 1 : Nat) = (4398046510694 + 1) + 409 := by norm_num
  have hl : (List.replicate 409 bigRecord).length = 409 := List.length_replicate _ _
  rw [parse_eq, initialState_zero, hfuel]
  have key := parseLoop_wiresOpen (wires bigMessage true) (List.replicate 409 bigRecord)
    { inChunk := false, chunkTnf := toUInt8 255, me := false, index := 0, records := [] }
    (4398046510694 + 1) true
    (0x41 :: 0 :: ([0, 0xA0, 0, 0] ++ ([] ++ ([] ++ ([] ++ bigPayload)))))
    (by rw [wires_bigMessage]; rfl)
    (by rw [wiresOpen_replicate_length]; decide) rfl rfl (by simp)
    (fun r hr => by rw [List.eq_of_mem_replicate hr]; exact bigRecord_wellFormed)
  rw [hl] at key
  rw [key, wiresOpen_replicate_length]
  rfl

theorem bigState_drop :
    (wires bigMessage true).drop bigState.index =
      0x41 :: 0 :: ([0, 0xA0, 0, 0] ++ ([] ++ ([] ++ ([] ++ bigPayload)))) := by
  have hl : bigState.index = (wiresOpen (List.replicate 409 bigRecord) true).length := by
    rw [wiresOpen_replicate_length]; rfl
  rw [hl, wires_bigMessage, List.drop_left]

/-- The 410th fragment of `bigMessage` is read with a payload that differs
from `bigPayload`: the cursor wraps to index 0 inside it. -/
theorem bigState_read :
    ∃ payload j, payload ≠ bigPayload ∧
      readFragment (wires bigMessage true) false bigState =
        .ok { mb := false, me := true, cf := false, tnf := 1, type := [], id := [],
              payload := payload, index := j } := by
  have hM : UINT32_MOD ≤ (wires bigMessage true).length := by
    rw [wires_bigMessage_length]; decide
  obtain ⟨bs, j, hr, hget⟩ :=
    readBytes_wrap (wires bigMessage true) hM 10485760 4288678300 (by decide)
  refine ⟨bs, j, ?_, ?_⟩
  · intro hbs
    have h1 := hget 6288996 (by decide)
    have h2 : (4288678300 + 6288996) % UINT32_MOD = 0 := by decide
    rw [h2, wires_bigMessage_head, hbs] at h1
    unfold bigPayload at h1
    rw [List.getElem?_replicate, if_pos (by decide)] at h1
    exact absurd h1 (by decide)
  · have hrej : headerRejected false bigState.inChunk bigState.records
        ((((0x41 : Byte).val) &&& FLAG_MB) != 0) ((((0x41 : Byte).val) &&& FLAG_ME) != 0)
        ((((0x41 : Byte).val) &&& FLAG_CF) != 0) ((((0x41 : Byte).val) &&& FLAG_IL) != 0)
        (toUInt8 (((0x41 : Byte).val) &&& 0x07)) = false := by
      have hne : ¬ bigState.records = [] := by
        intro h
        have : bigState.records.length = 409 := List.length_replicate _ _
        rw [h] at this
        cases this
      have h := @headerRejected_plain false bigState.records false true false 1 (by decide)
        (Or.inr (Iff.intro (fun h => Bool.noConfusion h) (fun h => absurd h hne)))
      exact h
    rw [readFragment_fields false bigState 0x41 0 [0, 0xA0, 0, 0] [] [] [] bigPayload
      bigState_drop (by decide) hrej (show LengthField false [0, 0xA0, 0, 0] 10485760 from
        ⟨0, 0xA0, 0, 0, rfl, by decide⟩) ⟨rfl, rfl⟩ rfl (by intro h; cases h),
      ensureSanePayloadSize_eq]
    have hi : bigState.index + 1 + 1 + ([0, 0xA0, 0, 0] : List Byte).length
        + ([] : List Byte).length + ([] : List Byte).length + ([] : List Byte).length
        = 4288678300 := by decide
    rw [hi, hr]
    rfl

/-- C7 as stated fails: the 410 records of `bigMessage` are well-formed, and
their encoding, of more than `2 ^ 32` bytes, does not parse to them.  The
cursor `index` is a `uint32_t` and wraps to 0 inside the last record. -/
theorem big_message_not_roundtrip :
    bigMessage ≠ [] ∧ (∀ r ∈ bigMessage, WellFormed r) ∧
    ∃ bytes, writeMessage bigMessage = some bytes ∧
      parse bytes false [] 0 ≠ .returned true bigMessage := by
  have hwf : ∀ r ∈ bigMessage, WellFormed r := by
    intro r hr
    unfold bigMessage at hr
    rw [List.eq_of_mem_replicate hr]
    exact bigRecord_wellFormed
  refine ⟨?_, hwf, wires bigMessage true, ?_, ?_⟩
  · intro h
    have : bigMessage.length = 410 := List.length_replicate _ _
    rw [h] at this
    cases this
  · have := writeRecords_eq bigMessage true [] hwf
    rw [List.nil_append] at this
    exact this
  · obtain ⟨payload, j, hne, hread⟩ := bigState_read
    have hv : validateTnf 1 [] [] payload = true := by
      rw [validateTnf_iff]
      refine ⟨by decide, ?_, ?_⟩
      · intro h; exact absurd h (by decide)
      · intro h; exact absurd h (by decide)
    have hb : parseBody (wires bigMessage true) false bigState =
        .loop { inChunk := false, chunkTnf := toUInt8 255, me := true, index := j,
                records := List.replicate 409 bigRecord ++ [⟨1, [], [], payload⟩] } := by
      rw [parseBody_of_readFragment hread, completeFragment_plain rfl rfl]
      simp only [hv, Bool.true_eq_false, if_false, Bool.false_eq_true]
      rfl
    rw [parse_bigMessage_front, parseLoop_loop _ rfl hb, parseLoop_me rfl, bigMessage_eq]
    intro h
    simp only [Outcome.returned.injEq, true_and] at h
    have h' := List.append_cancel_left h
    simp only [List.cons.injEq, and_true] at h'
    apply hne
    have : payload = bigRecord.mPayload := by rw [← h']
    exact this

/-- C7, amended. Multi-record round trip in wire order: for every non-empty
list of well-formed records, writing them in order with `writeToByteBuffer`
(`mb` on the first only, `me` on the last only) succeeds, and when the buffer
so obtained is shorter than `2 ^ 32` bytes it parses with
`ignoreBeginEnd = false` to exactly that list, in the same order. -/
theorem message_roundtrip (rs : List NdefRecord) (hne : rs ≠ [])
    (hwf : ∀ r ∈ rs, WellFormed r) :
    (∃ bytes, writeMessage rs = some bytes) ∧
    ∀ bytes, writeMessage rs = some bytes → bytes.length < 2 ^ 32 →
      parse bytes false [] 0 = .returned true rs := by
  have hw : writeMessage rs = some (wires rs true) := by
    have := writeRecords_eq rs true [] hwf
    rw [List.nil_append] at this
    exact this
  refine ⟨⟨_, hw⟩, ?_⟩
  intro bytes hb hlen
  rw [hw] at hb
  cases hb
  exact parse_wires rs hne hwf (by unfold UINT32_MOD; omega)

theorem message_roundtrip_witness :
    (∃ bytes, writeMessage [⟨1, [5], [], [7]⟩, ⟨2, [], [9], []⟩] = some bytes) ∧
    parse [0x91, 1, 1, 5, 7, 0x5A, 0, 0, 1, 9] false [] 0
      = .returned true [⟨1, [5], [], [7]⟩, ⟨2, [], [9], []⟩] :=
  ⟨(message_roundtrip [⟨1, [5], [], [7]⟩, ⟨2, [], [9], []⟩] (by decide) (by decide)).1,
   (message_roundtrip [⟨1, [5], [], [7]⟩, ⟨2, [], [9], []⟩] (by decide) (by decide)).2
     [0x91, 1, 1, 5, 7, 0x5A, 0, 0, 1, 9] (by decide) (by decide)⟩

theorem writeToByteBuffer_header (r : NdefRecord) (buf : List Byte) (mb me : Bool) :
    writeToByteBuffer r buf mb me =
      (pushAll (writeHeader r buf mb me) r.mType).bind fun b =>
        (pushAll b r.mId).bind fun b => pushAll b r.mPayload := by
  unfold writeToByteBuffer writeHeader
  simp only
  cases pushAll _ r.mType with
  | none => rfl
  | some b =>
    simp only [Option.some_bind]
    cases pushAll b r.mId <;> rfl

theorem id_nonempty_iff (r : NdefRecord) : r.mId ≠ [] ↔ r.mId.length > 0 := by
  cases r.mId <;> simp

theorem specFlags_eq (r : NdefRecord) (mb me : Bool) :
    specFlags r mb me = (if mb then FLAG_MB else 0) ||| (if me then FLAG_ME else 0) |||
      (if decide (r.mPayload.length < 256) then FLAG_SR else 0) |||
      (if decide (r.mId.length > 0) then FLAG_IL else 0) ||| r.mTnf.val := by
  unfold specFlags FLAG_MB FLAG_ME FLAG_SR FLAG_IL
  by_cases h1 : r.mPayload.length < 256 <;> by_cases h2 : r.mId.length > 0 <;>
    simp [h1, h2, id_nonempty_iff]

theorem flags_lt : ∀ mb me sr il : Bool, ∀ t : Fin 8,
    ((if mb then FLAG_MB else 0) ||| (if me then FLAG_ME else 0) |||
      (if sr then FLAG_SR else 0) ||| (if il then FLAG_IL else 0) ||| t.val) < 256 ∧
    ((if mb then FLAG_MB else 0) ||| (if me then FLAG_ME else 0) |||
      (if sr then FLAG_SR else 0) ||| (if il then FLAG_IL else 0) ||| t.val) &&& FLAG_CF = 0 := by
  decide

theorem writeHeader_eq (r : NdefRecord) (buf : List Byte) (mb me : Bool) :
    writeHeader r buf mb me =
      buf ++ (wireFlags r mb me :: toUInt8 r.mType.length ::
        (wireLength r.mPayload.length ++ wireIdLength r.mId.length)) := by
  unfold writeHeader wireFlags wireLength wireIdLength
  by_cases h1 : r.mPayload.length < 256 <;> by_cases h2 : r.mId.length > 0 <;>
    simp [h1, h2]

theorem getElem?_append_cons (buf rest : List Byte) (x : Byte) :
    (buf ++ x :: rest)[buf.length]? = some x := by
  rw [List.getElem?_append_right (Nat.le_refl _), Nat.sub_self, List.getElem?_cons_zero]

theorem hugeType_length : hugeType.length = 4294967296 := by
  unfold hugeType; exact List.length_replicate _ _

theorem toUInt8_mod (n : Nat) : toUInt8 (n % 256) = toUInt8 n := by
  apply Fin.ext
  rw [toUInt8_val, toUInt8_val]
  omega

theorem wireLength_eq_spec (n : Nat) : wireLength n = specLengthField n := by
  unfold wireLength specLengthField
  have e : (0xff : Nat) = 2 ^ 8 - 1 := by norm_num
  simp only [e, Nat.and_pow_two_sub_one_eq_mod, Nat.shiftRight_eq_div_pow]

theorem wireIdLength_eq_spec (r : NdefRecord) :
    wireIdLength r.mId.length = if r.mId ≠ [] then [toUInt8 (r.mId.length % 256)] else [] := by
  unfold wireIdLength
  rw [toUInt8_mod]
  by_cases h : r.mId.length > 0
  · rw [if_pos h, if_pos ((id_nonempty_iff r).2 h)]
  · rw [if_neg h, if_neg (fun h' => h ((id_nonempty_iff r).1 h'))]

theorem wire_eq_specEncoding (r : NdefRecord) (mb me : Bool) :
    wire r mb me = specEncoding r mb me := by
  unfold wire specEncoding
  rw [wireLength_eq_spec, wireIdLength_eq_spec, toUInt8_mod]
  have hf : wireFlags r mb me = toUInt8 (specFlags r mb me) := by
    rw [specFlags_eq]; rfl
  rw [hf]
  simp only [List.cons_append, List.nil_append, List.append_assoc, List.singleton_append,
    toUInt8_mod]

theorem wire_tnf16 (p : List Byte) (hp : p.length = 256) :
    wire ⟨16, [], [], p⟩ false false = [0x10, 0, 0, 0, 1, 0] ++ p := by
  unfold wire wireFlags wireLength wireIdLength
  simp only [hp, Nat.lt_irrefl, if_false, List.length_nil, gt_iff_lt, decide_False,
    Bool.false_eq_true, List.nil_append]
  rfl

theorem specLengthField_value (n : Nat) (h1 : 256 ≤ n) (h2 : n < 2 ^ 32) :
    ∃ b0 b1 b2 b3 : Byte, specLengthField n = [b0, b1, b2, b3] ∧
      b0.val * 2 ^ 24 + b1.val * 2 ^ 16 + b2.val * 2 ^ 8 + b3.val = n := by
  refine ⟨_, _, _, _, by unfold specLengthField; rw [if_neg (by omega)], ?_⟩
  simp only [toUInt8_val]
  norm_num at h2 ⊢
  omega

/-- C13 as stated fails in two ways.  A record of tnf 16 with a payload of 256
bytes is written with the `SR` bit (0x10) set in its flags byte, next to a
4-byte length.  For a record whose type holds `2 ^ 32` bytes the copy loop
`for (uint32_t i = 0; i < mType.size(); i++)` never ends, so the call does
not return. -/
theorem layout_needs_small_tnf_and_fields :
    writeToByteBuffer ⟨16, [], [], List.replicate 256 0⟩ [] false false
      = some ([0x10, 0, 0, 0, 1, 0] ++ List.replicate 256 0) ∧
    (0x10 : Byte).val &&& FLAG_SR ≠ 0 ∧
    writeToByteBuffer ⟨1, hugeType, [], []⟩ [] true true = none := by
  refine ⟨?_, by decide, ?_⟩
  · have hl : (List.replicate 256 (0 : Byte)).length = 256 := List.length_replicate _ _
    rw [writeToByteBuffer_eq _ _ _ _ (by decide) (by decide)
      (by rw [show (⟨16, [], [], List.replicate 256 0⟩ : NdefRecord).mPayload.length = 256
            from hl]; decide), wire_tnf16 _ hl, List.nil_append]
  · rw [writeToByteBuffer_header]
    have h : pushAll (writeHeader ⟨1, hugeType, [], []⟩ [] true true)
        (⟨1, hugeType, [], []⟩ : NdefRecord).mType = none := by
      unfold pushAll
      rw [if_neg]
      show ¬ hugeType.length < UINT32_MOD
      rw [hugeType_length]
      decide
    rw [h]
    rfl

/-- C13, amended. For every record whose type, id and payload are each shorter
than `2 ^ 32` bytes, `writeToByteBuffer` returns and has appended, in order:
the flags byte; one byte equal to the type length modulo 256; the payload
length as one byte when it is below 256, otherwise as four bytes, most
significant first, whose value is the payload length; one byte equal to the id
length modulo 256, present only when the id is not empty; the type bytes, the
id bytes and the payload bytes.  When moreover the tnf is in 0..7, a payload of
exactly 255 bytes is written with `SR` set and the 1-byte length 0xFF, and a
payload of exactly 256 bytes with `SR` clear and the 4-byte length
00 00 01 00.  When the record is well-formed, parsing what was written gives
the record back, with a payload of the original length. -/
theorem serialized_layout (r : NdefRecord) (buf : List Byte) (isFirst isLast : Bool)
    (ht : r.mType.length < 2 ^ 32) (hi : r.mId.length < 2 ^ 32)
    (hp : r.mPayload.length < 2 ^ 32) :
    writeToByteBuffer r buf isFirst isLast = some (buf ++ specEncoding r isFirst isLast) ∧
    (256 ≤ r.mPayload.length → ∃ b0 b1 b2 b3 : Byte,
      specLengthField r.mPayload.length = [b0, b1, b2, b3] ∧
      b0.val * 2 ^ 24 + b1.val * 2 ^ 16 + b2.val * 2 ^ 8 + b3.val = r.mPayload.length) ∧
    (r.mTnf.val ≤ 7 → r.mPayload.length = 255 →
      (toUInt8 (specFlags r isFirst isLast)).val &&& 0x10 ≠ 0 ∧
      specLengthField r.mPayload.length = [0xFF]) ∧
    (r.mTnf.val ≤ 7 → r.mPayload.length = 256 →
      (toUInt8 (specFlags r isFirst isLast)).val &&& 0x10 = 0 ∧
      specLengthField r.mPayload.length = [0, 0, 1, 0]) ∧
    (WellFormed r →
      parse (specEncoding r isFirst isLast) true [] 0 = .returned true [r]) := by
  have hM : (2 : Nat) ^ 32 = UINT32_MOD := by unfold UINT32_MOD; norm_num
  refine ⟨?_, ?_, ?_, ?_, ?_⟩
  · rw [← wire_eq_specEncoding]
    exact writeToByteBuffer_eq r buf isFirst isLast (by omega) (by omega) (by omega)
  · intro h
    exact specLengthField_value _ h hp
  · intro htnf h
    have hd := wireFlags_decode r isFirst isLast htnf
    have hf : wireFlags r isFirst isLast = toUInt8 (specFlags r isFirst isLast) := by
      rw [specFlags_eq]; rfl
    rw [hf] at hd
    obtain ⟨-, -, -, h4, -, -⟩ := hd
    have hlt : r.mPayload.length < 256 := by omega
    simp only [hlt, decide_True, bne_iff_ne, ne_eq] at h4
    refine ⟨h4, ?_⟩
    rw [h]
    rfl
  · intro htnf h
    have hd := wireFlags_decode r isFirst isLast htnf
    have hf : wireFlags r isFirst isLast = toUInt8 (specFlags r isFirst isLast) := by
      rw [specFlags_eq]; rfl
    rw [hf] at hd
    obtain ⟨-, -, -, h4, -, -⟩ := hd
    have hlt : ¬ r.mPayload.length < 256 := by omega
    simp only [hlt, decide_False, bne_eq_false_iff_eq] at h4
    refine ⟨h4, ?_⟩
    rw [h]
    rfl
  · intro hw
    obtain ⟨hshape, hty, hid, hpl⟩ := hw
    have hw' : WellFormed r := ⟨hshape, hty, hid, hpl⟩
    have hlen := wire_length_le hw' isFirst isLast
    rw [← wire_eq_specEncoding, parse_eq, initialState_zero]
    have hb := parseBody_wire (wire r isFirst isLast) true
      { inChunk := false, chunkTnf := toUInt8 255, me := false, index := 0, records := [] }
      r isFirst isLast [] (by simp) (by simp only [UINT32_MOD]; omega) rfl (Or.inl rfl)
      hshape hty hid (by omega)
    rw [parseLoop_exit _ rfl hb]
    simp

theorem serialized_layout_witness :
    writeToByteBuffer ⟨1, [5], [9], [7, 8]⟩ [3] true false
      = some ([3] ++ specEncoding ⟨1, [5], [9], [7, 8]⟩ true false) ∧
    parse (specEncoding ⟨1, [5], [9], [7, 8]⟩ true false) true [] 0
      = .returned true [⟨1, [5], [9], [7, 8]⟩] :=
  ⟨(serialized_layout ⟨1, [5], [9], [7, 8]⟩ [3] true false (by decide) (by decide)
      (by decide)).1,
   (serialized_layout ⟨1, [5], [9], [7, 8]⟩ [3] true false (by decide) (by decide)
      (by decide)).2.2.2.2 (by decide)⟩

theorem validateTnf_of_violation {tnf : Byte} {type id payload : List Byte}
    (h : ShapeViolation tnf type id payload) : validateTnf tnf type id payload = false := by
  cases hv : validateTnf tnf type id payload with
  | false => rfl
  | true =>
    exfalso
    obtain ⟨-, h1, h2⟩ := (validateTnf_iff _ _ _ _).1 hv
    rcases h with ⟨he, hne⟩ | ⟨hu, hne⟩
    · obtain ⟨a, b, c⟩ := h1 he
      rcases hne with h | h | h
      · exact h a
      · exact h b
      · exact h c
    · exact hne (h2 hu)

theorem lengthField_length_le {sr : Bool} {bytes : List Byte} {n : Nat}
    (h : LengthField sr bytes n) : bytes.length ≤ 4 := by
  unfold LengthField at h
  split at h
  · obtain ⟨b, hb, -⟩ := h; subst hb; simp
  · obtain ⟨b0, b1, b2, b3, hb, -⟩ := h; subst hb; simp

theorem idLengthField_length_le {il : Bool} {bytes : List Byte} {n : Nat}
    (h : IdLengthField il bytes n) : bytes.length ≤ 1 ∧ n ≤ 255 := by
  unfold IdLengthField at h
  split at h
  · obtain ⟨b, hb, hbv⟩ := h; subst hb
    have := b.isLt
    simp; omega
  · obtain ⟨hb, hz⟩ := h; subst hb; simp; omega

/-- An unchunked fragment at the start of the buffer, all of whose announced
bytes are present, and which breaks a TNF shape rule, makes `parse` return
`false`. -/
theorem parse_shape_violation (ign : Bool) (flag tlb : Byte)
    (lenBytes idBytes type id payload rest : List Byte)
    (hcf : ((flag.val &&& FLAG_CF) != 0) = false)
    (hlen : LengthField ((flag.val &&& FLAG_SR) != 0) lenBytes payload.length)
    (hid : IdLengthField ((flag.val &&& FLAG_IL) != 0) idBytes id.length)
    (htl : tlb.val = type.length)
    (hv : ShapeViolation (toUInt8 (flag.val &&& 0x07)) type id payload) :
    parse (flag :: tlb :: (lenBytes ++ (idBytes ++ (type ++ (id ++ (payload ++ rest))))))
      ign [] 0 = .returned false [] := by
  rw [parse_eq, initialState_zero]
  apply parseLoop_exit _ rfl
  have hll := lengthField_length_le hlen
  have hil := idLengthField_length_le hid
  have htl' : type.length ≤ 255 := by have := tlb.isLt; omega
  by_cases hrej : headerRejected ign false [] ((flag.val &&& FLAG_MB) != 0)
      ((flag.val &&& FLAG_ME) != 0) ((flag.val &&& FLAG_CF) != 0)
      ((flag.val &&& FLAG_IL) != 0) (toUInt8 (flag.val &&& 0x07)) = true
  · apply parseBody_of_error
    unfold readFragment
    rw [readByte_drop (b := flag) (by simp; rfl) (by decide)]
    simp only [hrej, if_true]
  · by_cases hsz : payload.length ≤ 10485760
    · rw [parseBody_of_readFragment (readFragment_drop ign _ flag tlb lenBytes idBytes type id
        payload rest (by simp)
        (by show (0 : Nat) + 2 + lenBytes.length + idBytes.length + type.length + id.length
              + payload.length < 4294967296
            omega)
        (by simpa using hrej) hlen hid htl (by intro h; cases h) hsz)]
      rw [completeFragment_plain hcf rfl, validateTnf_of_violation hv]
      rfl
    · apply parseBody_of_error
      rw [readFragment_fields ign _ flag tlb lenBytes idBytes type id (payload ++ rest)
        (by simp)
        (by show (0 : Nat) + 2 + lenBytes.length + idBytes.length + type.length + id.length
              < 4294967296
            omega)
        (by simpa using hrej) hlen hid htl (by intro h; cases h), ensureSanePayloadSize_eq]
      simp [hsz]

/-- C11. TNF shape rejection: a single unchunked fragment that encodes a
record of tnf `Empty` with a non-empty type, id or payload, or a record of tnf
`Unknown` or `Reserved` with a non-empty type, makes `parse` return `false`,
whatever the other flag bits, the other fields, the bytes after the fragment
and `ignoreBeginEnd` are.  The fragment is given by its wire layout, and also
as what `writeToByteBuffer` writes for such a record. -/
theorem tnf_shape_rejected (ignoreBeginEnd : Bool) (flag tlb : Byte)
    (lenBytes idBytes type id payload rest : List Byte)
    (hcf : flag.val &&& FLAG_CF = 0)
    (hlen : LengthField ((flag.val &&& FLAG_SR) != 0) lenBytes payload.length)
    (hid : IdLengthField ((flag.val &&& FLAG_IL) != 0) idBytes id.length)
    (htl : tlb.val = type.length)
    (hv : ShapeViolation (toUInt8 (flag.val &&& 0x07)) type id payload) :
    parse (flag :: tlb :: (lenBytes ++ (idBytes ++ (type ++ (id ++ (payload ++ rest))))))
      ignoreBeginEnd [] 0 = .returned false [] ∧
    ∀ (r : NdefRecord) (mb me : Bool), r.mTnf.val ≤ 7 → r.mType.length ≤ 255 →
      r.mId.length ≤ 255 → r.mPayload.length < 2 ^ 32 →
      ShapeViolation r.mTnf r.mType r.mId r.mPayload →
      parse (wire r mb me) ignoreBeginEnd [] 0 = .returned false [] := by
  constructor
  · exact parse_shape_violation ignoreBeginEnd flag tlb lenBytes idBytes type id payload rest
      (by simp [hcf]) hlen hid htl hv
  · intro r mb me htnf hty hidl hpl hviol
    obtain ⟨f1, f2, f3, f4, f5, f6⟩ := wireFlags_decode r mb me htnf
    have key := parse_shape_violation ignoreBeginEnd (wireFlags r mb me)
      (toUInt8 r.mType.length) (wireLength r.mPayload.length) (wireIdLength r.mId.length)
      r.mType r.mId r.mPayload [] f3
      (by rw [f4]; exact lengthField_wire _ (by unfold UINT32_MOD; omega))
      (by rw [f5]; exact idLengthField_wire _ hidl)
      (by rw [toUInt8_val]; omega)
      (by rw [f6]; exact hviol)
    rw [List.append_nil] at key
    exact key

theorem tnf_shape_rejected_witness :
    parse [0x18, 0, 0, 1, 9] true [] 0 = .returned false [] :=
  (tnf_shape_rejected true 0x18 0 [0] [1] [] [9] [] [] (by decide) ⟨0, rfl, rfl⟩
    ⟨1, rfl, rfl⟩ rfl (Or.inl ⟨by decide, Or.inr (Or.inl (by decide))⟩)).1

theorem parseLoop_single_success {buf : List Byte} {fuel : Nat} {s : ParseState}
    {recs : List NdefRecord} (hme : s.me = false)
    (h : parseLoop buf true fuel s = .returned true recs) :
    ∃ r, recs = s.records ++ [r] := by
  induction fuel generalizing s with
  | zero => rw [parseLoop_zero hme] at h; cases h
  | succ fuel ih =>
    rcases parseBody_cases buf true s with hb | hb | ⟨s', hb, hr, -, hme'⟩ |
      ⟨f, -, -, -, ⟨-, hb⟩ | ⟨hf, -⟩⟩
    · rw [parseLoop_exit _ hme hb] at h; cases h
    · rw [parseLoop_exit _ hme hb] at h; cases h
    · rw [parseLoop_loop _ hme hb] at h
      obtain ⟨r, hr'⟩ := ih hme' h
      exact ⟨r, by rw [hr', hr]⟩
    · rw [parseLoop_exit _ hme hb] at h
      simp only [Outcome.returned.injEq, true_and] at h
      exact ⟨_, h.symm⟩
    · cases hf

/-- C14. Single-record mode: when `parse` with `ignoreBeginEnd = true` and an
empty output succeeds, the output holds exactly one record, for every buffer
and offset, so whatever `MB` and `ME` bits the fragments carry and whatever
bytes follow the record. -/
theorem single_record_mode_one_record (buf : List Byte) (offset : Int)
    (recs : List NdefRecord) (h : parse buf true [] offset = .returned true recs) :
    recs.length = 1 := by
  obtain ⟨r, hr⟩ := parseLoop_single_success rfl h
  rw [hr]
  rfl

theorem single_record_mode_one_record_witness :
    parse [0x11, 0, 1, 7, 0xFF, 0xFF] true [] 0 = .returned true [⟨1, [], [], [7]⟩] ∧
      [(⟨1, [], [], [7]⟩ : NdefRecord)].length = 1 :=
  ⟨by decide,
   single_record_mode_one_record [0x11, 0, 1, 7, 0xFF, 0xFF] 0 [⟨1, [], [], [7]⟩] (by decide)⟩

theorem parseLoop_success_grows {buf : List Byte} {ign : Bool} {fuel : Nat} {s : ParseState}
    {recs : List NdefRecord} (hme : s.me = false)
    (h : parseLoop buf ign fuel s = .returned true recs) :
    s.records.length < recs.length := by
  induction fuel generalizing s with
  | zero => rw [parseLoop_zero hme] at h; cases h
  | succ fuel ih =>
    rcases parseBody_cases buf ign s with hb | hb | ⟨s', hb, hr, -, hme'⟩ |
      ⟨f, -, -, -, ⟨-, hb⟩ | ⟨-, s', hb, hr, -, -, -⟩⟩
    · rw [parseLoop_exit _ hme hb] at h; cases h
    · rw [parseLoop_exit _ hme hb] at h; cases h
    · rw [parseLoop_loop _ hme hb] at h
      have := ih hme' h
      rw [hr] at this
      exact this
    · rw [parseLoop_exit _ hme hb] at h
      simp only [Outcome.returned.injEq, true_and] at h
      rw [← h]; simp
    · rw [parseLoop_loop _ hme hb] at h
      obtain ⟨added, h1, -⟩ := parseLoop_returned h
      rw [h1, hr]
      simp only [List.length_append, List.length_cons, List.length_nil]
      omega

/-- C15. A parsed message is non-empty: when `parse` succeeds its output holds
at least one record more than it was given, so at least one record when it was
given an empty output.  `parse` cannot return `true` before a record has been
completed, nor while a chunked record is open. -/
theorem parsed_message_nonempty (buf : List Byte) (ignoreBeginEnd : Bool)
    (records : List NdefRecord) (offset : Int) (recs : List NdefRecord)
    (h : parse buf ignoreBeginEnd records offset = .returned true recs) :
    records.length < recs.length ∧ recs ≠ [] := by
  have hlt : records.length < recs.length := parseLoop_success_grows rfl h
  refine ⟨hlt, ?_⟩
  intro he
  rw [he] at hlt
  exact Nat.not_lt_zero _ hlt

theorem parsed_message_nonempty_witness :
    parse [0xD1, 0, 1, 1] false [] 0 = .returned true [⟨1, [], [], [1]⟩] ∧
      ([] : List NdefRecord).length < [(⟨1, [], [], [1]⟩ : NdefRecord)].length ∧
      [(⟨1, [], [], [1]⟩ : NdefRecord)] ≠ [] :=
  ⟨by decide,
   parsed_message_nonempty [0xD1, 0, 1, 1] false [] 0 [⟨1, [], [], [1]⟩] (by decide)⟩

theorem headerRejected_congr {ign : Bool} {r1 r2 : List NdefRecord}
    (h : ign = true ∨ (r1 = [] ↔ r2 = [])) (c mb me cf il : Bool) (tnf : Byte) :
    headerRejected ign c r1 mb me cf il tnf = headerRejected ign c r2 mb me cf il tnf := by
  unfold headerRejected
  rcases h with h | h
  · subst h; simp
  · cases r1 with
    | nil =>
      have : r2 = [] := h.1 rfl
      subst this; rfl
    | cons a r1 =>
      cases r2 with
      | nil => have := h.2 rfl; cases this
      | cons b r2 => simp

theorem readFragment_rebase (buf : List Byte) (ign : Bool) (s : ParseState)
    (r2 : List NdefRecord) (k : Nat)
    (h : ign = true ∨ (s.records = [] ↔ r2 ++ s.records.drop k = [])) :
    readFragment buf ign (s.rebase r2 k) =
      (readFragment buf ign s).mapError (Outcome.rebase r2 k) := by
  have e1 : (s.rebase r2 k).index = s.index := rfl
  have e2 : (s.rebase r2 k).inChunk = s.inChunk := rfl
  have e3 : (s.rebase r2 k).records = r2 ++ s.records.drop k := rfl
  have hret : Outcome.rebase r2 k (.returned false s.records)
      = .returned false (r2 ++ s.records.drop k) := rfl
  unfold readFragment
  rw [e1, e2, e3]
  cases h1 : readByte buf s.index with
  | error o => rw [readByte_error h1]; rfl
  | ok v =>
  obtain ⟨flag, i1⟩ := v
  simp only
  rw [headerRejected_congr h]
  split
  · simp only [Except.mapError, hret]
  cases h2 : readByte buf i1 with
  | error o => rw [readByte_error h2]; rfl
  | ok v =>
  obtain ⟨tb, i2⟩ := v
  simp only
  cases h3 : readPayloadLength buf ((flag.val &&& FLAG_SR) != 0) i2 with
  | error o => rw [readPayloadLength_error h3]; rfl
  | ok v =>
  obtain ⟨pl, i3⟩ := v
  simp only
  cases h4 : readIdLength buf ((flag.val &&& FLAG_IL) != 0) i3 with
  | error o => rw [readIdLength_error h4]; rfl
  | ok v =>
  obtain ⟨idl, i4⟩ := v
  simp only
  split
  · simp only [Except.mapError, hret]
  cases h5 : readTypeAndId buf s.inChunk (tb.val &&& 0xFF) idl i4 with
  | error o => rw [readTypeAndId_error h5]; rfl
  | ok v =>
  obtain ⟨ty, id, i5⟩ := v
  simp only
  split
  · simp only [Except.mapError, hret]
  cases h6 : readBytes buf pl i5 with
  | error o => rw [readBytes_error h6]; rfl
  | ok v => rfl

theorem completeFragment_rebase (ign : Bool) (s : ParseState) (f : Fragment)
    (r2 : List NdefRecord) (k : Nat) (hk : k ≤ s.records.length) :
    completeFragment ign (s.rebase r2 k) f = (completeFragment ign s f).rebase r2 k := by
  have e2 : (s.rebase r2 k).inChunk = s.inChunk := rfl
  have hdrop : ∀ e : NdefRecord, r2 ++ (s.records ++ [e]).drop k
      = r2 ++ s.records.drop k ++ [e] := by
    intro e
    rw [List.drop_append_of_le_length hk, List.append_assoc]
  have hem : emittedRecord (s.rebase r2 k) f = emittedRecord s f := rfl
  have e3 : (s.rebase r2 k).records = r2 ++ s.records.drop k := rfl
  have e4 : (s.rebase r2 k).chunkTnf = s.chunkTnf := rfl
  cases hcf : f.cf
  · cases hc : s.inChunk
    · rw [completeFragment_plain hcf (e2.trans hc), completeFragment_plain hcf hc, hem, e3, e4]
      by_cases hv : validateTnf f.tnf f.type f.id f.payload = false
      · rw [if_pos hv, if_pos hv]; rfl
      · rw [if_neg hv, if_neg hv]
        cases ign
        · simp only [Bool.false_eq_true, if_false, Step.rebase, ParseState.rebase, hdrop]
        · simp only [if_true, Step.rebase, Outcome.rebase, hdrop]
    · rw [completeFragment_last hcf (e2.trans hc), completeFragment_last hcf hc, hem, e3, e4]
      by_cases hs : ensureSanePayloadSize ((f.payload.length % UINT32_MOD : Nat) : Int) = false
      · rw [if_pos hs, if_pos hs]; rfl
      · rw [if_neg hs, if_neg hs]
        by_cases hv : validateTnf s.chunkTnf f.type f.id (f.payload ++ f.payload) = false
        · rw [if_pos hv, if_pos hv]; rfl
        · rw [if_neg hv, if_neg hv]
          cases ign
          · simp only [Bool.false_eq_true, if_false, Step.rebase, ParseState.rebase, hdrop]
          · simp only [if_true, Step.rebase, Outcome.rebase, hdrop]
  · rw [completeFragment_cf hcf, completeFragment_cf hcf]
    rfl

theorem parseBody_rebase (buf : List Byte) (ign : Bool) (s : ParseState)
    (r2 : List NdefRecord) (k : Nat) (hk : k ≤ s.records.length)
    (h : ign = true ∨ (s.records = [] ↔ r2 ++ s.records.drop k = [])) :
    parseBody buf ign (s.rebase r2 k) = (parseBody buf ign s).rebase r2 k := by
  have hr := readFragment_rebase buf ign s r2 k h
  cases hf : readFragment buf ign s with
  | error o =>
    rw [hf] at hr
    rw [parseBody_of_error hf, parseBody_of_error hr]
    rfl
  | ok f =>
    rw [hf] at hr
    rw [parseBody_of_readFragment hf, parseBody_of_readFragment hr]
    exact completeFragment_rebase ign s f r2 k hk

theorem stepsTo_zero (buf : List Byte) (ign : Bool) (s : ParseState) :
    stepsTo buf ign 0 s = some s := rfl

theorem stepsTo_succ_loop {buf : List Byte} {ign : Bool} {s : ParseState} (n : Nat)
    (s' : ParseState) (hme : s.me = false) (hb : parseBody buf ign s = .loop s') :
    stepsTo buf ign (n + 1) s = stepsTo buf ign n s' := by
  rw [stepsTo]; simp [hme, hb]

theorem stepsTo_succ_exit {buf : List Byte} {ign : Bool} {s : ParseState} (n : Nat)
    (o : Outcome) (hb : parseBody buf ign s = .exit o) :
    stepsTo buf ign (n + 1) s = none := by
  rw [stepsTo]; simp [hb]

theorem stepsTo_succ_me {buf : List Byte} {ign : Bool} {s : ParseState} (n : Nat)
    (hme : s.me = true) : stepsTo buf ign (n + 1) s = none := by
  rw [stepsTo]; simp [hme]

theorem stepsTo_succ_inv {buf : List Byte} {ign : Bool} {s t : ParseState} {n : Nat}
    (h : stepsTo buf ign (n + 1) s = some t) :
    s.me = false ∧ ∃ s', parseBody buf ign s = .loop s' ∧ stepsTo buf ign n s' = some t := by
  cases hme : s.me
  · refine ⟨rfl, ?_⟩
    cases hb : parseBody buf ign s with
    | exit o => rw [stepsTo_succ_exit n o hb] at h; cases h
    | loop s' =>
      rw [stepsTo_succ_loop n s' hme hb] at h
      exact ⟨s', rfl, h⟩
  · rw [stepsTo_succ_me n hme] at h; cases h

theorem stepsTo_add (buf : List Byte) (ign : Bool) (a b : Nat) (s : ParseState) :
    stepsTo buf ign (a + b) s = (stepsTo buf ign a s).bind (stepsTo buf ign b) := by
  induction a generalizing s with
  | zero => simp [stepsTo_zero]
  | succ a ih =>
    have e : a + 1 + b = (a + b) + 1 := by omega
    rw [e]
    cases hme : s.me
    · cases hb : parseBody buf ign s with
      | exit o => rw [stepsTo_succ_exit _ o hb, stepsTo_succ_exit _ o hb]; rfl
      | loop s' =>
        rw [stepsTo_succ_loop _ s' hme hb, stepsTo_succ_loop _ s' hme hb]
        exact ih s'
    · rw [stepsTo_succ_me _ hme, stepsTo_succ_me _ hme]; rfl

theorem stepsTo_split {buf : List Byte} {ign : Bool} {n : Nat} {s t : ParseState}
    (h : stepsTo buf ign n s = some t) (k : Nat) (hk : k ≤ n) :
    ∃ u, stepsTo buf ign k s = some u ∧ stepsTo buf ign (n - k) u = some t := by
  have e : n = k + (n - k) := by omega
  rw [e, stepsTo_add] at h
  cases hu : stepsTo buf ign k s with
  | none => rw [hu] at h; cases h
  | some u =>
    rw [hu] at h
    exact ⟨u, rfl, h⟩

/-- Running the loop with enough fuel goes through the states of `stepsTo`. -/
theorem parseLoop_stepsTo {buf : List Byte} {ign : Bool} {n : Nat} {s t : ParseState}
    (h : stepsTo buf ign n s = some t) (fuel : Nat) :
    parseLoop buf ign (fuel + n) s = parseLoop buf ign fuel t := by
  induction n generalizing s with
  | zero =>
    rw [stepsTo_zero] at h
    cases h; rfl
  | succ n ih =>
    obtain ⟨hme, s', hb, hs'⟩ := stepsTo_succ_inv h
    have e : fuel + (n + 1) = (fuel + n) + 1 := by omega
    rw [e, parseLoop_loop s' hme hb]
    exact ih hs'

theorem parseBody_loop_records {buf : List Byte} {ign : Bool} {s s' : ParseState}
    (hs : parseBody buf ign s = .loop s') :
    s'.records = s.records ∨ ∃ e, s'.records = s.records ++ [e] := by
  rcases parseBody_cases buf ign s with h1 | h1 | ⟨s1, h1, hr, -, -⟩ |
    ⟨f, -, -, -, ⟨-, h1⟩ | ⟨-, s1, h1, hr, -, -, -⟩⟩
  · rw [hs] at h1; cases h1
  · rw [hs] at h1; cases h1
  · rw [hs] at h1; cases h1; exact Or.inl hr
  · rw [hs] at h1; cases h1
  · rw [hs] at h1; cases h1; exact Or.inr ⟨_, hr⟩

theorem stepsTo_rebase (buf : List Byte) (ign : Bool) (r2 : List NdefRecord) (k : Nat)
    (n : Nat) (s : ParseState) (hk : k ≤ s.records.length)
    (h : ign = true ∨ (s.records = [] ↔ r2 ++ s.records.drop k = [])) :
    stepsTo buf ign n (s.rebase r2 k) = (stepsTo buf ign n s).map (ParseState.rebase r2 k) := by
  induction n generalizing s with
  | zero => rfl
  | succ n ih =>
    cases hme : s.me
    · have hme' : (s.rebase r2 k).me = false := hme
      have hb := parseBody_rebase buf ign s r2 k hk h
      cases hs : parseBody buf ign s with
      | exit o =>
        rw [hs] at hb
        rw [stepsTo_succ_exit _ o hs, stepsTo_succ_exit _ _ hb]; rfl
      | loop s' =>
        rw [hs] at hb
        rw [stepsTo_succ_loop _ s' hme hs, stepsTo_succ_loop _ _ hme' hb]
        have hrec := parseBody_loop_records hs
        apply ih s'
        · rcases hrec with hr | ⟨e, hr⟩
          · rw [hr]; exact hk
          · rw [hr, List.length_append]; omega
        · rcases hrec with hr | ⟨e, hr⟩
          · rw [hr]; exact h
          · right
            rw [hr, List.drop_append_of_le_length hk]
            constructor
            · intro h'; simp at h'
            · intro h'; simp at h'
    · rw [stepsTo_succ_me _ hme, stepsTo_succ_me _ (show (s.rebase r2 k).me = true from hme)]
      rfl

/-- Two states that agree on everything but the content of `records`, and
agree on whether `records` is empty, continue the same way. -/
theorem stepsTo_none_congr {buf : List Byte} {ign : Bool} {s1 s2 : ParseState} {n : Nat}
    (hi : s1.index = s2.index) (hc : s1.inChunk = s2.inChunk)
    (ht : s1.chunkTnf = s2.chunkTnf) (hm : s1.me = s2.me)
    (he : s1.records = [] ↔ s2.records = [])
    (h : stepsTo buf ign n s1 = none) : stepsTo buf ign n s2 = none := by
  have hs : s2 = s1.rebase s2.records s1.records.length := by
    cases s1; cases s2
    simp only at hi hc ht hm
    subst hi; subst hc; subst ht; subst hm
    simp [ParseState.rebase]
  rw [hs, stepsTo_rebase buf ign _ _ n s1 (Nat.le_refl _)
    (Or.inr (by rw [List.drop_length, List.append_nil]; exact he)), h]
  rfl

/-! ## The cursor stays a `uint32_t`, and the fuel of `parse` is enough -/

theorem readByte_lt {buf : List Byte} {i j : Nat} {b : Byte}
    (h : readByte buf i = .ok (b, j)) : j < UINT32_MOD := by
  unfold readByte at h
  split at h
  · simp only [Except.ok.injEq, Prod.mk.injEq] at h
    rw [← h.2]
    exact Nat.mod_lt _ (by decide)
  · cases h

theorem readBytes_lt {buf : List Byte} {n i j : Nat} {bs : List Byte}
    (h : readBytes buf n i = .ok (bs, j)) (hi : i < UINT32_MOD) : j < UINT32_MOD := by
  induction n generalizing i j bs with
  | zero =>
    simp only [readBytes, Except.ok.injEq, Prod.mk.injEq] at h
    rw [← h.2]; exact hi
  | succ n ih =>
    rw [readBytes] at h
    split at h
    · cases h
    · rename_i b i1 h1
      split at h
      · cases h
      · rename_i bs' j' h2
        simp only [Except.ok.injEq, Prod.mk.injEq] at h
        rw [← h.2]
        exact ih h2 (readByte_lt h1)

theorem readPayloadLength_lt {buf : List Byte} {sr : Bool} {i j pl : Nat}
    (h : readPayloadLength buf sr i = .ok (pl, j)) : j < UINT32_MOD := by
  unfold readPayloadLength at h
  cases sr
  · simp only [Bool.false_eq_true, if_false] at h
    split at h
    · split at h
      · split at h
        · split at h
          · simp only [Except.ok.injEq, Prod.mk.injEq] at h
            rw [← h.2]
            exact Nat.mod_lt _ (by decide)
          · cases h
        · cases h
      · cases h
    · cases h
  · simp only [if_true] at h
    split at h
    · cases h
    · rename_i b i1 h1
      simp only [Except.ok.injEq, Prod.mk.injEq] at h
      rw [← h.2]
      exact readByte_lt h1

theorem readIdLength_lt {buf : List Byte} {il : Bool} {i j n : Nat}
    (h : readIdLength buf il i = .ok (n, j)) (hi : i < UINT32_MOD) : j < UINT32_MOD := by
  unfold readIdLength at h
  split at h
  · split at h
    · cases h
    · rename_i b i1 h1
      simp only [Except.ok.injEq, Prod.mk.injEq] at h
      rw [← h.2]
      exact readByte_lt h1
  · simp only [Except.ok.injEq, Prod.mk.injEq] at h
    rw [← h.2]; exact hi

theorem readTypeAndId_lt {buf : List Byte} {c : Bool} {tl il i j : Nat} {ty id : List Byte}
    (h : readTypeAndId buf c tl il i = .ok (ty, id, j)) (hi : i < UINT32_MOD) :
    j < UINT32_MOD := by
  unfold readTypeAndId at h
  split at h
  · split at h
    · cases h
    · rename_i ty' j1 h1
      split at h
      · cases h
      · rename_i id' j2 h2
        simp only [Except.ok.injEq, Prod.mk.injEq] at h
        rw [← h.2.2]
        exact readBytes_lt h2 (readBytes_lt h1 hi)
  · simp only [Except.ok.injEq, Prod.mk.injEq] at h
    rw [← h.2.2]; exact hi

theorem readFragment_index_lt {buf : List Byte} {ign : Bool} {s : ParseState} {f : Fragment}
    (h : readFragment buf ign s = .ok f) : f.index < UINT32_MOD := by
  obtain ⟨flag, tb, i1, i2, i3, i4, i5, pl, idl, -, -, -, r3, r4, -, r5, -, r6, -⟩ :=
    (readFragment_ok h).ex
  exact readBytes_lt r6 (readTypeAndId_lt r5 (readIdLength_lt r4 (readPayloadLength_lt r3)))

theorem completeFragment_loop {ign : Bool} {s s' : ParseState} {f : Fragment}
    (h : completeFragment ign s f = .loop s') :
    s'.index = f.index ∧ s'.inChunk = f.cf ∧ s'.me = f.me := by
  cases hcf : f.cf
  · cases hc : s.inChunk
    · rw [completeFragment_plain hcf hc] at h
      split at h
      · cases h
      · split at h
        · cases h
        · cases h; exact ⟨rfl, rfl, rfl⟩
    · rw [completeFragment_last hcf hc] at h
      split at h
      · cases h
      · split at h
        · cases h
        · split at h
          · cases h
          · cases h; exact ⟨rfl, rfl, rfl⟩
  · rw [completeFragment_cf hcf] at h
    cases h; exact ⟨rfl, rfl, rfl⟩

/-- An iteration that goes back to the loop condition has read a fragment. -/
theorem parseBody_loop_inv {buf : List Byte} {ign : Bool} {s s' : ParseState}
    (h : parseBody buf ign s = .loop s') :
    ∃ f, readFragment buf ign s = .ok f ∧ completeFragment ign s f = .loop s' ∧
      s'.index = f.index ∧ s'.inChunk = f.cf ∧ s'.me = f.me := by
  cases hf : readFragment buf ign s with
  | error o => rw [parseBody_of_error hf] at h; cases h
  | ok f =>
    rw [parseBody_of_readFragment hf] at h
    exact ⟨f, rfl, h, completeFragment_loop h⟩

theorem stepsTo_index_lt {buf : List Byte} {ign : Bool} {n : Nat} {s t : ParseState}
    (h : stepsTo buf ign n s = some t) (hs : s.index < UINT32_MOD) : t.index < UINT32_MOD := by
  induction n generalizing s with
  | zero => rw [stepsTo_zero] at h; cases h; exact hs
  | succ n ih =>
    obtain ⟨-, s', hb, hs'⟩ := stepsTo_succ_inv h
    obtain ⟨f, hf, -, hi, -, -⟩ := parseBody_loop_inv hb
    exact ih hs' (by rw [hi]; exact readFragment_index_lt hf)

theorem initialState_index_lt (records : List NdefRecord) (offset : Int) :
    (initialState records offset).index < UINT32_MOD := by
  show (offset % (UINT32_MOD : Int)).toNat < UINT32_MOD
  have h1 : 0 ≤ offset % (UINT32_MOD : Int) := Int.emod_nonneg _ (by decide)
  have h2 : offset % (UINT32_MOD : Int) < (UINT32_MOD : Int) := Int.emod_lt_of_pos _ (by decide)
  omega

theorem control_card : Fintype.card (Fin UINT32_MOD × Bool × Byte × Bool) = 4398046511104 := by
  simp only [Fintype.card_prod, Fintype.card_fin, Fintype.card_bool]
  rfl

theorem stepsTo_me_false_of_lt {buf : List Byte} {ign : Bool} {n k : Nat} {s t u : ParseState}
    (h : stepsTo buf ign n s = some t) (hk : k < n) (hu : stepsTo buf ign k s = some u) :
    u.me = false := by
  obtain ⟨u', hu', hrest⟩ := stepsTo_split h k (by omega)
  rw [hu] at hu'
  cases hu'
  have e : n - k = (n - k - 1) + 1 := by omega
  rw [e] at hrest
  exact (stepsTo_succ_inv hrest).1

/-- A run of the loop that ends does not go twice through states with the
same `control`. -/
theorem stepsTo_no_repeat {buf : List Byte} {ign : Bool} {n a b : Nat}
    {s t sa sb : ParseState}
    (h : stepsTo buf ign n s = some t) (hstop : stepsTo buf ign 1 t = none)
    (hab : a < b) (hbn : b ≤ n)
    (ha : stepsTo buf ign a s = some sa) (hb : stepsTo buf ign b s = some sb)
    (hia : sa.index < UINT32_MOD) (hib : sb.index < UINT32_MOD)
    (hma : sa.me = false) (hmb : sb.me = false)
    (hc : control sa = control sb) : False := by
  unfold control at hc
  simp only [Prod.mk.injEq, Fin.mk.injEq] at hc
  obtain ⟨c1, c2, c3, c4⟩ := hc
  rw [Nat.mod_eq_of_lt hia, Nat.mod_eq_of_lt hib] at c1
  have he : sb.records = [] ↔ sa.records = [] := by
    rw [← List.isEmpty_iff, ← List.isEmpty_iff, c4]
  -- from `sb` the loop ends after `n - b` iterations
  obtain ⟨sb', hb', hrestb⟩ := stepsTo_split h b hbn
  rw [hb] at hb'
  cases hb'
  have hnone : stepsTo buf ign (n - b + 1) sb = none := by
    rw [stepsTo_add, hrestb]
    exact hstop
  have hnone' : stepsTo buf ign (n - b + 1) sa = none :=
    stepsTo_none_congr c1.symm c2.symm c3.symm (hmb.trans hma.symm) he hnone
  -- but from `sa` it runs for `n - a` iterations
  obtain ⟨sa', ha', hresta⟩ := stepsTo_split h a (by omega)
  rw [ha] at ha'
  cases ha'
  obtain ⟨u, hu, -⟩ := stepsTo_split hresta (n - b + 1) (by omega)
  rw [hnone'] at hu
  cases hu

/-- The number of iterations of a run that ends, counted as long as the loop
condition finds `me` clear, is at most the number of values of `control`. -/
theorem stepsTo_count {buf : List Byte} {ign : Bool} {n : Nat} {s t : ParseState}
    (h : stepsTo buf ign n s = some t) (hs : s.index < UINT32_MOD)
    (hstop : stepsTo buf ign 1 t = none) (N : Nat) (hN : N ≤ n + 1)
    (hme : ∀ k, k < N → ∀ u, stepsTo buf ign k s = some u → u.me = false) :
    N ≤ 4398046511104 := by
  have hex : ∀ k, k < N → ∃ u, stepsTo buf ign k s = some u := by
    intro k hk
    obtain ⟨u, hu, -⟩ := stepsTo_split h k (by omega)
    exact ⟨u, hu⟩
  let f : Fin N → Fin UINT32_MOD × Bool × Byte × Bool :=
    fun k => ((stepsTo buf ign k.val s).map control).getD
      (⟨0, by decide⟩, false, 0, false)
  have hf : Function.Injective f := by
    intro a b hab
    obtain ⟨sa, hsa⟩ := hex a.val a.isLt
    obtain ⟨sb, hsb⟩ := hex b.val b.isLt
    have hca : f a = control sa := by simp only [f, hsa, Option.map_some', Option.getD_some]
    have hcb : f b = control sb := by simp only [f, hsb, Option.map_some', Option.getD_some]
    rw [hca, hcb] at hab
    have hia := stepsTo_index_lt hsa hs
    have hib := stepsTo_index_lt hsb hs
    have hma := hme a.val a.isLt sa hsa
    have hmb := hme b.val b.isLt sb hsb
    apply Fin.ext
    rcases Nat.lt_trichotomy a.val b.val with hlt | heq | hgt
    · exact (stepsTo_no_repeat h hstop hlt (by have := b.isLt; omega) hsa hsb hia hib hma hmb
        hab).elim
    · exact heq
    · exact (stepsTo_no_repeat h hstop hgt (by have := a.isLt; omega) hsb hsa hib hia hmb hma
        hab.symm).elim
  have hcard := Fintype.card_le_of_injective f hf
  rw [Fintype.card_fin, control_card] at hcard
  exact hcard

/-- The outcome of `parse` is the outcome of the iteration that leaves the
loop, however many iterations come before it. -/
theorem parse_of_stepsTo_exit {buf : List Byte} {ign : Bool} {records : List NdefRecord}
    {offset : Int} {n : Nat} {t : ParseState} {o : Outcome}
    (h : stepsTo buf ign n (initialState records offset) = some t)
    (hme : t.me = false) (hb : parseBody buf ign t = .exit o) :
    parse buf ign records offset = o := by
  have hcount := stepsTo_count h (initialState_index_lt records offset)
    (stepsTo_succ_exit 0 o hb) (n + 1) (Nat.le_refl _) (by
      intro k hk u hu
      by_cases hkn : k < n
      · exact stepsTo_me_false_of_lt h hkn hu
      · have e : k = n := by omega
        rw [e, h] at hu
        cases hu
        exact hme)
  have hfuel : (4398046511103 + 1 : Nat) = (4398046511103 - n + 1) + n := by omega
  rw [parse_eq, hfuel, parseLoop_stepsTo h, parseLoop_exit o hme hb]

/-- When the loop condition finds `me` set, `parse` returns `true`. -/
theorem parse_of_stepsTo_me {buf : List Byte} {ign : Bool} {records : List NdefRecord}
    {offset : Int} {n : Nat} {t : ParseState}
    (h : stepsTo buf ign n (initialState records offset) = some t) (hme : t.me = true) :
    parse buf ign records offset = .returned true t.records := by
  have hcount := stepsTo_count h (initialState_index_lt records offset)
    (stepsTo_succ_me 0 hme) n (by omega) (by
      intro k hk u hu
      exact stepsTo_me_false_of_lt h hk hu)
  have hfuel : (4398046511103 + 1 : Nat) = (4398046511104 - n) + n := by omega
  rw [parse_eq, hfuel, parseLoop_stepsTo h, parseLoop_me hme]

/-! ## Fragments that a header check rejects -/

theorem readByte_of_getElem? {buf : List Byte} {i : Nat} {b : Byte} (h : buf[i]? = some b) :
    readByte buf i = .ok (b, (i + 1) % UINT32_MOD) := by
  obtain ⟨hlt, hget⟩ := List.getElem?_eq_some_iff.1 h
  unfold readByte
  rw [dif_pos hlt, hget]

theorem readFragment_header_rejected {buf : List Byte} {ign : Bool} {s : ParseState}
    {flag : Byte} (hflag : buf[s.index]? = some flag)
    (hrej : headerRejected ign s.inChunk s.records ((flag.val &&& FLAG_MB) != 0)
      ((flag.val &&& FLAG_ME) != 0) ((flag.val &&& FLAG_CF) != 0)
      ((flag.val &&& FLAG_IL) != 0) (toUInt8 (flag.val &&& 0x07)) = true) :
    readFragment buf ign s = .error (.returned false s.records) := by
  unfold readFragment
  rw [readByte_of_getElem? hflag]
  simp only [hrej, if_true]

theorem parse_header_rejected {buf : List Byte} {ign : Bool} {records : List NdefRecord}
    {offset : Int} {n : Nat} {s : ParseState} {flag : Byte}
    (hreach : stepsTo buf ign n (initialState records offset) = some s)
    (hme : s.me = false) (hflag : buf[s.index]? = some flag)
    (hrej : headerRejected ign s.inChunk s.records ((flag.val &&& FLAG_MB) != 0)
      ((flag.val &&& FLAG_ME) != 0) ((flag.val &&& FLAG_CF) != 0)
      ((flag.val &&& FLAG_IL) != 0) (toUInt8 (flag.val &&& 0x07)) = true) :
    parse buf ign records offset = .returned false s.records :=
  parse_of_stepsTo_exit hreach hme
    (parseBody_of_error (readFragment_header_rejected hflag hrej))

theorem headerRejected_of_cf_me (ign c : Bool) (recs : List NdefRecord) (mb il : Bool)
    (tnf : Byte) : headerRejected ign c recs mb true true il tnf = true := by
  unfold headerRejected
  split; · rfl
  split; · rfl
  split; · rfl
  simp

theorem headerRejected_of_unchanged (ign : Bool) (recs : List NdefRecord) (mb me cf il : Bool) :
    headerRejected ign false recs mb me cf il TNF_UNCHANGED = true := by
  unfold headerRejected
  split; · rfl
  split; · rfl
  split; · rfl
  split; · rfl
  split; · rfl
  simp

theorem headerRejected_of_changed (ign : Bool) (recs : List NdefRecord) (mb me cf il : Bool)
    (tnf : Byte) (h : tnf ≠ TNF_UNCHANGED) :
    headerRejected ign true recs mb me cf il tnf = true := by
  unfold headerRejected
  split; · rfl
  split; · rfl
  split; · rfl
  split; · rfl
  simp [h]

theorem headerRejected_of_il (ign : Bool) (recs : List NdefRecord) (mb me cf : Bool)
    (tnf : Byte) : headerRejected ign true recs mb me cf true tnf = true := by
  unfold headerRejected
  split; · rfl
  split; · rfl
  simp

theorem stepsTo_snoc {buf : List Byte} {ign : Bool} {n : Nat} {s p s' : ParseState}
    (h : stepsTo buf ign n s = some p) (hme : p.me = false)
    (hb : parseBody buf ign p = .loop s') : stepsTo buf ign (n + 1) s = some s' := by
  rw [stepsTo_add, h]
  show stepsTo buf ign (0 + 1) p = some s'
  rw [stepsTo_succ_loop 0 s' hme hb]
  rfl

/-- The state in which the fragment after a `CF`-set fragment is read. -/
theorem stepsTo_after_chunk {buf : List Byte} {ign : Bool} {n : Nat} {s p : ParseState}
    {f : Fragment} (h : stepsTo buf ign n s = some p) (hme : p.me = false)
    (hread : readFragment buf ign p = .ok f) (hcf : f.cf = true) :
    ∃ s', stepsTo buf ign (n + 1) s = some s' ∧ s'.inChunk = true ∧ s'.me = false ∧
      s'.index = f.index ∧ s'.records = p.records := by
  have hb : parseBody buf ign p = .loop
      { inChunk := true, chunkTnf := if p.inChunk then p.chunkTnf else f.tnf, me := f.me,
        index := f.index, records := p.records } := by
    rw [parseBody_of_readFragment hread, completeFragment_cf hcf]
  obtain ⟨flag, tb, i1, i2, i3, i4, i5, pl, idl, -, hrej, -, -, -, -, -, -, -, -, hme', hcf',
    -⟩ := (readFragment_ok hread).ex
  have hfme : f.me = false := by
    rw [hme']
    exact headerRejected_cf_me hrej (hcf' ▸ hcf)
  exact ⟨_, stepsTo_snoc h hme hb, rfl, hfme, rfl, rfl⟩

theorem bit_set {flag : Byte} {m : Nat} (h : flag.val &&& m ≠ 0) :
    ((flag.val &&& m) != 0) = true := by
  simp [h]

/-- C16. `CF` together with `ME` is rejected: when the flags byte of a
fragment that `parse` reaches (the byte under the cursor when an iteration of
the loop starts) has both the `CF` bit and the `ME` bit set, `parse` returns
`false`, for both values of `ignoreBeginEnd`; in particular when the first
flags byte, at the start offset, has both bits set. -/
theorem cf_with_me_rejected (buf : List Byte) (ignoreBeginEnd : Bool)
    (records : List NdefRecord) (offset : Int) (n : Nat) (s : ParseState) (flag : Byte)
    (hreach : stepsTo buf ignoreBeginEnd n (initialState records offset) = some s)
    (hme : s.me = false) (hflag : buf[s.index]? = some flag)
    (hcf : flag.val &&& FLAG_CF ≠ 0) (hm : flag.val &&& FLAG_ME ≠ 0) :
    parse buf ignoreBeginEnd records offset = .returned false s.records ∧
    ∀ flag0 : Byte, buf[(offset % (UINT32_MOD : Int)).toNat]? = some flag0 →
      flag0.val &&& FLAG_CF ≠ 0 → flag0.val &&& FLAG_ME ≠ 0 →
      parse buf ignoreBeginEnd records offset = .returned false records := by
  constructor
  · apply parse_header_rejected hreach hme hflag
    rw [bit_set hcf, bit_set hm]
    exact headerRejected_of_cf_me _ _ _ _ _ _
  · intro flag0 h0 hcf0 hm0
    apply parse_header_rejected (stepsTo_zero _ _ _) rfl h0
    rw [bit_set hcf0, bit_set hm0]
    exact headerRejected_of_cf_me _ _ _ _ _ _

theorem cf_with_me_rejected_witness :
    parse [0x91, 0, 0, 0x71, 0, 0] false [] 0 = .returned false [⟨1, [], [], []⟩] ∧
    ∀ flag0 : Byte, [(0x91 : Byte), 0, 0, 0x71, 0, 0][((0 : Int) % (UINT32_MOD : Int)).toNat]?
        = some flag0 →
      flag0.val &&& FLAG_CF ≠ 0 → flag0.val &&& FLAG_ME ≠ 0 →
      parse [0x91, 0, 0, 0x71, 0, 0] false [] 0 = .returned false [] :=
  cf_with_me_rejected [0x91, 0, 0, 0x71, 0, 0] false [] 0 1
    ⟨false, 255, false, 3, [⟨1, [], [], []⟩]⟩ 0x71
    (by rw [initialState_zero, stepsTo_succ_loop 0 ⟨false, 255, false, 3, [⟨1, [], [], []⟩]⟩
          rfl (by decide)]; rfl)
    rfl (by decide) (by decide) (by decide)

/-- C17. Use of tnf `Unchanged`: `parse` returns `false`, for both values of
`ignoreBeginEnd`, when a fragment that it reaches outside a chunk (a leading
or unchunked fragment) has tnf `Unchanged`, in particular the first fragment
of the buffer, and when the fragment that follows a `CF`-set fragment has a
tnf other than `Unchanged`. -/
theorem unchanged_tnf_use_rejected (buf : List Byte) (ignoreBeginEnd : Bool)
    (records : List NdefRecord) (offset : Int) (n : Nat) (p : ParseState) (flag : Byte)
    (hreach : stepsTo buf ignoreBeginEnd n (initialState records offset) = some p)
    (hme : p.me = false) :
    (p.inChunk = false → buf[p.index]? = some flag →
      toUInt8 (flag.val &&& 0x07) = TNF_UNCHANGED →
      parse buf ignoreBeginEnd records offset = .returned false p.records) ∧
    (∀ f, readFragment buf ignoreBeginEnd p = .ok f → f.cf = true →
      buf[f.index]? = some flag → toUInt8 (flag.val &&& 0x07) ≠ TNF_UNCHANGED →
      parse buf ignoreBeginEnd records offset = .returned false p.records) ∧
    (∀ flag0 : Byte, buf[(offset % (UINT32_MOD : Int)).toNat]? = some flag0 →
      toUInt8 (flag0.val &&& 0x07) = TNF_UNCHANGED →
      parse buf ignoreBeginEnd records offset = .returned false records) := by
  refine ⟨?_, ?_, ?_⟩
  · intro hc hflag htnf
    apply parse_header_rejected hreach hme hflag
    rw [hc, htnf]
    exact headerRejected_of_unchanged _ _ _ _ _ _
  · intro f hread hcf hflag htnf
    obtain ⟨s', hs', hc', hme', hi', hr'⟩ := stepsTo_after_chunk hreach hme hread hcf
    rw [← hr']
    apply parse_header_rejected hs' hme' (by rw [hi']; exact hflag)
    rw [hc']
    exact headerRejected_of_changed _ _ _ _ _ _ _ htnf
  · intro flag0 h0 htnf
    apply parse_header_rejected (stepsTo_zero _ _ _) rfl h0
    rw [htnf]
    exact headerRejected_of_unchanged _ _ _ _ _ _

theorem unchanged_tnf_use_rejected_witness :
    parse [0xB1, 0, 0, 0x51, 0, 0] false [] 0 = .returned false [] :=
  (unchanged_tnf_use_rejected [0xB1, 0, 0, 0x51, 0, 0] false [] 0 0
    ⟨false, 255, false, 0, []⟩ 0x51 rfl rfl).2.1
    ⟨true, false, true, 1, [], [], [], 3⟩ (by rfl) rfl (by decide) (by decide)

theorem headerRejected_il_false {ign : Bool} {recs : List NdefRecord} {mb me cf il : Bool}
    {tnf : Byte} (h : headerRejected ign true recs mb me cf il tnf = false) : il = false := by
  cases il
  · rfl
  · rw [headerRejected_of_il] at h; cases h

/-- Inside a chunk, a fragment whose type-length byte is not zero and whose
payload-length field is in the buffer makes the iteration return `false`. -/
theorem readFragment_chunk_type {buf : List Byte} {ign : Bool} {s : ParseState}
    {flag tlb : Byte} {lenBytes rest : List Byte}
    (hc : s.inChunk = true)
    (hdrop : buf.drop s.index = flag :: tlb :: (lenBytes ++ rest))
    (hlen : lenBytes.length = if ((flag.val &&& FLAG_SR) != 0) = true then 1 else 4)
    (hbound : s.index + 6 < UINT32_MOD) (htl : tlb.val ≠ 0) :
    readFragment buf ign s = .error (.returned false s.records) := by
  obtain ⟨hlt, hget, d1⟩ := drop_cons_inv hdrop
  obtain ⟨-, -, d2⟩ := drop_cons_inv d1
  by_cases hrej : headerRejected ign s.inChunk s.records ((flag.val &&& FLAG_MB) != 0)
      ((flag.val &&& FLAG_ME) != 0) ((flag.val &&& FLAG_CF) != 0)
      ((flag.val &&& FLAG_IL) != 0) (toUInt8 (flag.val &&& 0x07)) = true
  · unfold readFragment
    rw [readByte_drop hdrop (by omega)]
    simp only [hrej, if_true]
  · have hrej' := Bool.eq_false_iff.2 hrej
    have hil : ((flag.val &&& FLAG_IL) != 0) = false := by
      rw [hc] at hrej'
      exact headerRejected_il_false hrej'
    have hpl : ∃ pl, readPayloadLength buf ((flag.val &&& FLAG_SR) != 0) (s.index + 1 + 1)
        = .ok (pl, s.index + 1 + 1 + lenBytes.length) := by
      cases hsr : ((flag.val &&& FLAG_SR) != 0)
      · rw [hsr] at hlen
        simp only [Bool.false_eq_true, if_false] at hlen
        match lenBytes, hlen, d2 with
        | [b0, b1, b2, b3], _, d2 =>
          exact ⟨_, readPayloadLength_long (by simpa using d2) (by omega)⟩
      · rw [hsr] at hlen
        simp only [if_true] at hlen
        match lenBytes, hlen, d2 with
        | [b], _, d2 =>
          exact ⟨_, readPayloadLength_short (by simpa using d2) (by omega)⟩
    obtain ⟨pl, hpl⟩ := hpl
    have hty : (s.inChunk && (tlb.val &&& 0xFF) != 0) = true := by
      rw [hc, and_255]
      simp [htl]
    unfold readFragment
    rw [readByte_drop hdrop (by omega)]
    simp only
    rw [hrej']
    simp only [Bool.false_eq_true, if_false]
    rw [readByte_drop d1 (by omega)]
    simp only
    rw [hpl]
    simp only
    rw [hil]
    simp only [readIdLength, Bool.false_eq_true, if_false]
    rw [hty]
    simp only [if_true]

/-- C18 as stated fails: a continuation fragment with type-length byte 1, cut
right after that byte, does not make `parse` return `false`; the payload
length is read, out of range, before the type length is checked. -/
theorem continuation_type_length_not_a_failure :
    parse [0xB1, 0, 0, 0x57, 1] false [] 0 = .outOfRange := by
  rw [parse_eq, initialState_zero]
  rw [parseLoop_loop ⟨true, 1, false, 3, []⟩ rfl (by decide)]
  rw [parseLoop_exit .outOfRange rfl (by decide)]

theorem parseLoop_of_stepsTo_returned {buf : List Byte} {ign : Bool} {n : Nat}
    {s t : ParseState} {b : Bool} {recs : List NdefRecord}
    (h : stepsTo buf ign n s = some t) (fuel : Nat)
    (hp : parseLoop buf ign fuel s = .returned b recs) :
    ∃ fuel', parseLoop buf ign fuel' t = .returned b recs := by
  induction n generalizing s fuel with
  | zero => rw [stepsTo_zero] at h; cases h; exact ⟨fuel, hp⟩
  | succ n ih =>
    obtain ⟨hme, s', hb, hs'⟩ := stepsTo_succ_inv h
    cases fuel with
    | zero => rw [parseLoop_zero hme] at hp; cases hp
    | succ fuel =>
      rw [parseLoop_loop s' hme hb] at hp
      exact ih hs' fuel hp

theorem readFragment_chunk_fields {buf : List Byte} {ign : Bool} {s : ParseState}
    {f : Fragment} (hc : s.inChunk = true) (h : readFragment buf ign s = .ok f) :
    f.type = [] ∧ f.id = [] := by
  obtain ⟨flag, tb, i1, i2, i3, i4, i5, pl, idl, -, -, -, -, -, -, r5, -⟩ :=
    (readFragment_ok h).ex
  rw [hc] at r5
  simp only [readTypeAndId, Bool.not_true, Bool.false_eq_true, if_false, Except.ok.injEq,
    Prod.mk.injEq] at r5
  exact ⟨r5.1.symm, r5.2.1.symm⟩

/-- C20. Type and id of a reassembled record: when `parse` succeeds, the
record that is completed by a fragment read inside a chunk (a record made of
two or more fragments) stands in the output with an empty type and an empty
id, whatever type and id bytes the first fragment carried; `s` is the state in
which the completing fragment `f` is read, and the record is the one pushed
after the `s.records.length` records completed before. -/
theorem chunked_record_type_id_empty (buf : List Byte) (ignoreBeginEnd : Bool)
    (records : List NdefRecord) (offset : Int) (n : Nat) (s : ParseState) (f : Fragment)
    (recs : List NdefRecord)
    (hreach : stepsTo buf ignoreBeginEnd n (initialState records offset) = some s)
    (hme : s.me = false) (hc : s.inChunk = true)
    (hread : readFragment buf ignoreBeginEnd s = .ok f) (hcf : f.cf = false)
    (hparse : parse buf ignoreBeginEnd records offset = .returned true recs) :
    ∃ r, recs[s.records.length]? = some r ∧ r.mType = [] ∧ r.mId = [] ∧
      r.mTnf = s.chunkTnf := by
  obtain ⟨hty, hid⟩ := readFragment_chunk_fields hc hread
  have hem : (emittedRecord s f).mType = [] ∧ (emittedRecord s f).mId = [] ∧
      (emittedRecord s f).mTnf = s.chunkTnf := by
    unfold emittedRecord
    rw [hc]
    exact ⟨hty, hid, rfl⟩
  refine ⟨emittedRecord s f, ?_, hem⟩
  have hget : ∀ added : List NdefRecord,
      (s.records ++ [emittedRecord s f] ++ added)[s.records.length]?
        = some (emittedRecord s f) := by
    intro added
    rw [List.append_assoc, List.singleton_append]
    rw [List.getElem?_append_right (Nat.le_refl _), Nat.sub_self, List.getElem?_cons_zero]
  have hb : parseBody buf ignoreBeginEnd s = completeFragment ignoreBeginEnd s f :=
    parseBody_of_readFragment hread
  rw [completeFragment_last hcf hc] at hb
  split at hb
  · rw [parse_of_stepsTo_exit hreach hme hb] at hparse; cases hparse
  · split at hb
    · rw [parse_of_stepsTo_exit hreach hme hb] at hparse; cases hparse
    · split at hb
      · rw [parse_of_stepsTo_exit hreach hme hb] at hparse
        cases hparse
        have := hget []
        rw [List.append_nil] at this
        exact this
      · have hs' := stepsTo_snoc hreach hme hb
        rw [parse_eq] at hparse
        obtain ⟨fuel', hp'⟩ := parseLoop_of_stepsTo_returned hs' _ hparse
        obtain ⟨added, ha, -⟩ := parseLoop_returned hp'
        rw [ha]
        exact hget added

theorem chunked_record_type_id_empty_witness :
    ∃ r, ([⟨1, [], [], [3, 3]⟩] : List NdefRecord)[0]? = some r ∧ r.mType = [] ∧ r.mId = [] ∧
      r.mTnf = 1 :=
  chunked_record_type_id_empty [0xB9, 1, 1, 1, 0x55, 0x66, 0x01, 0x57, 0, 1, 3] false [] 0 1
    ⟨true, 1, false, 7, []⟩ ⟨false, true, false, 7, [], [], [3], 11⟩ [⟨1, [], [], [3, 3]⟩]
    (by rw [initialState_zero]; exact stepsTo_succ_loop 0 ⟨true, 1, false, 7, []⟩ rfl (by decide))
    rfl rfl (by rfl) rfl
    (by
      rw [parse_eq, initialState_zero]
      rw [parseLoop_loop ⟨true, 1, false, 7, []⟩ rfl (by decide)]
      rw [parseLoop_loop ⟨false, 1, true, 11, [⟨1, [], [], [3, 3]⟩]⟩ rfl (by decide)]
      exact parseLoop_me rfl)

/-! ## Bytes after the message -/

/-- An iteration that makes no out-of-range access does the same on a buffer
with more bytes at its end. -/
theorem parseBody_append (buf x : List Byte) (ign : Bool) (s : ParseState) :
    parseBody buf ign s = .exit .outOfRange ∨
      parseBody (buf ++ x) ign s = parseBody buf ign s := by
  rcases readFragment_append buf x ign s with h | h
  · left; exact parseBody_of_error h
  · right
    unfold parseBody
    rw [h]

theorem parseLoop_append (buf x : List Byte) (ign : Bool) (fuel : Nat) (s : ParseState)
    (res : Bool) (recs : List NdefRecord)
    (h : parseLoop buf ign fuel s = .returned res recs) :
    parseLoop (buf ++ x) ign fuel s = .returned res recs := by
  induction fuel generalizing s with
  | zero =>
    cases hme : s.me
    · rw [parseLoop_zero hme] at h; cases h
    · rw [parseLoop_me hme] at h; rw [parseLoop_me hme]; exact h
  | succ fuel ih =>
    cases hme : s.me
    · cases hb : parseBody buf ign s with
      | exit o =>
        rw [parseLoop_exit o hme hb] at h
        subst h
        rcases parseBody_append buf x ign s with h1 | h1
        · rw [hb] at h1; cases h1
        · rw [hb] at h1
          exact parseLoop_exit _ hme h1
      | loop s' =>
        rw [parseLoop_loop s' hme hb] at h
        rcases parseBody_append buf x ign s with h1 | h1
        · rw [hb] at h1; cases h1
        · rw [hb] at h1
          rw [parseLoop_loop s' hme h1]
          exact ih s' h
    · rw [parseLoop_me hme] at h; rw [parseLoop_me hme]; exact h

/-- C21. Trailing bytes are ignored: when `parse` succeeds on a buffer `b`
(`res = true`), it succeeds with the same records on `b ++ x`, for every byte
sequence `x`, every value of `ignoreBeginEnd`, every offset and every content
of the output sequence at the call.  The same holds for a call that returns
`false` (`res = false`): only a call that reads past the end of `b` can be
changed by the bytes of `x`. -/
theorem trailing_bytes_ignored (b x : List Byte) (ignoreBeginEnd : Bool)
    (records : List NdefRecord) (offset : Int) (res : Bool) (recs : List NdefRecord)
    (h : parse b ignoreBeginEnd records offset = .returned res recs) :
    parse (b ++ x) ignoreBeginEnd records offset = .returned res recs := by
  rw [parse_eq] at h ⊢
  exact parseLoop_append b x ignoreBeginEnd _ _ res recs h

theorem trailing_bytes_ignored_witness :
    parse ([0xD1, 0, 1, 1] ++ [0xFF, 0x00, 0x37]) false [] 0
      = .returned true [⟨1, [], [], [1]⟩] :=
  trailing_bytes_ignored [0xD1, 0, 1, 1] [0xFF, 0x00, 0x37] false [] 0 true
    [⟨1, [], [], [1]⟩] (by decide)

/-! ## What `writeToByteBuffer` leaves in the buffer -/

theorem hugePayload_length : hugePayload.length = 4294967296 := by
  unfold hugePayload; exact List.length_replicate _ _

/-- The call returns exactly when the three copy loops end. -/
theorem writeToByteBuffer_returns_iff (r : NdefRecord) (c : List Byte) (mb me : Bool) :
    (∃ out, writeToByteBuffer r c mb me = some out) ↔
      (r.mType.length < UINT32_MOD ∧ r.mId.length < UINT32_MOD ∧
        r.mPayload.length < UINT32_MOD) := by
  constructor
  · rintro ⟨out, h⟩
    rw [writeToByteBuffer_header] at h
    unfold pushAll at h
    by_cases ht : r.mType.length < UINT32_MOD
    · rw [if_pos ht, Option.some_bind] at h
      by_cases hi : r.mId.length < UINT32_MOD
      · rw [if_pos hi, Option.some_bind] at h
        by_cases hp : r.mPayload.length < UINT32_MOD
        · exact ⟨ht, hi, hp⟩
        · rw [if_neg hp] at h; cases h
      · rw [if_neg hi] at h; cases h
    · rw [if_neg ht] at h; cases h
  · rintro ⟨ht, hi, hp⟩
    exact ⟨_, writeToByteBuffer_eq r c mb me ht hi hp⟩

/-- C24 as stated fails for a record whose payload holds `2 ^ 32` bytes: the
copy loop `for (uint32_t i = 0; i < mPayload.size(); i++)` never ends, so
there is no buffer after the call. -/
theorem serialization_of_huge_payload_never_returns :
    writeToByteBuffer ⟨1, [], [], hugePayload⟩ [0xAA] true true = none := by
  cases h : writeToByteBuffer ⟨1, [], [], hugePayload⟩ [0xAA] true true with
  | none => rfl
  | some out =>
    have h3 := ((writeToByteBuffer_returns_iff _ _ _ _).1 ⟨out, h⟩).2.2
    have h4 : (⟨1, [], [], hugePayload⟩ : NdefRecord).mPayload.length = 4294967296 :=
      hugePayload_length
    rw [h4] at h3
    exact absurd h3 (by decide)

/-- C24, amended. Serialization only appends: for every record whose type, id
and payload are each shorter than `2 ^ 32` bytes, every `mb`, `me` and every
initial content `c` of the output buffer, `writeToByteBuffer` returns, the
buffer is then `c` followed by the record's encoding `wire r mb me`, which
does not depend on `c`, and the buffer has grown by
`2 + (1 if payload length < 256 else 4) + (1 if id non-empty else 0)
 + type length + id length + payload length` bytes.  The record is an
argument of the embedded function and not part of its result: the body of
`writeToByteBuffer` assigns to no member. -/
theorem serialization_appends (r : NdefRecord) (c : List Byte) (mb me : Bool)
    (ht : r.mType.length < 2 ^ 32) (hi : r.mId.length < 2 ^ 32)
    (hp : r.mPayload.length < 2 ^ 32) :
    (∃ enc, ∀ c', writeToByteBuffer r c' mb me = some (c' ++ enc)) ∧
    writeToByteBuffer r c mb me = some (c ++ wire r mb me) ∧
    (∀ out, writeToByteBuffer r c mb me = some out →
      out.take c.length = c ∧
      out.length = c.length + (2 + (if r.mPayload.length < 256 then 1 else 4)
        + (if r.mId ≠ [] then 1 else 0) + r.mType.length + r.mId.length
        + r.mPayload.length)) := by
  have hM : (2 : Nat) ^ 32 = UINT32_MOD := by unfold UINT32_MOD; norm_num
  have hw : ∀ c', writeToByteBuffer r c' mb me = some (c' ++ wire r mb me) :=
    fun c' => writeToByteBuffer_eq r c' mb me (by omega) (by omega) (by omega)
  refine ⟨⟨wire r mb me, hw⟩, hw c, ?_⟩
  intro out hout
  rw [hw c] at hout
  cases hout
  refine ⟨List.take_left _ _, ?_⟩
  rw [List.length_append, wire_length]
  have hid : (r.mId.length > 0) ↔ r.mId ≠ [] := by
    rw [gt_iff_lt, List.length_pos]
  by_cases h0 : r.mId ≠ []
  · rw [if_pos h0, if_pos (hid.2 h0)]
  · rw [if_neg h0, if_neg (fun h => h0 (hid.1 h))]

theorem serialization_appends_witness :
    writeToByteBuffer ⟨2, [5], [9], [7, 8]⟩ [0xAA, 0xBB] true false
      = some ([0xAA, 0xBB] ++ wire ⟨2, [5], [9], [7, 8]⟩ true false) ∧
    wire ⟨2, [5], [9], [7, 8]⟩ true false = [0x9A, 1, 2, 1, 5, 9, 7, 8] :=
  ⟨(serialization_appends ⟨2, [5], [9], [7, 8]⟩ [0xAA, 0xBB] true false
      (by decide) (by decide) (by decide)).2.1, by decide⟩

/-! ## Bytes in front of the message -/

theorem getElem_shift (p b : List Byte) {j j' : Nat} (hj : j < b.length)
    (hj' : j' < (p ++ b).length) (e : j' = p.length + j) : (p ++ b)[j'] = b[j] := by
  subst e
  have h1 : (p ++ b)[p.length + j]? = b[j]? := by
    rw [List.getElem?_append_right (Nat.le_add_right _ _), Nat.add_sub_cancel_left]
  rw [List.getElem?_eq_getElem hj', List.getElem?_eq_getElem hj] at h1
  exact Option.some.inj h1

theorem readByte_shift (p b : List Byte) (h : p.length + b.length < UINT32_MOD) (i : Nat) :
    readByte (p ++ b) (p.length + i) =
      (readByte b i).map fun v => (v.1, p.length + v.2) := by
  unfold readByte
  have l : (p ++ b).length = p.length + b.length := List.length_append _ _
  by_cases hi : i < b.length
  · have hi' : p.length + i < (p ++ b).length := by omega
    rw [dif_pos hi, dif_pos hi', getElem_shift p b hi hi' rfl]
    show Except.ok _ = Except.ok _
    rw [Nat.mod_eq_of_lt (by omega : p.length + i + 1 < UINT32_MOD),
      Nat.mod_eq_of_lt (by omega : i + 1 < UINT32_MOD)]
    rfl
  · have hi' : ¬ p.length + i < (p ++ b).length := by omega
    rw [dif_neg hi, dif_neg hi']
    rfl

theorem readBytes_shift (p b : List Byte) (h : p.length + b.length < UINT32_MOD) (n i : Nat) :
    readBytes (p ++ b) n (p.length + i) =
      (readBytes b n i).map fun v => (v.1, p.length + v.2) := by
  induction n generalizing i with
  | zero => rfl
  | succ n ih =>
    rw [readBytes, readBytes, readByte_shift p b h]
    cases hb : readByte b i with
    | error o => rfl
    | ok v =>
      obtain ⟨x, j⟩ := v
      show (match readBytes (p ++ b) n (p.length + j) with
        | .error o => Except.error o
        | .ok (bs, index) => .ok (x :: bs, index)) = _
      rw [ih j]
      cases hr : readBytes b n j with
      | error o => simp only [Except.map, hr]
      | ok w => simp only [Except.map, hr]

theorem readPayloadLength_shift (p b : List Byte) (h : p.length + b.length < UINT32_MOD)
    (sr : Bool) (i : Nat) :
    readPayloadLength (p ++ b) sr (p.length + i) =
      (readPayloadLength b sr i).map fun v => (v.1, p.length + v.2) := by
  unfold readPayloadLength
  have l : (p ++ b).length = p.length + b.length := List.length_append _ _
  cases sr
  · simp only [Bool.false_eq_true, if_false]
    by_cases h0 : i < b.length
    · have e1 : (i + 1) % UINT32_MOD = i + 1 := Nat.mod_eq_of_lt (by omega)
      have e1' : (p.length + i + 1) % UINT32_MOD = p.length + (i + 1) :=
        Nat.mod_eq_of_lt (by omega)
      by_cases h1 : (i + 1) % UINT32_MOD < b.length
      · have e2 : (i + 2) % UINT32_MOD = i + 2 := Nat.mod_eq_of_lt (by omega)
        have e2' : (p.length + i + 2) % UINT32_MOD = p.length + (i + 2) :=
          Nat.mod_eq_of_lt (by omega)
        by_cases h2 : (i + 2) % UINT32_MOD < b.length
        · have e3 : (i + 3) % UINT32_MOD = i + 3 := Nat.mod_eq_of_lt (by omega)
          have e3' : (p.length + i + 3) % UINT32_MOD = p.length + (i + 3) :=
            Nat.mod_eq_of_lt (by omega)
          by_cases h3 : (i + 3) % UINT32_MOD < b.length
          · have e4 : (i + 4) % UINT32_MOD = i + 4 := Nat.mod_eq_of_lt (by omega)
            have e4' : (p.length + i + 4) % UINT32_MOD = p.length + (i + 4) :=
              Nat.mod_eq_of_lt (by omega)
            rw [dif_pos h0, dif_pos h1, dif_pos h2, dif_pos h3,
              dif_pos (by omega : p.length + i < (p ++ b).length),
              dif_pos (by omega : (p.length + i + 1) % UINT32_MOD < (p ++ b).length),
              dif_pos (by omega : (p.length + i + 2) % UINT32_MOD < (p ++ b).length),
              dif_pos (by omega : (p.length + i + 3) % UINT32_MOD < (p ++ b).length)]
            rw [getElem_shift p b h0 _ rfl, getElem_shift p b h1 _ (by omega),
              getElem_shift p b h2 _ (by omega), getElem_shift p b h3 _ (by omega)]
            show Except.ok _ = Except.ok _
            rw [e4', e4]
          · rw [dif_pos h0, dif_pos h1, dif_pos h2, dif_neg h3,
              dif_pos (by omega : p.length + i < (p ++ b).length),
              dif_pos (by omega : (p.length + i + 1) % UINT32_MOD < (p ++ b).length),
              dif_pos (by omega : (p.length + i + 2) % UINT32_MOD < (p ++ b).length),
              dif_neg (by omega : ¬ (p.length + i + 3) % UINT32_MOD < (p ++ b).length)]
            rfl
        · rw [dif_pos h0, dif_pos h1, dif_neg h2,
            dif_pos (by omega : p.length + i < (p ++ b).length),
            dif_pos (by omega : (p.length + i + 1) % UINT32_MOD < (p ++ b).length),
            dif_neg (by omega : ¬ (p.length + i + 2) % UINT32_MOD < (p ++ b).length)]
          rfl
      · rw [dif_pos h0, dif_neg h1,
          dif_pos (by omega : p.length + i < (p ++ b).length),
          dif_neg (by omega : ¬ (p.length + i + 1) % UINT32_MOD < (p ++ b).length)]
        rfl
    · rw [dif_neg h0, dif_neg (by omega : ¬ p.length + i < (p ++ b).length)]
      rfl
  · simp only [if_true]
    rw [readByte_shift p b h]
    cases readByte b i with
    | error o => rfl
    | ok v => rfl

theorem readIdLength_shift (p b : List Byte) (h : p.length + b.length < UINT32_MOD)
    (il : Bool) (i : Nat) :
    readIdLength (p ++ b) il (p.length + i) =
      (readIdLength b il i).map fun v => (v.1, p.length + v.2) := by
  unfold readIdLength
  cases il
  · rfl
  · simp only [if_true]
    rw [readByte_shift p b h]
    cases readByte b i with
    | error o => rfl
    | ok v => rfl

theorem readTypeAndId_shift (p b : List Byte) (h : p.length + b.length < UINT32_MOD)
    (c : Bool) (tl il i : Nat) :
    readTypeAndId (p ++ b) c tl il (p.length + i) =
      (readTypeAndId b c tl il i).map fun v => (v.1, v.2.1, p.length + v.2.2) := by
  unfold readTypeAndId
  cases c
  · simp only [Bool.not_false, if_true]
    rw [readBytes_shift p b h]
    cases readBytes b tl i with
    | error o => rfl
    | ok v =>
      obtain ⟨ty, j⟩ := v
      show (match readBytes (p ++ b) il (p.length + j) with
        | .error o => Except.error o
        | .ok (id, index) => .ok (ty, id, index)) = _
      rw [readBytes_shift p b h]
      cases hr : readBytes b il j with
      | error o => simp only [Except.map, hr]
      | ok w => simp only [Except.map, hr]
  · rfl

theorem readFragment_shift (p b : List Byte) (h : p.length + b.length < UINT32_MOD)
    (ign : Bool) (s : ParseState) :
    readFragment (p ++ b) ign (s.shift p.length) =
      (readFragment b ign s).map (Fragment.shift p.length) := by
  have e1 : (s.shift p.length).index = p.length + s.index := rfl
  have e2 : (s.shift p.length).inChunk = s.inChunk := rfl
  have e3 : (s.shift p.length).records = s.records := rfl
  unfold readFragment
  rw [e1, e2, e3, readByte_shift p b h]
  cases h1 : readByte b s.index with
  | error o => rfl
  | ok v =>
  obtain ⟨flag, i1⟩ := v
  simp only [Except.map]
  split
  · rfl
  rw [readByte_shift p b h]
  cases h2 : readByte b i1 with
  | error o => rfl
  | ok v =>
  obtain ⟨tb, i2⟩ := v
  simp only [Except.map]
  rw [readPayloadLength_shift p b h]
  cases h3 : readPayloadLength b ((flag.val &&& FLAG_SR) != 0) i2 with
  | error o => rfl
  | ok v =>
  obtain ⟨pl, i3⟩ := v
  simp only [Except.map]
  rw [readIdLength_shift p b h]
  cases h4 : readIdLength b ((flag.val &&& FLAG_IL) != 0) i3 with
  | error o => rfl
  | ok v =>
  obtain ⟨idl, i4⟩ := v
  simp only [Except.map]
  split
  · rfl
  rw [readTypeAndId_shift p b h]
  cases h5 : readTypeAndId b s.inChunk (tb.val &&& 0xFF) idl i4 with
  | error o => rfl
  | ok v =>
  obtain ⟨ty, id, i5⟩ := v
  simp only [Except.map]
  split
  · rfl
  rw [readBytes_shift p b h]
  cases h6 : readBytes b pl i5 with
  | error o => rfl
  | ok v => rfl

theorem completeFragment_shift (ign : Bool) (s : ParseState) (f : Fragment) (k : Nat) :
    completeFragment ign (s.shift k) (f.shift k) = (completeFragment ign s f).shift k := by
  have e2 : (s.shift k).inChunk = s.inChunk := rfl
  have e3 : (s.shift k).records = s.records := rfl
  have e4 : (s.shift k).chunkTnf = s.chunkTnf := rfl
  have hem : emittedRecord (s.shift k) (f.shift k) = emittedRecord s f := rfl
  have f1 : (f.shift k).cf = f.cf := rfl
  have f2 : (f.shift k).tnf = f.tnf := rfl
  have f3 : (f.shift k).type = f.type := rfl
  have f4 : (f.shift k).id = f.id := rfl
  have f5 : (f.shift k).payload = f.payload := rfl
  have f6 : (f.shift k).me = f.me := rfl
  have f7 : (f.shift k).index = k + f.index := rfl
  cases hcf : f.cf
  · cases hc : s.inChunk
    · rw [completeFragment_plain (f1.trans hcf) (e2.trans hc), completeFragment_plain hcf hc,
        hem, e3, e4, f2, f3, f4, f5, f6, f7]
      by_cases hv : validateTnf f.tnf f.type f.id f.payload = false
      · rw [if_pos hv, if_pos hv]; rfl
      · rw [if_neg hv, if_neg hv]
        cases ign
        · simp only [Bool.false_eq_true, if_false, Step.shift, ParseState.shift]
        · simp only [if_true, Step.shift]
    · rw [completeFragment_last (f1.trans hcf) (e2.trans hc), completeFragment_last hcf hc,
        hem, e3, e4, f3, f4, f5, f6, f7]
      by_cases hs : ensureSanePayloadSize ((f.payload.length % UINT32_MOD : Nat) : Int) = false
      · rw [if_pos hs, if_pos hs]; rfl
      · rw [if_neg hs, if_neg hs]
        by_cases hv : validateTnf s.chunkTnf f.type f.id (f.payload ++ f.payload) = false
        · rw [if_pos hv, if_pos hv]; rfl
        · rw [if_neg hv, if_neg hv]
          cases ign
          · simp only [Bool.false_eq_true, if_false, Step.shift, ParseState.shift]
          · simp only [if_true, Step.shift]
  · rw [completeFragment_cf (f1.trans hcf), completeFragment_cf hcf]
    rfl

theorem parseBody_shift (p b : List Byte) (h : p.length + b.length < UINT32_MOD)
    (ign : Bool) (s : ParseState) :
    parseBody (p ++ b) ign (s.shift p.length) = (parseBody b ign s).shift p.length := by
  have hr := readFragment_shift p b h ign s
  cases hf : readFragment b ign s with
  | error o =>
    rw [hf] at hr
    rw [parseBody_of_error hf, parseBody_of_error hr]
    rfl
  | ok f =>
    rw [hf] at hr
    rw [parseBody_of_readFragment hf, parseBody_of_readFragment hr]
    exact completeFragment_shift ign s f p.length

theorem parseLoop_shift (p b : List Byte) (h : p.length + b.length < UINT32_MOD)
    (ign : Bool) (fuel : Nat) (s : ParseState) :
    parseLoop (p ++ b) ign fuel (s.shift p.length) = parseLoop b ign fuel s := by
  induction fuel generalizing s with
  | zero =>
    cases hme : s.me
    · rw [parseLoop_zero hme, parseLoop_zero (show (s.shift p.length).me = false from hme)]
    · rw [parseLoop_me hme, parseLoop_me (show (s.shift p.length).me = true from hme)]
      rfl
  | succ fuel ih =>
    cases hme : s.me
    · have hme' : (s.shift p.length).me = false := hme
      have hb := parseBody_shift p b h ign s
      cases hs : parseBody b ign s with
      | exit o =>
        rw [hs] at hb
        rw [parseLoop_exit _ hme hs, parseLoop_exit _ hme' hb]
      | loop s' =>
        rw [hs] at hb
        rw [parseLoop_loop _ hme hs, parseLoop_loop _ hme' hb]
        exact ih s'
    · rw [parseLoop_me hme, parseLoop_me (show (s.shift p.length).me = true from hme)]
      rfl

theorem initialState_shift (p : List Byte) (records : List NdefRecord)
    (h : p.length < UINT32_MOD) :
    initialState records (p.length : Int) = (initialState records 0).shift p.length := by
  unfold initialState ParseState.shift
  simp only [Int.zero_emod, Int.toNat_zero, Nat.add_zero]
  congr 1
  have : ((p.length : Int) % (UINT32_MOD : Int)) = ((p.length % UINT32_MOD : Nat) : Int) := by
    norm_cast
  rw [this, Int.toNat_ofNat, Nat.mod_eq_of_lt h]

theorem parse_shift (p b : List Byte) (h : p.length + b.length < UINT32_MOD)
    (ign : Bool) (records : List NdefRecord) :
    parse (p ++ b) ign records (p.length : Int) = parse b ign records 0 := by
  rw [parse_eq, parse_eq, initialState_shift p records (by omega)]
  exact parseLoop_shift p b h ign _ _

/-! ## A message behind `2 ^ 31 - 1` bytes -/

theorem shiftFront_length : shiftFront.length = 2147483647 := by
  unfold shiftFront; exact List.length_replicate _ _

theorem shiftMessage_eq : shiftMessage = List.replicate 204 bigRecord ++ [bigRecord] := by
  unfold shiftMessage
  exact List.replicate_succ' 204 bigRecord

theorem wires_shiftMessage_split :
    wires shiftMessage true =
      wiresOpen (List.replicate 204 bigRecord) true ++ wire bigRecord false true := by
  rw [shiftMessage_eq, wires_append_singleton]
  have he : (true && (List.replicate 204 bigRecord).isEmpty) = false := rfl
  rw [he]

theorem wires_shiftMessage :
    wires shiftMessage true =
      wiresOpen (List.replicate 204 bigRecord) true ++
        (0x41 :: 0 :: ([0, 0xA0, 0, 0] ++ ([] ++ ([] ++ ([] ++ bigPayload))))) := by
  rw [wires_shiftMessage_split, wire_bigRecord false true]
  rfl

theorem wires_shiftMessage_length : (wires shiftMessage true).length = 2149582030 := by
  rw [wires_shiftMessage_split, List.length_append, wiresOpen_replicate_length,
    wire_bigRecord_length]

theorem shiftMessage_wellFormed : ∀ r ∈ shiftMessage, WellFormed r := by
  intro r hr
  unfold shiftMessage at hr
  rw [List.eq_of_mem_replicate hr]
  exact bigRecord_wellFormed

theorem shifted_head : (shiftFront ++ wires shiftMessage true)[0]? = some 0xFF := by
  rw [List.getElem?_append_left (by rw [shiftFront_length]; decide)]
  unfold shiftFront
  rw [List.getElem?_replicate, if_pos (by decide)]

theorem shifted_length :
    (shiftFront ++ wires shiftMessage true).length = 4297065677 := by
  rw [List.length_append, shiftFront_length, wires_shiftMessage_length]

theorem parse_shifted_front :
    parse (shiftFront ++ wires shiftMessage true) false [] (shiftFront.length : Int) =
      parseLoop (shiftFront ++ wires shiftMessage true) false (4398046510899 + 1)
        shiftState := by
  have hfuel : (4398046511103 + 1 : Nat) = (4398046510899 + 1) + 204 := by norm_num
  have hl : (List.replicate 204 bigRecord).length = 204 := List.length_replicate _ _
  have hs : ParseState.shift shiftFront.length ⟨false, toUInt8 255, false, 0, []⟩
      = ⟨false, toUInt8 255, false, 2147483647, []⟩ := by
    rw [shiftFront_length]
    rfl
  have hd : (shiftFront ++ wires shiftMessage true).drop 2147483647 =
      wiresOpen (List.replicate 204 bigRecord) true ++
        (0x41 :: 0 :: ([0, 0xA0, 0, 0] ++ ([] ++ ([] ++ ([] ++ bigPayload))))) := by
    rw [← shiftFront_length, List.drop_left, wires_shiftMessage]
  rw [parse_eq, initialState_shift shiftFront [] (by rw [shiftFront_length]; decide),
    initialState_zero, hs, hfuel]
  have key := parseLoop_wiresOpen (shiftFront ++ wires shiftMessage true)
    (List.replicate 204 bigRecord) ⟨false, toUInt8 255, false, 2147483647, []⟩
    (4398046510899 + 1) true
    (0x41 :: 0 :: ([0, 0xA0, 0, 0] ++ ([] ++ ([] ++ ([] ++ bigPayload)))))
    hd (by rw [wiresOpen_replicate_length]; decide) rfl rfl (by simp)
    (fun r hr => by rw [List.eq_of_mem_replicate hr]; exact bigRecord_wellFormed)
  rw [hl] at key
  refine key.trans ?_
  rw [wiresOpen_replicate_length]
  rfl

theorem shiftState_drop :
    (shiftFront ++ wires shiftMessage true).drop shiftState.index =
      0x41 :: 0 :: ([0, 0xA0, 0, 0] ++ ([] ++ ([] ++ ([] ++ bigPayload)))) := by
  have hl : shiftState.index
      = shiftFront.length + (wiresOpen (List.replicate 204 bigRecord) true).length := by
    rw [wiresOpen_replicate_length, shiftFront_length]; rfl
  rw [hl, ← List.drop_drop, List.drop_left, wires_shiftMessage, List.drop_left]

/-- The 205th fragment of `shiftMessage` behind `shiftFront` is read with a
payload that differs from `bigPayload`: the cursor wraps to index 0 inside
it and reads bytes of `shiftFront`. -/
theorem shiftState_read :
    ∃ payload j, payload ≠ bigPayload ∧
      readFragment (shiftFront ++ wires shiftMessage true) false shiftState =
        .ok { mb := false, me := true, cf := false, tnf := 1, type := [], id := [],
              payload := payload, index := j } := by
  have hM : UINT32_MOD ≤ (shiftFront ++ wires shiftMessage true).length := by
    rw [shifted_length]; decide
  obtain ⟨bs, j, hr, hget⟩ :=
    readBytes_wrap (shiftFront ++ wires shiftMessage true) hM 10485760 4286579917 (by decide)
  refine ⟨bs, j, ?_, ?_⟩
  · intro hbs
    have h1 := hget 8387379 (by decide)
    have h2 : (4286579917 + 8387379) % UINT32_MOD = 0 := by decide
    rw [h2, shifted_head, hbs] at h1
    unfold bigPayload at h1
    rw [List.getElem?_replicate, if_pos (by decide)] at h1
    exact absurd h1 (by decide)
  · have hrej : headerRejected false shiftState.inChunk shiftState.records
        ((((0x41 : Byte).val) &&& FLAG_MB) != 0) ((((0x41 : Byte).val) &&& FLAG_ME) != 0)
        ((((0x41 : Byte).val) &&& FLAG_CF) != 0) ((((0x41 : Byte).val) &&& FLAG_IL) != 0)
        (toUInt8 (((0x41 : Byte).val) &&& 0x07)) = false := by
      have hne : ¬ shiftState.records = [] := by
        intro h
        have : shiftState.records.length = 204 := List.length_replicate _ _
        rw [h] at this
        cases this
      have h := @headerRejected_plain false shiftState.records false true false 1 (by decide)
        (Or.inr (Iff.intro (fun h => Bool.noConfusion h) (fun h => absurd h hne)))
      exact h
    rw [readFragment_fields false shiftState 0x41 0 [0, 0xA0, 0, 0] [] [] [] bigPayload
      shiftState_drop (by decide) hrej (show LengthField false [0, 0xA0, 0, 0] 10485760 from
        ⟨0, 0xA0, 0, 0, rfl, by decide⟩) ⟨rfl, rfl⟩ rfl (by intro h; cases h),
      ensureSanePayloadSize_eq]
    have hi : shiftState.index + 1 + 1 + ([0, 0xA0, 0, 0] : List Byte).length
        + ([] : List Byte).length + ([] : List Byte).length + ([] : List Byte).length
        = 4286579917 := by decide
    rw [hi, hr]
    rfl

/-- C22 as stated fails: behind a front `p` of `2 ^ 31 - 1` bytes, the
message `b` of 205 records, which parses to these records at offset 0, parses
at offset `length p` to other records.  The cursor `index` is a `uint32_t`:
it passes `2 ^ 32` inside the last payload and goes on reading at the start
of `p`. -/
theorem offset_shift_wraps :
    shiftFront.length = 2147483647 ∧
    parse (wires shiftMessage true) false [] 0 = .returned true shiftMessage ∧
    (∃ recs, parse (shiftFront ++ wires shiftMessage true) false [] (shiftFront.length : Int)
        = .returned true recs ∧ recs ≠ shiftMessage) ∧
    parse (shiftFront ++ wires shiftMessage true) false [] (shiftFront.length : Int)
      ≠ parse (wires shiftMessage true) false [] 0 := by
  have hne : shiftMessage ≠ [] := by
    intro h
    have : shiftMessage.length = 205 := List.length_replicate _ _
    rw [h] at this
    cases this
  have h0 : parse (wires shiftMessage true) false [] 0 = .returned true shiftMessage :=
    parse_wires shiftMessage hne shiftMessage_wellFormed
      (by rw [wires_shiftMessage_length]; decide)
  obtain ⟨payload, j, hpl, hread⟩ := shiftState_read
  have hv : validateTnf 1 [] [] payload = true := by
    rw [validateTnf_iff]
    refine ⟨by decide, ?_, ?_⟩
    · intro h; exact absurd h (by decide)
    · intro h; exact absurd h (by decide)
  have hb : parseBody (shiftFront ++ wires shiftMessage true) false shiftState =
      .loop { inChunk := false, chunkTnf := toUInt8 255, me := true, index := j,
              records := List.replicate 204 bigRecord ++ [⟨1, [], [], payload⟩] } := by
    rw [parseBody_of_readFragment hread, completeFragment_plain rfl rfl]
    simp only [hv, Bool.true_eq_false, if_false, Bool.false_eq_true]
    rfl
  have h1 : parse (shiftFront ++ wires shiftMessage true) false [] (shiftFront.length : Int)
      = .returned true (List.replicate 204 bigRecord ++ [⟨1, [], [], payload⟩]) := by
    rw [parse_shifted_front, parseLoop_loop _ rfl hb, parseLoop_me rfl]
  have hrecs : List.replicate 204 bigRecord ++ [(⟨1, [], [], payload⟩ : NdefRecord)]
      ≠ shiftMessage := by
    rw [shiftMessage_eq]
    intro h
    have h' := List.append_cancel_left h
    simp only [List.cons.injEq, and_true] at h'
    apply hpl
    have : payload = bigRecord.mPayload := by rw [← h']
    exact this
  refine ⟨shiftFront_length, h0, ⟨_, h1, hrecs⟩, ?_⟩
  rw [h0, h1]
  intro h
  simp only [Outcome.returned.injEq, true_and] at h
  exact hrecs h

/-- C22, amended. Offset shift: for every byte sequence `p` and buffer `b`
with `length p + length b < 2 ^ 32`, both values of `ignoreBeginEnd` and every
content of the output sequence, `parse` of `p ++ b` starting at offset
`length p` ends as `parse` of `b` starting at offset 0 does (success or
failure, and the same records); and the three-argument `parse` is the
four-argument `parse` with offset 0, on every buffer. -/
theorem offset_shift (p b : List Byte) (ignoreBeginEnd : Bool) (records : List NdefRecord)
    (h : p.length + b.length < 2 ^ 32) :
    parse (p ++ b) ignoreBeginEnd records (p.length : Int)
      = parse b ignoreBeginEnd records 0 ∧
    parse3 (p ++ b) ignoreBeginEnd records = parse (p ++ b) ignoreBeginEnd records 0 ∧
    parse3 b ignoreBeginEnd records = parse b ignoreBeginEnd records 0 := by
  have hM : (2 : Nat) ^ 32 = UINT32_MOD := by unfold UINT32_MOD; norm_num
  exact ⟨parse_shift p b (by omega) ignoreBeginEnd records, rfl, rfl⟩

theorem offset_shift_witness :
    parse ([0xAA, 0xBB, 0xCC] ++ [0xD1, 0, 1, 1]) false [] 3
      = parse [0xD1, 0, 1, 1] false [] 0 ∧
    parse [0xD1, 0, 1, 1] false [] 0 = .returned true [⟨1, [], [], [1]⟩] :=
  ⟨(offset_shift [0xAA, 0xBB, 0xCC] [0xD1, 0, 1, 1] false [] (by decide)).1, by decide⟩

/-! ## Progress of the cursor on buffers shorter than `2 ^ 32` bytes -/

theorem parseBody_loop_bound {buf : List Byte} {ign : Bool} {s s' : ParseState}
    (hM : buf.length < UINT32_MOD) (h : parseBody buf ign s = .loop s') :
    s.index + 3 ≤ s'.index ∧ s'.index ≤ buf.length := by
  obtain ⟨f, hf, -, hi, -, -⟩ := parseBody_loop_inv h
  rw [hi]
  exact readFragment_bound hM hf

theorem parseBody_exit_ne_diverged {buf : List Byte} {ign : Bool} {s : ParseState}
    {o : Outcome} (h : parseBody buf ign s = .exit o) : o ≠ .diverged := by
  rcases parseBody_cases buf ign s with h1 | h1 | ⟨s1, h1, -⟩ |
    ⟨f, -, -, -, ⟨-, h1⟩ | ⟨-, s1, h1, -⟩⟩
  · rw [h] at h1; cases h1; intro h2; cases h2
  · rw [h] at h1; cases h1; intro h2; cases h2
  · rw [h] at h1; cases h1
  · rw [h] at h1; cases h1; intro h2; cases h2
  · rw [h] at h1; cases h1

theorem stepsTo_progress {buf : List Byte} {ign : Bool} {n : Nat} {s t : ParseState}
    (hM : buf.length < UINT32_MOD) (h : stepsTo buf ign n s = some t) :
    s.index + 3 * n ≤ t.index := by
  induction n generalizing s with
  | zero => rw [stepsTo_zero] at h; cases h; omega
  | succ n ih =>
    obtain ⟨-, s', hb, hs'⟩ := stepsTo_succ_inv h
    have h1 := (parseBody_loop_bound hM hb).1
    have h2 := ih hs'
    omega

/-- On a buffer shorter than `2 ^ 32` bytes the loop has ended once the
iterations allowed could no longer each find 3 bytes. -/
theorem parseLoop_fuel_enough (buf : List Byte) (ign : Bool)
    (hM : buf.length < UINT32_MOD) (fuel : Nat) :
    ∀ (s : ParseState) (extra : Nat), buf.length < s.index + 3 * (fuel + 1) →
      parseLoop buf ign (fuel + 1 + extra) s = parseLoop buf ign (fuel + 1) s ∧
      parseLoop buf ign (fuel + 1) s ≠ .diverged := by
  induction fuel with
  | zero =>
    intro s extra hs
    cases hme : s.me
    · cases hb : parseBody buf ign s with
      | exit o =>
        have e : 0 + 1 + extra = extra + 1 := by omega
        rw [e, parseLoop_exit o hme hb, parseLoop_exit o hme hb]
        exact ⟨rfl, parseBody_exit_ne_diverged hb⟩
      | loop s' =>
        have := parseBody_loop_bound hM hb
        omega
    · rw [parseLoop_me hme, parseLoop_me hme]
      exact ⟨rfl, fun h => by cases h⟩
  | succ fuel ih =>
    intro s extra hs
    cases hme : s.me
    · cases hb : parseBody buf ign s with
      | exit o =>
        have e : fuel + 1 + 1 + extra = (fuel + 1 + extra) + 1 := by omega
        rw [e, parseLoop_exit o hme hb, parseLoop_exit o hme hb]
        exact ⟨rfl, parseBody_exit_ne_diverged hb⟩
      | loop s' =>
        have hbound := parseBody_loop_bound hM hb
        have e : fuel + 1 + 1 + extra = (fuel + 1 + extra) + 1 := by omega
        rw [e, parseLoop_loop s' hme hb, parseLoop_loop s' hme hb]
        exact ih s' extra (by omega)
    · rw [parseLoop_me hme, parseLoop_me hme]
      exact ⟨rfl, fun h => by cases h⟩

/-- C23, amended. Termination by progress, on buffers shorter than `2 ^ 32`
bytes.  An out-of-range read ends the run (outcome `outOfRange`).  Every
fragment that an iteration reads in full moves the cursor forward by at least
3 bytes and leaves it inside the buffer, and so does every iteration that goes
back to the loop condition; when `n` iterations have been completed and one
more fragment is read, the buffer has at least `3 * (n + 1)` bytes, so at most
`length buf / 3` fragments are read; `parse` ends within
`length buf / 3 + 1` iterations, whatever the fragments are (`CF`-set or
not), and its loop never runs forever. -/
theorem parse_terminates_by_progress (buf : List Byte) (ignoreBeginEnd : Bool)
    (records : List NdefRecord) (offset : Int) (hlen : buf.length < 2 ^ 32) :
    (∀ s f, readFragment buf ignoreBeginEnd s = .ok f →
      s.index + 3 ≤ f.index ∧ f.index ≤ buf.length) ∧
    (∀ s s', parseBody buf ignoreBeginEnd s = .loop s' →
      s.index + 3 ≤ s'.index ∧ s'.index ≤ buf.length) ∧
    (∀ n s f, stepsTo buf ignoreBeginEnd n (initialState records offset) = some s →
      readFragment buf ignoreBeginEnd s = .ok f → n + 1 ≤ buf.length / 3) ∧
    parse buf ignoreBeginEnd records offset
      = parseLoop buf ignoreBeginEnd (buf.length / 3 + 1) (initialState records offset) ∧
    parse buf ignoreBeginEnd records offset ≠ .diverged := by
  have hM : buf.length < UINT32_MOD := by unfold UINT32_MOD; omega
  have hfuel := parseLoop_fuel_enough buf ignoreBeginEnd hM (buf.length / 3)
    (initialState records offset) (4398046511104 - (buf.length / 3 + 1)) (by omega)
  have e : buf.length / 3 + 1 + (4398046511104 - (buf.length / 3 + 1)) = 4398046511103 + 1 := by
    unfold UINT32_MOD at hM; omega
  rw [e] at hfuel
  refine ⟨fun s f h => readFragment_bound hM h, fun s s' h => parseBody_loop_bound hM h,
    ?_, ?_, ?_⟩
  · intro n s f hs hf
    have h1 := stepsTo_progress hM hs
    have h2 := readFragment_bound hM hf
    omega
  · rw [parse_eq]; exact hfuel.1
  · rw [parse_eq, hfuel.1]; exact hfuel.2

theorem parse_terminates_by_progress_witness :
    parse [0xB1, 0, 0, 0x37, 0, 0, 0x37, 0, 0] false [] 0
      = parseLoop [0xB1, 0, 0, 0x37, 0, 0, 0x37, 0, 0] false
          (([0xB1, 0, 0, 0x37, 0, 0, 0x37, 0, 0] : List Byte).length / 3 + 1)
          (initialState [] 0) ∧
    parse [0xB1, 0, 0, 0x37, 0, 0, 0x37, 0, 0] false [] 0 ≠ .diverged :=
  (parse_terminates_by_progress [0xB1, 0, 0, 0x37, 0, 0, 0x37, 0, 0] false [] 0
    (by decide)).2.2.2

/-! ## A buffer of `2 ^ 32` bytes on which the loop never ends -/

theorem flatten_replicate_length (n : Nat) (tile : List Byte) :
    (List.replicate n tile).flatten.length = n * tile.length := by
  induction n with
  | zero => simp
  | succ n ih =>
    rw [List.replicate_succ, List.flatten_cons, List.length_append, ih]
    rw [Nat.succ_mul]
    omega

theorem flatten_replicate_getElem? (n : Nat) (tile : List Byte) :
    ∀ i, i < n * tile.length → (List.replicate n tile).flatten[i]? = tile[i % tile.length]? := by
  induction n with
  | zero => intro i hi; simp at hi
  | succ n ih =>
    intro i hi
    rw [List.replicate_succ, List.flatten_cons]
    by_cases h : i < tile.length
    · rw [List.getElem?_append_left h, Nat.mod_eq_of_lt h]
    · have hle : tile.length ≤ i := by omega
      rw [List.getElem?_append_right hle, ih (i - tile.length) (by rw [Nat.succ_mul] at hi; omega),
        Nat.mod_eq_sub_mod hle]

theorem loopBuffer_length : loopBuffer.length = 4294967296 := by
  unfold loopBuffer
  rw [flatten_replicate_length]
  rfl

theorem loopBuffer_getElem? (i : Nat) (hi : i < UINT32_MOD) :
    loopBuffer[i]? = loopTile[i % 4]? := by
  unfold loopBuffer
  rw [flatten_replicate_getElem? 1073741824 loopTile i hi]
  rfl

theorem readBytes_index {buf : List Byte} {n i j : Nat} {bs : List Byte}
    (h : readBytes buf n i = .ok (bs, j)) (hi : i < UINT32_MOD) :
    j = (i + n) % UINT32_MOD := by
  induction n generalizing i bs with
  | zero =>
    rw [readBytes] at h
    cases h
    rw [Nat.add_zero, Nat.mod_eq_of_lt hi]
  | succ n ih =>
    rw [readBytes] at h
    cases h1 : readByte buf i with
    | error o => rw [h1] at h; cases h
    | ok v =>
      obtain ⟨b, i1⟩ := v
      rw [h1] at h
      simp only at h
      cases h2 : readBytes buf n i1 with
      | error o => rw [h2] at h; cases h
      | ok w =>
        obtain ⟨bs', j'⟩ := w
        rw [h2] at h
        cases h
        have hi1 : i1 = (i + 1) % UINT32_MOD := by
          unfold readByte at h1
          split at h1
          · cases h1; rfl
          · cases h1
        have := ih h2 (readByte_lt h1)
        rw [this, hi1]
        unfold UINT32_MOD
        omega

/-- With a buffer of at least `2 ^ 32` bytes every read of `n` bytes is in
range and leaves the cursor at `(i + n) % 2 ^ 32`. -/
theorem readBytes_full (buf : List Byte) (hM : UINT32_MOD ≤ buf.length) (n i : Nat)
    (hi : i < UINT32_MOD) :
    ∃ bs, readBytes buf n i = .ok (bs, (i + n) % UINT32_MOD) := by
  obtain ⟨bs, j, hr, -⟩ := readBytes_wrap buf hM n i hi
  refine ⟨bs, ?_⟩
  rw [hr, readBytes_index hr hi]

theorem readPayloadLength_long_get {buf : List Byte} {i : Nat} {b0 b1 b2 b3 : Byte}
    (h0 : buf[i]? = some b0) (h1 : buf[(i + 1) % UINT32_MOD]? = some b1)
    (h2 : buf[(i + 2) % UINT32_MOD]? = some b2) (h3 : buf[(i + 3) % UINT32_MOD]? = some b3) :
    readPayloadLength buf false i = .ok (be32 b0 b1 b2 b3, (i + 4) % UINT32_MOD) := by
  obtain ⟨l0, g0⟩ := List.getElem?_eq_some_iff.1 h0
  obtain ⟨l1, g1⟩ := List.getElem?_eq_some_iff.1 h1
  obtain ⟨l2, g2⟩ := List.getElem?_eq_some_iff.1 h2
  obtain ⟨l3, g3⟩ := List.getElem?_eq_some_iff.1 h3
  unfold readPayloadLength
  simp only [Bool.false_eq_true, if_false]
  rw [dif_pos l0, dif_pos l1, dif_pos l2, dif_pos l3, g0, g1, g2, g3]
  rfl

/-- The reads and checks of one iteration, put together: the converse of
`readFragment_ok`. -/
theorem readFragment_of_reads {buf : List Byte} {ign : Bool} {s : ParseState} {f : Fragment}
    (h : FragmentRead buf ign s f) : readFragment buf ign s = .ok f := by
  obtain ⟨flag, tb, i1, i2, i3, i4, i5, pl, idl, r1, hrej, r2, r3, r4, hty, r5, hsane, r6,
    e1, e2, e3, e4⟩ := h.ex
  unfold readFragment
  rw [r1]
  simp only
  rw [hrej]
  simp only [Bool.false_eq_true, if_false]
  rw [r2]
  simp only
  rw [r3]
  simp only
  rw [r4]
  simp only
  rw [hty]
  simp only [Bool.false_eq_true, if_false]
  rw [r5]
  simp only
  rw [hsane]
  simp only [Bool.not_true, Bool.false_eq_true, if_false]
  rw [r6]
  simp only
  cases f
  simp only at e1 e2 e3 e4
  subst e1 e2 e3 e4
  rfl

theorem loopBuffer_full : UINT32_MOD ≤ loopBuffer.length := by
  rw [loopBuffer_length]; decide

theorem loopBuffer_readByte (i : Nat) (hi : i < UINT32_MOD) (b : Byte)
    (hb : loopTile[i % 4]? = some b) :
    readByte loopBuffer i = .ok (b, (i + 1) % UINT32_MOD) :=
  readByte_of_getElem? ((loopBuffer_getElem? i hi).trans hb)

/-- The first iteration on `loopBuffer` from offset 3: the fragment starts
with the flags byte `0xA9` (`MB`, `CF`, `IL`, tnf `WellKnown`), has type length
`0x37`, the 4-byte payload length `00 01 A9 37`, id length 0, and ends at
index 108920, a multiple of 4. -/
theorem loopBuffer_first (ign : Bool) :
    ∃ type payload, readFragment loopBuffer ign (initialState [] 3) =
      .ok { mb := true, me := false, cf := true, tnf := 1, type := type, id := [],
            payload := payload, index := 108920 } := by
  have hs : initialState [] 3 = ⟨false, toUInt8 255, false, 3, []⟩ := rfl
  obtain ⟨ty, hty⟩ := readBytes_full loopBuffer loopBuffer_full 55 10 (by decide)
  obtain ⟨pl, hpl⟩ := readBytes_full loopBuffer loopBuffer_full 108855 65 (by decide)
  have r1 : readByte loopBuffer 3 = .ok (0xA9, 4) :=
    loopBuffer_readByte 3 (by decide) 0xA9 rfl
  have r2 : readByte loopBuffer 4 = .ok (0x37, 5) :=
    loopBuffer_readByte 4 (by decide) 0x37 rfl
  have r3 : readPayloadLength loopBuffer false 5 = .ok (108855, 9) :=
    @readPayloadLength_long_get loopBuffer 5 0 1 0xA9 0x37
      ((loopBuffer_getElem? 5 (by decide)).trans rfl)
      ((loopBuffer_getElem? 6 (by decide)).trans rfl)
      ((loopBuffer_getElem? 7 (by decide)).trans rfl)
      ((loopBuffer_getElem? 8 (by decide)).trans rfl)
  have r4 : readIdLength loopBuffer true 9 = .ok (0, 10) := by
    unfold readIdLength
    rw [if_pos rfl, loopBuffer_readByte 9 (by decide) 0 rfl]
    rfl
  have r5 : readTypeAndId loopBuffer false 55 0 10 = .ok (ty, [], 65) := by
    unfold readTypeAndId
    simp only [Bool.not_false, if_true]
    rw [hty]
    rfl
  refine ⟨ty, pl, readFragment_of_reads ⟨⟨0xA9, 0x37, 4, 5, 9, 10, 65, 108855, 0, ?_, ?_, ?_,
    ?_, ?_, ?_, ?_, ?_, ?_, rfl, rfl, rfl, rfl⟩⟩⟩
  · rw [hs]; exact r1
  · rw [hs]; cases ign <;> decide
  · exact r2
  · exact r3
  · exact r4
  · rw [hs]; rfl
  · rw [hs]; exact r5
  · decide
  · exact hpl

/-- An iteration on `loopBuffer` inside a chunk, with the cursor at a
multiple of 4: the fragment `37 00 01 A9` is read, and the cursor is 4 bytes
further, modulo `2 ^ 32`. -/
theorem loopBuffer_next (ign : Bool) (s : ParseState) (hc : s.inChunk = true)
    (h4 : s.index % 4 = 0) (hi : s.index < UINT32_MOD) :
    readFragment loopBuffer ign s =
      .ok { mb := false, me := false, cf := true, tnf := 7, type := [], id := [],
            payload := [0xA9], index := (s.index + 4) % UINT32_MOD } := by
  have hlt : s.index + 3 < UINT32_MOD := by unfold UINT32_MOD at hi ⊢; omega
  have m1 : (s.index + 1) % UINT32_MOD = s.index + 1 := Nat.mod_eq_of_lt (by omega)
  have m2 : (s.index + 1 + 1) % UINT32_MOD = s.index + 2 := Nat.mod_eq_of_lt (by omega)
  have m3 : (s.index + 2 + 1) % UINT32_MOD = s.index + 3 := Nat.mod_eq_of_lt (by omega)
  have r1 : readByte loopBuffer s.index = .ok (0x37, s.index + 1) := by
    rw [loopBuffer_readByte s.index hi 0x37 (by rw [h4]; rfl), m1]
  have r2 : readByte loopBuffer (s.index + 1) = .ok (0, s.index + 2) := by
    rw [loopBuffer_readByte (s.index + 1) (by omega) 0
      (by rw [show (s.index + 1) % 4 = 1 by omega]; rfl), m2]
  have r3 : readPayloadLength loopBuffer true (s.index + 2) = .ok (1, s.index + 3) := by
    unfold readPayloadLength
    rw [if_pos rfl, loopBuffer_readByte (s.index + 2) (by omega) 1
      (by rw [show (s.index + 2) % 4 = 2 by omega]; rfl), m3]
    rfl
  have r6 : readBytes loopBuffer 1 (s.index + 3)
      = .ok ([0xA9], (s.index + 4) % UINT32_MOD) := by
    rw [readBytes, loopBuffer_readByte (s.index + 3) hlt 0xA9
      (by rw [show (s.index + 3) % 4 = 3 by omega]; rfl)]
    rfl
  refine readFragment_of_reads ⟨⟨0x37, 0, s.index + 1, s.index + 2, s.index + 3,
    s.index + 3, s.index + 3, 1, 0, r1, ?_, r2, r3, rfl, ?_, ?_, ?_, r6, rfl, rfl, rfl, rfl⟩⟩
  · have fmb : (((0x37 : Byte).val &&& FLAG_MB) != 0) = false := by decide
    have fme : (((0x37 : Byte).val &&& FLAG_ME) != 0) = false := by decide
    have fcf : (((0x37 : Byte).val &&& FLAG_CF) != 0) = true := by decide
    have fil : (((0x37 : Byte).val &&& FLAG_IL) != 0) = false := by decide
    have ftnf : toUInt8 ((0x37 : Byte).val &&& 0x07) = TNF_UNCHANGED := by decide
    rw [hc, fmb, fme, fcf, fil, ftnf]
    cases ign <;> simp [headerRejected]
  · rw [hc]; rfl
  · rw [hc]; rfl
  · decide

theorem loopBuffer_loops (ign : Bool) (fuel : Nat) :
    ∀ s : ParseState, s.inChunk = true → s.me = false → s.index % 4 = 0 →
      s.index < UINT32_MOD → parseLoop loopBuffer ign fuel s = .diverged := by
  induction fuel with
  | zero => intro s _ hme _ _; exact parseLoop_zero hme
  | succ fuel ih =>
    intro s hc hme h4 hi
    have hb : parseBody loopBuffer ign s =
        .loop { inChunk := true, chunkTnf := if s.inChunk then s.chunkTnf else 7,
                me := false, index := (s.index + 4) % UINT32_MOD, records := s.records } := by
      rw [parseBody_of_readFragment (loopBuffer_next ign s hc h4 hi), completeFragment_cf rfl]
    rw [parseLoop_loop _ hme hb]
    apply ih
    · rfl
    · rfl
    · show (s.index + 4) % UINT32_MOD % 4 = 0
      unfold UINT32_MOD; omega
    · exact Nat.mod_lt _ (by decide)

/-- C23 as stated fails: `loopBuffer` is a finite buffer, of exactly `2 ^ 32`
bytes, on which `parse` started at offset 3 never ends, for both values of
`ignoreBeginEnd`.  Every read is in range; after the first fragment each
iteration reads one 4-byte fragment with `CF` set, and the `uint32_t` cursor
goes from `2 ^ 32 - 4` back to 0, where the next fragment starts. -/
theorem parse_never_ends_on_full_buffer :
    loopBuffer.length = 4294967296 ∧
    (∀ ignoreBeginEnd fuel,
      parseLoop loopBuffer ignoreBeginEnd fuel (initialState [] 3) = .diverged) ∧
    (∀ ignoreBeginEnd, parse loopBuffer ignoreBeginEnd [] 3 = .diverged) := by
  have key : ∀ ign fuel, parseLoop loopBuffer ign fuel (initialState [] 3) = .diverged := by
    intro ign fuel
    cases fuel with
    | zero => exact parseLoop_zero rfl
    | succ fuel =>
      obtain ⟨ty, pl, hf⟩ := loopBuffer_first ign
      have hb : parseBody loopBuffer ign (initialState [] 3) =
          .loop { inChunk := true,
                  chunkTnf := if (initialState [] 3).inChunk then
                    (initialState [] 3).chunkTnf else 1,
                  me := false, index := 108920, records := (initialState [] 3).records } := by
        rw [parseBody_of_readFragment hf, completeFragment_cf rfl]
      rw [parseLoop_loop _ rfl hb]
      exact loopBuffer_loops ign fuel _ rfl rfl (by decide) (by decide)
  refine ⟨loopBuffer_length, key, ?_⟩
  intro ign
  rw [parse_eq]
  exact key ign _

/-! ## What a failed parse leaves in the output -/

/-- A fragment that is read in full from `b ++ x` and ends past the end of
`b` cannot be read from `b`: the iteration indexes `b` out of range. -/
theorem readFragment_cut {b x : List Byte} {ign : Bool} {s : ParseState} {f : Fragment}
    (hM : b.length < UINT32_MOD) (hread : readFragment (b ++ x) ign s = .ok f)
    (hcut : b.length < f.index) : readFragment b ign s = .error .outOfRange := by
  rcases readFragment_append b x ign s with h | h
  · exact h
  · rw [hread] at h
    have := (readFragment_bound hM h.symm).2
    omega

theorem parseLoop_cut {b x : List Byte} {ign : Bool} (hM : (b ++ x).length < UINT32_MOD)
    (n : Nat) :
    ∀ (s0 s : ParseState) (f : Fragment) (fuel : Nat),
      stepsTo (b ++ x) ign n s0 = some s → s.me = false →
      readFragment (b ++ x) ign s = .ok f → b.length < f.index →
      parseLoop b ign (fuel + n + 1) s0 = .outOfRange := by
  have hb : b.length < UINT32_MOD := by
    rw [List.length_append] at hM; omega
  induction n with
  | zero =>
    intro s0 s f fuel hs hme hread hcut
    rw [stepsTo_zero] at hs
    cases hs
    exact parseLoop_exit _ hme (parseBody_of_error (readFragment_cut hb hread hcut))
  | succ n ih =>
    intro s0 s f fuel hs hme hread hcut
    obtain ⟨hme0, s', hbody, hs'⟩ := stepsTo_succ_inv hs
    rcases parseBody_append b x ign s0 with h | h
    · exact parseLoop_exit _ hme0 h
    · rw [hbody] at h
      have e : fuel + (n + 1) + 1 = (fuel + n + 1) + 1 := by omega
      rw [e, parseLoop_loop s' hme0 h.symm]
      exact ih s' s f fuel hs' hme hread hcut

/-- C4, amended. `parse` makes no bounds check: when it needs a byte at an
index at or past the end of the buffer it indexes the buffer out of range, and
the call is then neither a success nor a failure.  If `parse` on `b ++ x`, a
buffer shorter than `2 ^ 32` bytes, reads `n + 1` fragments in full and the
last of them ends past the end of `b`, then `parse` on `b` with the same
arguments makes an out-of-range access and returns neither `true` nor `false`
(first two parts).  So it does on every buffer that has no byte at the start
offset, the empty buffer included (third part), and on every proper cut of the
encoding of a well-formed record that is parsed in single-record mode or has
`MB` set (fourth part). -/
theorem truncated_input_out_of_range (b x : List Byte) (ignoreBeginEnd : Bool)
    (records : List NdefRecord) (offset : Int) (n : Nat) (s : ParseState) (f : Fragment)
    (hlen : (b ++ x).length < 2 ^ 32)
    (hreach : stepsTo (b ++ x) ignoreBeginEnd n (initialState records offset) = some s)
    (hme : s.me = false) (hread : readFragment (b ++ x) ignoreBeginEnd s = .ok f)
    (hcut : b.length < f.index) :
    parse b ignoreBeginEnd records offset = .outOfRange ∧
    (¬ ∃ res recs, parse b ignoreBeginEnd records offset = .returned res recs) ∧
    (∀ (buf : List Byte) (ign : Bool) (recs : List NdefRecord) (off : Int),
      buf.length ≤ (off % (UINT32_MOD : Int)).toNat →
      parse buf ign recs off = .outOfRange) ∧
    (∀ (r : NdefRecord) (mb me ign : Bool) (k : Nat), WellFormed r →
      ign = true ∨ mb = true → k < (wire r mb me).length →
      parse ((wire r mb me).take k) ign [] 0 = .outOfRange) := by
  have hM : (b ++ x).length < UINT32_MOD := by unfold UINT32_MOD; omega
  have hn : n + 1 ≤ 4398046511104 := by
    have h1 := stepsTo_progress hM hreach
    have h2 := (readFragment_bound hM hread).2
    have h3 := (readFragment_bound hM hread).1
    unfold UINT32_MOD at hM
    omega
  have key : parse b ignoreBeginEnd records offset = .outOfRange := by
    rw [parse_eq]
    have e : (4398046511103 + 1 : Nat) = (4398046511104 - (n + 1)) + n + 1 := by omega
    rw [e]
    exact parseLoop_cut hM n _ s f _ hreach hme hread hcut
  refine ⟨key, ?_, ?_, ?_⟩
  · rintro ⟨res, recs, hr⟩
    rw [key] at hr
    cases hr
  · intro buf ign recs off hlen'
    apply parse_out_of_range_of_readFragment
    unfold readFragment readByte
    simp only [initialState]
    rw [dif_neg (by omega)]
  · intro r mb me ign k hr hmb hk
    apply parse_out_of_range_of_readFragment
    have hlen' := wire_length_le hr mb me
    obtain ⟨hshape, hty, hid, hpl⟩ := hr
    have hfull := readFragment_wire (wire r mb me) ign (initialState [] 0) r mb me []
      (by simp [initialState]) (by simp only [initialState, UINT32_MOD]; simp; omega) rfl
      (by
        rcases hmb with h | h
        · exact Or.inl h
        · right; simp [h, initialState])
      hshape.1 hty hid (by omega)
    have hsplit : (wire r mb me).take k ++ (wire r mb me).drop k = wire r mb me :=
      List.take_append_drop _ _
    rw [← hsplit] at hfull
    apply readFragment_cut (x := (wire r mb me).drop k) _ hfull
    · simp only [initialState, List.length_take]
      simp
      omega
    · rw [List.length_take]; unfold UINT32_MOD; omega

theorem truncated_input_out_of_range_witness :
    parse [0x91, 0, 1, 7, 0x51, 1, 2, 5] false [] 0 = .outOfRange ∧
    ¬ ∃ res recs, parse [0x91, 0, 1, 7, 0x51, 1, 2, 5] false [] 0 = .returned res recs :=
  ⟨(truncated_input_out_of_range [0x91, 0, 1, 7, 0x51, 1, 2, 5] [6, 8] false [] 0 1
      ⟨false, 255, false, 4, [⟨1, [], [], [7]⟩]⟩ ⟨false, true, false, 1, [5], [], [6, 8], 10⟩
      (by decide) (by rw [initialState_zero]; exact stepsTo_succ_loop 0 _ rfl (by decide))
      rfl (by rfl) (by decide)).1,
   (truncated_input_out_of_range [0x91, 0, 1, 7, 0x51, 1, 2, 5] [6, 8] false [] 0 1
      ⟨false, 255, false, 4, [⟨1, [], [], [7]⟩]⟩ ⟨false, true, false, 1, [5], [], [6, 8], 10⟩
      (by decide) (by rw [initialState_zero]; exact stepsTo_succ_loop 0 _ rfl (by decide))
      rfl (by rfl) (by decide)).2.1⟩

/-! ## A header that declares a payload above the limit -/

theorem drop_length_eq {buf l : List Byte} {i : Nat} (h : buf.drop i = l) (hl : l ≠ []) :
    i + l.length = buf.length := by
  have h1 := congrArg List.length h
  rw [List.length_drop] at h1
  have h2 : 0 < l.length := List.length_pos.2 hl
  omega

theorem getElem?_of_drop {buf : List Byte} {i : Nat} {b : Byte} {rest : List Byte}
    (h : buf.drop i = b :: rest) : buf[i]? = some b := by
  obtain ⟨hi, hb, -⟩ := drop_cons_inv h
  rw [List.getElem?_eq_getElem hi, hb]

/-- The reads of the flags byte, the type length and the payload length, when
these bytes are in a buffer shorter than `2 ^ 32` bytes. -/
theorem header_reads {buf : List Byte} {i : Nat} {flag tlb : Byte}
    {lenBytes tail : List Byte} {pl : Nat} (hM : buf.length < UINT32_MOD)
    (hdrop : buf.drop i = flag :: tlb :: (lenBytes ++ tail))
    (hfield : LengthField ((flag.val &&& FLAG_SR) != 0) lenBytes pl) :
    readByte buf i = .ok (flag, i + 1) ∧
    readByte buf (i + 1) = .ok (tlb, i + 1 + 1) ∧
    readPayloadLength buf ((flag.val &&& FLAG_SR) != 0) (i + 1 + 1)
      = .ok (pl, i + 1 + 1 + lenBytes.length) ∧
    buf.drop (i + 1 + 1 + lenBytes.length) = tail ∧
    i + 1 + 1 + lenBytes.length + tail.length = buf.length := by
  have hl := drop_length_eq hdrop (by simp)
  simp only [List.length_cons, List.length_append] at hl
  obtain ⟨-, -, d1⟩ := drop_cons_inv hdrop
  obtain ⟨-, -, d2⟩ := drop_cons_inv d1
  refine ⟨readByte_drop hdrop (by omega), readByte_drop d1 (by omega), ?_,
    drop_append_inv lenBytes d2, by omega⟩
  unfold LengthField at hfield
  cases hsr : ((flag.val &&& FLAG_SR) != 0)
  · rw [hsr] at hfield
    simp only [Bool.false_eq_true, if_false] at hfield
    obtain ⟨b0, b1, b2, b3, hb, hbe⟩ := hfield
    subst hb
    simp only [List.length_cons, List.length_nil] at hl ⊢
    rw [readPayloadLength_long (by simpa using d2) (by omega), hbe]
  · rw [hsr] at hfield
    simp only [if_true] at hfield
    obtain ⟨b, hb, hbe⟩ := hfield
    subst hb
    simp only [List.length_cons, List.length_nil] at hl ⊢
    rw [readPayloadLength_short (by simpa using d2) (by omega), hbe]

theorem lengthField_big {sr : Bool} {lenBytes : List Byte} {pl : Nat}
    (hfield : LengthField sr lenBytes pl) (hbig : 255 < pl) :
    sr = false ∧ lenBytes.length = 4 := by
  unfold LengthField at hfield
  cases sr
  · simp only [Bool.false_eq_true, if_false] at hfield
    obtain ⟨b0, b1, b2, b3, hb, -⟩ := hfield
    subst hb
    exact ⟨rfl, rfl⟩
  · simp only [if_true] at hfield
    obtain ⟨b, -, hbe⟩ := hfield
    have := b.isLt
    omega

theorem readTypeAndId_bound {buf : List Byte} {tl idl i j : Nat} {ty id : List Byte}
    (hM : buf.length < UINT32_MOD) (hi : i ≤ buf.length)
    (h : readTypeAndId buf false tl idl i = .ok (ty, id, j)) :
    j = i + tl + idl ∧ j ≤ buf.length := by
  unfold readTypeAndId at h
  simp only [Bool.not_false, if_true] at h
  cases h1 : readBytes buf tl i with
  | error o => rw [h1] at h; cases h
  | ok v =>
    obtain ⟨ty', i1⟩ := v
    rw [h1] at h
    simp only at h
    cases h2 : readBytes buf idl i1 with
    | error o => rw [h2] at h; cases h
    | ok w =>
      obtain ⟨id', i2⟩ := w
      rw [h2] at h
      simp only [Except.ok.injEq, Prod.mk.injEq] at h
      obtain ⟨-, -, e⟩ := h
      subst e
      obtain ⟨a1, a2, -⟩ := readBytes_bound hM hi h1
      obtain ⟨b1, b2, -⟩ := readBytes_bound hM a2 h2
      exact ⟨by omega, b2⟩

/-- A leading fragment whose header checks pass and whose announced type and
id bytes are not all in the buffer: the iteration reads out of range. -/
theorem readFragment_type_id_missing {buf : List Byte} {ign : Bool} {s : ParseState}
    {flag tlb : Byte} {lenBytes tail : List Byte} {pl : Nat}
    (hM : buf.length < UINT32_MOD)
    (hdrop : buf.drop s.index = flag :: tlb :: (lenBytes ++ tail))
    (hfield : LengthField ((flag.val &&& FLAG_SR) != 0) lenBytes pl)
    (hc : s.inChunk = false)
    (hrej : headerRejected ign s.inChunk s.records ((flag.val &&& FLAG_MB) != 0)
      ((flag.val &&& FLAG_ME) != 0) ((flag.val &&& FLAG_CF) != 0)
      ((flag.val &&& FLAG_IL) != 0) (toUInt8 (flag.val &&& 0x07)) = false)
    (hshort : (((flag.val &&& FLAG_IL) != 0) = false ∧ tail.length < tlb.val) ∨
      (((flag.val &&& FLAG_IL) != 0) = true ∧
        (tail = [] ∨ ∃ b t, tail = b :: t ∧ t.length < tlb.val + b.val))) :
    readFragment buf ign s = .error .outOfRange := by
  obtain ⟨r1, r2, r3, dtail, hl⟩ := header_reads hM hdrop hfield
  have hty : (s.inChunk && (tlb.val &&& 0xFF) != 0) = false := by rw [hc]; rfl
  have hnot : ∀ idl i4, i4 ≤ buf.length → buf.length < i4 + tlb.val + idl →
      readTypeAndId buf s.inChunk (tlb.val &&& 0xFF) idl i4 = .error .outOfRange := by
    intro idl i4 h1 h2
    rw [hc, and_255]
    cases h5 : readTypeAndId buf false tlb.val idl i4 with
    | error o => rw [readTypeAndId_error h5]
    | ok v =>
      obtain ⟨ty, id, j⟩ := v
      have := readTypeAndId_bound hM h1 h5
      omega
  unfold readFragment
  rw [r1]
  simp only
  rw [hrej]
  simp only [Bool.false_eq_true, if_false]
  rw [r2]
  simp only
  rw [r3]
  simp only
  rcases hshort with ⟨hil, ht⟩ | ⟨hil, ht⟩
  · rw [hil]
    simp only [readIdLength, Bool.false_eq_true, if_false]
    rw [hty]
    simp only [Bool.false_eq_true, if_false]
    rw [hnot 0 _ (by omega) (by omega)]
  · rw [hil]
    rcases ht with ht | ⟨b, t, ht, hlt⟩
    · subst ht
      have hr : readByte buf (s.index + 1 + 1 + lenBytes.length) = .error .outOfRange := by
        unfold readByte
        rw [dif_neg (by simp only [List.length_nil] at hl; omega)]
      simp only [readIdLength, if_true]
      rw [hr]
    · subst ht
      have hr : readByte buf (s.index + 1 + 1 + lenBytes.length)
          = .ok (b, s.index + 1 + 1 + lenBytes.length + 1) :=
        readByte_drop dtail (by simp only [List.length_cons] at hl; omega)
      simp only [readIdLength, if_true]
      rw [hr]
      simp only
      rw [hty]
      simp only [Bool.false_eq_true, if_false]
      rw [hnot _ _ (by simp only [List.length_cons] at hl; omega)
        (by rw [and_255]; simp only [List.length_cons] at hl; omega)]

/-- A continuation fragment whose header bytes are in the buffer and declare a
payload above the limit: the iteration returns `false`. -/
theorem readFragment_oversize_chunk {buf : List Byte} {ign : Bool} {s : ParseState}
    {flag tlb : Byte} {lenBytes tail : List Byte} {pl : Nat}
    (hM : buf.length < UINT32_MOD)
    (hdrop : buf.drop s.index = flag :: tlb :: (lenBytes ++ tail))
    (hfield : LengthField ((flag.val &&& FLAG_SR) != 0) lenBytes pl)
    (hbig : 10485760 < pl) (hc : s.inChunk = true) :
    readFragment buf ign s = .error (.returned false s.records) := by
  obtain ⟨hsr, hl4⟩ := lengthField_big hfield (by omega)
  have hl := drop_length_eq hdrop (by simp)
  simp only [List.length_cons, List.length_append] at hl
  by_cases htl : tlb.val = 0
  · by_cases hrej : headerRejected ign s.inChunk s.records ((flag.val &&& FLAG_MB) != 0)
        ((flag.val &&& FLAG_ME) != 0) ((flag.val &&& FLAG_CF) != 0)
        ((flag.val &&& FLAG_IL) != 0) (toUInt8 (flag.val &&& 0x07)) = true
    · exact readFragment_header_rejected
        (getElem?_of_drop hdrop) hrej
    · have hrej' := Bool.eq_false_iff.2 hrej
      have hil : ((flag.val &&& FLAG_IL) != 0) = false := by
        rw [hc] at hrej'
        exact headerRejected_il_false hrej'
      rw [readFragment_fields ign s flag tlb lenBytes [] [] [] tail
        (by simpa using hdrop) (by simp only [List.length_nil]; omega) hrej' hfield
        (by rw [hil]; exact ⟨rfl, rfl⟩) (by simpa using htl) (fun _ => ⟨rfl, rfl⟩),
        ensureSanePayloadSize_eq]
      have : ¬ pl ≤ 10485760 := by omega
      simp [this]
  · exact readFragment_chunk_type hc hdrop (by rw [hsr, hl4]; rfl) (by omega) htl

/-- A fragment whose header, type and id bytes are in the buffer and whose
header declares a payload above the limit: the iteration returns `false`. -/
theorem readFragment_oversize_present {buf : List Byte} {ign : Bool} {s : ParseState}
    {flag tlb : Byte} {lenBytes idBytes type id rest : List Byte} {pl : Nat}
    (hM : buf.length < UINT32_MOD)
    (hdrop : buf.drop s.index = flag :: tlb :: (lenBytes ++ (idBytes ++ (type ++ (id ++ rest)))))
    (hfield : LengthField ((flag.val &&& FLAG_SR) != 0) lenBytes pl)
    (hid : IdLengthField ((flag.val &&& FLAG_IL) != 0) idBytes id.length)
    (htl : tlb.val = type.length)
    (hbig : 10485760 < pl) (hc : s.inChunk = false) :
    readFragment buf ign s = .error (.returned false s.records) := by
  have hl := drop_length_eq hdrop (by simp)
  simp only [List.length_cons, List.length_append] at hl
  by_cases hrej : headerRejected ign s.inChunk s.records ((flag.val &&& FLAG_MB) != 0)
      ((flag.val &&& FLAG_ME) != 0) ((flag.val &&& FLAG_CF) != 0)
      ((flag.val &&& FLAG_IL) != 0) (toUInt8 (flag.val &&& 0x07)) = true
  · exact readFragment_header_rejected
      (getElem?_of_drop hdrop) hrej
  · have hrej' := Bool.eq_false_iff.2 hrej
    rw [readFragment_fields ign s flag tlb lenBytes idBytes type id rest hdrop (by omega)
      hrej' hfield hid htl (by intro h; rw [hc] at h; cases h), ensureSanePayloadSize_eq]
    have : ¬ pl ≤ 10485760 := by omega
    simp [this]

/-- C5, amended. A record with `MB` and `ME`, tnf `WellKnown` and a payload of
exactly `10 * 2 ^ 20` bytes parses to that one record (last part).  In a
buffer shorter than `2 ^ 32` bytes, a fragment reached by `parse` whose header
bytes (flags, type length, payload length) are in the buffer and declare a
payload length above `10 * 2 ^ 20` is never read in full, and the call ends at
it with `return false` or with an out-of-range read (first two parts).  It is
`return false` when a header check fails, when the fragment is a continuation
fragment, and when the id-length byte and the type and id bytes that the
header announces are in the buffer, as they are read before the size check
(third to fifth part).  It is an out-of-range read when the fragment is a
leading one, its header checks pass, and the buffer ends before the id-length
byte or inside the announced type and id bytes (sixth part). -/
theorem payload_size_limit (buf : List Byte) (ignoreBeginEnd : Bool)
    (records : List NdefRecord) (offset : Int) (n : Nat) (s : ParseState) (flag tlb : Byte)
    (lenBytes tail : List Byte) (pl : Nat)
    (hlen : buf.length < 2 ^ 32)
    (hreach : stepsTo buf ignoreBeginEnd n (initialState records offset) = some s)
    (hme : s.me = false)
    (hdrop : buf.drop s.index = flag :: tlb :: (lenBytes ++ tail))
    (hfield : LengthField ((flag.val &&& FLAG_SR) != 0) lenBytes pl)
    (hbig : 10 * 2 ^ 20 < pl) :
    (∀ f, readFragment buf ignoreBeginEnd s ≠ .ok f) ∧
    (parse buf ignoreBeginEnd records offset = .returned false s.records ∨
      parse buf ignoreBeginEnd records offset = .outOfRange) ∧
    (headerRejected ignoreBeginEnd s.inChunk s.records ((flag.val &&& FLAG_MB) != 0)
        ((flag.val &&& FLAG_ME) != 0) ((flag.val &&& FLAG_CF) != 0)
        ((flag.val &&& FLAG_IL) != 0) (toUInt8 (flag.val &&& 0x07)) = true →
      parse buf ignoreBeginEnd records offset = .returned false s.records) ∧
    (s.inChunk = true →
      parse buf ignoreBeginEnd records offset = .returned false s.records) ∧
    (∀ idBytes type id rest : List Byte, s.inChunk = false →
      tail = idBytes ++ (type ++ (id ++ rest)) →
      IdLengthField ((flag.val &&& FLAG_IL) != 0) idBytes id.length →
      tlb.val = type.length →
      parse buf ignoreBeginEnd records offset = .returned false s.records) ∧
    (s.inChunk = false →
      headerRejected ignoreBeginEnd s.inChunk s.records ((flag.val &&& FLAG_MB) != 0)
        ((flag.val &&& FLAG_ME) != 0) ((flag.val &&& FLAG_CF) != 0)
        ((flag.val &&& FLAG_IL) != 0) (toUInt8 (flag.val &&& 0x07)) = false →
      ((((flag.val &&& FLAG_IL) != 0) = false ∧ tail.length < tlb.val) ∨
        (((flag.val &&& FLAG_IL) != 0) = true ∧
          (tail = [] ∨ ∃ b t, tail = b :: t ∧ t.length < tlb.val + b.val))) →
      parse buf ignoreBeginEnd records offset = .outOfRange) ∧
    (∀ type id payload : List Byte, type.length ≤ 255 → id.length ≤ 255 →
      payload.length = 10 * 2 ^ 20 →
      parse (wire ⟨TNF_WELL_KNOWN, type, id, payload⟩ true true) false [] 0
        = .returned true [⟨TNF_WELL_KNOWN, type, id, payload⟩]) := by
  have hM : buf.length < UINT32_MOD := by unfold UINT32_MOD; omega
  have hbig' : 10485760 < pl := by omega
  have hnever : ∀ f, readFragment buf ignoreBeginEnd s ≠ .ok f := by
    intro f hf
    obtain ⟨flag', tb, i1, i2, i3, i4, i5, pl', idl, r1, -, r2, r3, -, -, -, hsane, -⟩ :=
      (readFragment_ok hf).ex
    obtain ⟨q1, q2, q3, -, -⟩ := header_reads hM hdrop hfield
    rw [q1] at r1
    simp only [Except.ok.injEq, Prod.mk.injEq] at r1
    obtain ⟨e1, e2⟩ := r1
    subst e1; subst e2
    rw [q2] at r2
    simp only [Except.ok.injEq, Prod.mk.injEq] at r2
    obtain ⟨e1, e2⟩ := r2
    subst e1; subst e2
    rw [q3] at r3
    simp only [Except.ok.injEq, Prod.mk.injEq] at r3
    obtain ⟨e1, -⟩ := r3
    subst e1
    rw [ensureSanePayloadSize_eq] at hsane
    simp only [decide_eq_true_eq] at hsane
    omega
  have hexit : ∀ o, readFragment buf ignoreBeginEnd s = .error o →
      parse buf ignoreBeginEnd records offset = o :=
    fun o ho => parse_of_stepsTo_exit hreach hme (parseBody_of_error ho)
  refine ⟨hnever, ?_, ?_, ?_, ?_, ?_, ?_⟩
  · cases hf : readFragment buf ignoreBeginEnd s with
    | error o =>
      rcases readFragment_error hf with h | h
      · subst h; exact Or.inr (hexit _ hf)
      · subst h; exact Or.inl (hexit _ hf)
    | ok f => exact absurd hf (hnever f)
  · intro hrej
    exact hexit _ (readFragment_header_rejected (getElem?_of_drop hdrop) hrej)
  · intro hc
    exact hexit _ (readFragment_oversize_chunk hM hdrop hfield hbig' hc)
  · intro idBytes type id rest hc htail hid htl
    subst htail
    exact hexit _ (readFragment_oversize_present hM hdrop hfield hid htl hbig' hc)
  · intro hc hrej hshort
    exact hexit _ (readFragment_type_id_missing hM hdrop hfield hc hrej hshort)
  · intro type id payload hty hid hpl
    have hshape : TnfShape ⟨TNF_WELL_KNOWN, type, id, payload⟩ := by
      refine ⟨?_, ?_, ?_⟩
      · show TNF_WELL_KNOWN.val ≤ 6
        decide
      · intro h
        have h' : TNF_WELL_KNOWN = TNF_EMPTY := h
        exact absurd h' (by decide)
      · intro h
        have h' : TNF_WELL_KNOWN = TNF_UNKNOWN ∨ TNF_WELL_KNOWN = TNF_RESERVED := h
        exact absurd h' (by decide)
    have hw : WellFormed ⟨TNF_WELL_KNOWN, type, id, payload⟩ :=
      ⟨hshape, hty, hid, by simp only; omega⟩
    have hlen' := wire_length_le hw true true
    rw [parse_eq, initialState_zero]
    have hb := parseBody_wire (wire ⟨TNF_WELL_KNOWN, type, id, payload⟩ true true) false
      { inChunk := false, chunkTnf := toUInt8 255, me := false, index := 0, records := [] }
      ⟨TNF_WELL_KNOWN, type, id, payload⟩ true true [] (by simp)
      (by simp only [UINT32_MOD]; omega) rfl (Or.inr (by simp)) hshape hty hid
      (by simp only; omega)
    simp only [Bool.false_eq_true, if_false] at hb
    rw [parseLoop_loop _ rfl hb, parseLoop_me rfl]
    simp

theorem payload_size_limit_witness :
    parse [0x91, 0, 0, 0x41, 1, 0x00, 0xA0, 0x00, 0x01, 9] false [] 0
      = .returned false [⟨1, [], [], []⟩] ∧
    parse (wire ⟨TNF_WELL_KNOWN, [], [], List.replicate (10 * 2 ^ 20) 0⟩ true true) false [] 0
      = .returned true [⟨TNF_WELL_KNOWN, [], [], List.replicate (10 * 2 ^ 20) 0⟩] :=
  ⟨(payload_size_limit [0x91, 0, 0, 0x41, 1, 0x00, 0xA0, 0x00, 0x01, 9] false [] 0 1
      ⟨false, 255, false, 3, [⟨1, [], [], []⟩]⟩ 0x41 1 [0x00, 0xA0, 0x00, 0x01] [9] 10485761
      (by decide) (by rw [initialState_zero]; exact stepsTo_succ_loop 0 _ rfl (by decide))
      rfl rfl (show LengthField false [0x00, 0xA0, 0x00, 0x01] 10485761 from
        ⟨0, 0xA0, 0, 1, rfl, by decide⟩) (by decide)).2.2.2.2.1 [] [9] [] [] rfl rfl
      ⟨rfl, rfl⟩ rfl,
   (payload_size_limit [0x91, 0, 0, 0x41, 1, 0x00, 0xA0, 0x00, 0x01, 9] false [] 0 1
      ⟨false, 255, false, 3, [⟨1, [], [], []⟩]⟩ 0x41 1 [0x00, 0xA0, 0x00, 0x01] [9] 10485761
      (by decide) (by rw [initialState_zero]; exact stepsTo_succ_loop 0 _ rfl (by decide))
      rfl rfl (show LengthField false [0x00, 0xA0, 0x00, 0x01] 10485761 from
        ⟨0, 0xA0, 0, 1, rfl, by decide⟩) (by decide)).2.2.2.2.2.2 [] []
      (List.replicate (10 * 2 ^ 20) 0) (by decide) (by decide) (List.length_replicate _ _)⟩

/-! ## The flags byte of a serialized record -/

/-- C12. Serialized flags byte: for a record with tnf in 0..7 the first byte
that `writeToByteBuffer` pushes is
`(isFirst ? 0x80 : 0) | (isLast ? 0x40 : 0) | (SR ? 0x10 : 0) | (IL ? 0x08 : 0) | tnf`
with `SR` iff the payload is shorter than 256 bytes and `IL` iff the id is not
empty, and its `CF` bit is clear.  It is the byte that stands right after the
initial content of the buffer once lines 223 to 243 have run, for every
record.  The call returns exactly when type, id and payload are each shorter
than `2 ^ 32` bytes, and the buffer it leaves is the initial content followed
by this byte and the rest of the encoding. -/
theorem flags_byte_written (r : NdefRecord) (buf : List Byte) (isFirst isLast : Bool)
    (htnf : r.mTnf.val ≤ 7) :
    ∃ flag : Byte,
      flag.val = specFlags r isFirst isLast ∧ flag.val &&& 0x20 = 0 ∧
      (writeHeader r buf isFirst isLast)[buf.length]? = some flag ∧
      (r.mType.length < 2 ^ 32 → r.mId.length < 2 ^ 32 → r.mPayload.length < 2 ^ 32 →
        ∃ rest, writeToByteBuffer r buf isFirst isLast = some (buf ++ flag :: rest)) ∧
      (∀ out, writeToByteBuffer r buf isFirst isLast = some out →
        out[buf.length]? = some flag) ∧
      ((∃ out, writeToByteBuffer r buf isFirst isLast = some out) ↔
        (r.mType.length < 2 ^ 32 ∧ r.mId.length < 2 ^ 32 ∧ r.mPayload.length < 2 ^ 32)) := by
  have hM : (2 : Nat) ^ 32 = UINT32_MOD := by unfold UINT32_MOD; norm_num
  have hl := flags_lt isFirst isLast (decide (r.mPayload.length < 256))
    (decide (r.mId.length > 0)) ⟨r.mTnf.val, by omega⟩
  simp only at hl
  have hret : ∀ out, writeToByteBuffer r buf isFirst isLast = some out →
      out = buf ++ wire r isFirst isLast := by
    intro out hout
    obtain ⟨h1, h2, h3⟩ := (writeToByteBuffer_returns_iff r buf isFirst isLast).1 ⟨out, hout⟩
    rw [writeToByteBuffer_eq r buf isFirst isLast h1 h2 h3] at hout
    exact (Option.some.inj hout).symm
  refine ⟨wireFlags r isFirst isLast, ?_, ?_, ?_, ?_, ?_, ?_⟩
  · rw [specFlags_eq]
    unfold wireFlags
    rw [toUInt8_val]
    exact Nat.mod_eq_of_lt hl.1
  · have h2 := hl.2
    unfold wireFlags
    rw [toUInt8_val, Nat.mod_eq_of_lt hl.1]
    exact h2
  · rw [writeHeader_eq]
    exact getElem?_append_cons _ _ _
  · intro h1 h2 h3
    exact ⟨_, writeToByteBuffer_eq r buf isFirst isLast (by omega) (by omega) (by omega)⟩
  · intro out hout
    rw [hret out hout]
    exact getElem?_append_cons _ _ _
  · rw [hM]
    exact writeToByteBuffer_returns_iff r buf isFirst isLast

theorem flags_byte_written_witness :
    writeToByteBuffer ⟨1, [5], [9], [7, 8]⟩ [3] true false
      = some [3, 0x99, 1, 2, 1, 5, 9, 7, 8] ∧
    ∃ flag : Byte,
      flag.val = specFlags ⟨1, [5], [9], [7, 8]⟩ true false ∧ flag.val &&& 0x20 = 0 ∧
      (writeHeader ⟨1, [5], [9], [7, 8]⟩ [3] true false)[[(3 : Byte)].length]? = some flag ∧
      ((⟨1, [5], [9], [7, 8]⟩ : NdefRecord).mType.length < 2 ^ 32 →
        (⟨1, [5], [9], [7, 8]⟩ : NdefRecord).mId.length < 2 ^ 32 →
        (⟨1, [5], [9], [7, 8]⟩ : NdefRecord).mPayload.length < 2 ^ 32 →
        ∃ rest, writeToByteBuffer ⟨1, [5], [9], [7, 8]⟩ [3] true false
          = some ([3] ++ flag :: rest)) ∧
      (∀ out, writeToByteBuffer ⟨1, [5], [9], [7, 8]⟩ [3] true false = some out →
        out[[(3 : Byte)].length]? = some flag) ∧
      ((∃ out, writeToByteBuffer ⟨1, [5], [9], [7, 8]⟩ [3] true false = some out) ↔
        ((⟨1, [5], [9], [7, 8]⟩ : NdefRecord).mType.length < 2 ^ 32 ∧
          (⟨1, [5], [9], [7, 8]⟩ : NdefRecord).mId.length < 2 ^ 32 ∧
          (⟨1, [5], [9], [7, 8]⟩ : NdefRecord).mPayload.length < 2 ^ 32)) :=
  ⟨by decide, flags_byte_written ⟨1, [5], [9], [7, 8]⟩ [3] true false (by decide)⟩

/-! ## Continuation fragments -/

theorem readPayloadLength_end {buf : List Byte} {sr : Bool} {i j pl : Nat}
    (hM : buf.length < UINT32_MOD) (h : readPayloadLength buf sr i = .ok (pl, j)) :
    i + (if sr = true then 1 else 4) ≤ buf.length := by
  unfold readPayloadLength at h
  cases sr
  · simp only [Bool.false_eq_true, if_false] at h ⊢
    split at h
    · rename_i h0
      split at h
      · rename_i h1
        split at h
        · rename_i h2
          split at h
          · rename_i h3
            unfold UINT32_MOD at hM h1 h2 h3
            omega
          · cases h
        · cases h
      · cases h
    · cases h
  · simp only [if_true] at h ⊢
    cases hb : readByte buf i with
    | error o => rw [hb] at h; cases h
    | ok v =>
      obtain ⟨b, i1⟩ := v
      have := (readByte_bound hM hb).1
      omega

/-- A continuation fragment that declares a type: the iteration returns
`false` once the payload-length field has been read. -/
theorem readFragment_chunk_type_lt {buf : List Byte} {ign : Bool} {s : ParseState}
    {flag tlb : Byte} {lenBytes rest : List Byte}
    (hM : buf.length < UINT32_MOD) (hc : s.inChunk = true)
    (hdrop : buf.drop s.index = flag :: tlb :: (lenBytes ++ rest))
    (hlen : lenBytes.length = if ((flag.val &&& FLAG_SR) != 0) = true then 1 else 4)
    (htl : tlb.val ≠ 0) :
    readFragment buf ign s = .error (.returned false s.records) := by
  by_cases hrej : headerRejected ign s.inChunk s.records ((flag.val &&& FLAG_MB) != 0)
      ((flag.val &&& FLAG_ME) != 0) ((flag.val &&& FLAG_CF) != 0)
      ((flag.val &&& FLAG_IL) != 0) (toUInt8 (flag.val &&& 0x07)) = true
  · exact readFragment_header_rejected (getElem?_of_drop hdrop) hrej
  · have hrej' := Bool.eq_false_iff.2 hrej
    have hil : ((flag.val &&& FLAG_IL) != 0) = false := by
      rw [hc] at hrej'
      exact headerRejected_il_false hrej'
    have hfield : ∃ pl, LengthField ((flag.val &&& FLAG_SR) != 0) lenBytes pl := by
      unfold LengthField
      cases hsr : ((flag.val &&& FLAG_SR) != 0)
      · rw [hsr] at hlen
        simp only [Bool.false_eq_true, if_false] at hlen ⊢
        match lenBytes, hlen with
        | [b0, b1, b2, b3], _ => exact ⟨_, b0, b1, b2, b3, rfl, rfl⟩
      · rw [hsr] at hlen
        simp only [if_true] at hlen ⊢
        match lenBytes, hlen with
        | [b], _ => exact ⟨_, b, rfl, rfl⟩
    obtain ⟨pl, hfield⟩ := hfield
    obtain ⟨r1, r2, r3, -, -⟩ := header_reads hM hdrop hfield
    have hty : (s.inChunk && (tlb.val &&& 0xFF) != 0) = true := by
      rw [hc, and_255]
      simp [htl]
    unfold readFragment
    rw [r1]
    simp only
    rw [hrej']
    simp only [Bool.false_eq_true, if_false]
    rw [r2]
    simp only
    rw [r3]
    simp only
    rw [hil]
    simp only [readIdLength, Bool.false_eq_true, if_false]
    rw [hty]
    simp only [if_true]

/-- A fragment whose header checks pass and whose type-length byte or
payload-length field is not wholly in the buffer: the iteration reads out of
range. -/
theorem readFragment_header_missing {buf : List Byte} {ign : Bool} {s : ParseState}
    {flag : Byte} (hM : buf.length < UINT32_MOD) (hflag : buf[s.index]? = some flag)
    (hrej : headerRejected ign s.inChunk s.records ((flag.val &&& FLAG_MB) != 0)
      ((flag.val &&& FLAG_ME) != 0) ((flag.val &&& FLAG_CF) != 0)
      ((flag.val &&& FLAG_IL) != 0) (toUInt8 (flag.val &&& 0x07)) = false)
    (hshort : buf.length < s.index + 2
      + (if ((flag.val &&& FLAG_SR) != 0) = true then 1 else 4)) :
    readFragment buf ign s = .error .outOfRange := by
  obtain ⟨hlt, -⟩ := List.getElem?_eq_some_iff.1 hflag
  have r1 : readByte buf s.index = .ok (flag, s.index + 1) := by
    rw [readByte_of_getElem? hflag, Nat.mod_eq_of_lt (by omega)]
  unfold readFragment
  rw [r1]
  simp only
  rw [hrej]
  simp only [Bool.false_eq_true, if_false]
  cases h2 : readByte buf (s.index + 1) with
  | error o => rw [readByte_error h2]
  | ok v =>
    obtain ⟨tb, i2⟩ := v
    obtain ⟨-, e2⟩ := readByte_bound hM h2
    subst e2
    simp only
    cases h3 : readPayloadLength buf ((flag.val &&& FLAG_SR) != 0) (s.index + 1 + 1) with
    | error o => rw [readPayloadLength_error h3]
    | ok w =>
      obtain ⟨pl, i3⟩ := w
      have := readPayloadLength_end hM h3
      omega

/-- C18, amended. A fragment that follows a `CF`-set fragment, and whose
flags byte is in the buffer, makes `parse` return `false`, for both values of
`ignoreBeginEnd`, when its `IL` bit is set, and more generally when one of
the header checks of lines 74 to 92 fails (first two parts).  In a buffer
shorter than `2 ^ 32` bytes it also makes `parse` return `false` when its
type-length byte is not zero and the payload-length field that follows this
byte (one byte with `SR`, four without) is in the buffer: that field is read
at lines 96 to 104, before the type length is checked at line 107 (third
part).  When the header checks pass and the buffer ends before the end of the
payload-length field, `parse` reads out of range instead, whatever the
type-length byte is (fourth part). -/
theorem continuation_id_type_rejected (buf : List Byte) (ignoreBeginEnd : Bool)
    (records : List NdefRecord) (offset : Int) (n : Nat) (p : ParseState) (f : Fragment)
    (flag : Byte)
    (hreach : stepsTo buf ignoreBeginEnd n (initialState records offset) = some p)
    (hme : p.me = false) (hread : readFragment buf ignoreBeginEnd p = .ok f)
    (hcf : f.cf = true) (hflag : buf[f.index]? = some flag) :
    (flag.val &&& FLAG_IL ≠ 0 →
      parse buf ignoreBeginEnd records offset = .returned false p.records) ∧
    (headerRejected ignoreBeginEnd true p.records ((flag.val &&& FLAG_MB) != 0)
        ((flag.val &&& FLAG_ME) != 0) ((flag.val &&& FLAG_CF) != 0)
        ((flag.val &&& FLAG_IL) != 0) (toUInt8 (flag.val &&& 0x07)) = true →
      parse buf ignoreBeginEnd records offset = .returned false p.records) ∧
    (buf.length < 2 ^ 32 → ∀ (tlb : Byte) (lenBytes rest : List Byte),
      buf.drop f.index = flag :: tlb :: (lenBytes ++ rest) →
      (lenBytes.length = if ((flag.val &&& FLAG_SR) != 0) = true then 1 else 4) →
      tlb.val ≠ 0 →
      parse buf ignoreBeginEnd records offset = .returned false p.records) ∧
    (buf.length < 2 ^ 32 →
      headerRejected ignoreBeginEnd true p.records ((flag.val &&& FLAG_MB) != 0)
        ((flag.val &&& FLAG_ME) != 0) ((flag.val &&& FLAG_CF) != 0)
        ((flag.val &&& FLAG_IL) != 0) (toUInt8 (flag.val &&& 0x07)) = false →
      buf.length < f.index + 2 + (if ((flag.val &&& FLAG_SR) != 0) = true then 1 else 4) →
      parse buf ignoreBeginEnd records offset = .outOfRange) := by
  have hM : (2 : Nat) ^ 32 = UINT32_MOD := by unfold UINT32_MOD; norm_num
  obtain ⟨s', hs', hc', hme', hi', hr'⟩ := stepsTo_after_chunk hreach hme hread hcf
  refine ⟨?_, ?_, ?_, ?_⟩
  · intro hil
    rw [← hr']
    apply parse_header_rejected hs' hme' (by rw [hi']; exact hflag)
    rw [hc', bit_set hil]
    exact headerRejected_of_il _ _ _ _ _ _
  · intro hrej
    rw [← hr']
    apply parse_header_rejected hs' hme' (by rw [hi']; exact hflag)
    rw [hc', hr']
    exact hrej
  · intro hlen tlb lenBytes rest hdrop hl htl
    rw [← hr']
    exact parse_of_stepsTo_exit hs' hme'
      (parseBody_of_error (readFragment_chunk_type_lt (by omega) hc'
        (by rw [hi']; exact hdrop) hl htl))
  · intro hlen hrej hshort
    exact parse_of_stepsTo_exit hs' hme'
      (parseBody_of_error (readFragment_header_missing (by omega)
        (by rw [hi']; exact hflag) (by rw [hc', hr']; exact hrej)
        (by rw [hi']; exact hshort)))

theorem continuation_id_type_rejected_witness :
    parse [0xB1, 0, 0, 0x57, 1, 0] false [] 0 = .returned false [] ∧
    parse [0xB1, 0, 0, 0x57, 1] false [] 0 = .outOfRange :=
  ⟨(continuation_id_type_rejected [0xB1, 0, 0, 0x57, 1, 0] false [] 0 0
      ⟨false, 255, false, 0, []⟩ ⟨true, false, true, 1, [], [], [], 3⟩ 0x57 rfl rfl (by rfl)
      rfl (by decide)).2.2.1 (by decide) 1 [0] [] (by decide) (by decide) (by decide),
   (continuation_id_type_rejected [0xB1, 0, 0, 0x57, 1] false [] 0 0
      ⟨false, 255, false, 0, []⟩ ⟨true, false, true, 1, [], [], [], 3⟩ 0x57 rfl rfl (by rfl)
      rfl (by decide)).2.2.2 (by decide) (by decide) (by decide)⟩

end Nfcd
